import Mathlib

/-!
# CivicConnect (src/script.js): report lifecycle, routing, validation

A shallow embedding of the `CivicConnectApp` class of `src/script.js`.

Conventions of the embedding.

* A JavaScript string is a Lean `String`; its `length` is the number of UTF-16
  code units (`jsLength`), so a character outside the basic plane counts twice.
* `new Date().toISOString()` is a clock reading, passed in as an argument and
  kept as its epoch-millisecond value (`Time`); `new Date(str)` on such a
  string gives that value back.
* `Math.random()`/`Date.now()` inside `generateId` is an oracle: the generated
  id is an argument.
* Report objects live in a heap (`App.heap`, addressed by position) and
  `this.reports` is the list of their addresses: `Array.prototype.sort`
  reorders the addresses in place while closures created by
  `simulateResolution` keep pointing at the same objects.
* `setTimeout` appends a task to `App.timers`; pending tasks may fire in any
  order.
* DOM rendering is left out; what the code writes outside the object
  (`localStorage.setItem`, notifications, the dashboard counters) is recorded
  in `App.effects`. The page is taken to hold every element the code
  dereferences without a check (the form controls, the dashboard counters);
  the one element the lifecycle code tests for, `recentActivity`, is a flag of
  the state.
-/

namespace CivicConnect

/-! ## JavaScript strings -/

/-- `String.prototype.length`: number of UTF-16 code units. -/
def jsLength (s : String) : Nat :=
  (s.data.map (fun c => if c.toNat < 65536 then 1 else 2)).sum

/-- WhiteSpace and LineTerminator code points, the ones `trim` strips. -/
def isJSWhiteSpace (c : Char) : Bool :=
  let n := c.toNat
  n == 0x09 || n == 0x0A || n == 0x0B || n == 0x0C || n == 0x0D || n == 0x20 ||
  n == 0xA0 || n == 0x1680 || (0x2000 ≤ n && n ≤ 0x200A) || n == 0x2028 ||
  n == 0x2029 || n == 0x202F || n == 0x205F || n == 0x3000 || n == 0xFEFF

/-- `String.prototype.trim` on the list of characters. -/
def trimChars (cs : List Char) : List Char :=
  ((cs.dropWhile isJSWhiteSpace).reverse.dropWhile isJSWhiteSpace).reverse

/-- `String.prototype.trim`. -/
def jsTrim (s : String) : String :=
  String.mk (trimChars s.data)

/-! ## The regular expression of `sanitizeInput`

A backtracking matcher for the constructs the pattern uses, following the
matcher semantics of ECMAScript (greedy `*` that gives iterations back on
failure, negative lookahead, `\b`, flag `i`). -/

/-- Regular expressions, as far as `sanitizeInput` needs them. -/
inductive Regex where
  /-- A pattern character, compared under flag `i`. -/
  | char (c : Char)
  /-- The class `[^c]`. -/
  | notChar (c : Char)
  /-- The assertion `\b`. -/
  | wordBoundary
  /-- Concatenation. -/
  | seq (r₁ r₂ : Regex)
  /-- Greedy `r*`. -/
  | star (r : Regex)
  /-- Negative lookahead `(?!r)`. -/
  | notAhead (r : Regex)
  /-- The empty pattern. -/
  | empty

/-- Canonicalisation of flag `i` (without flag `u`), as far as a comparison
with an ASCII pattern character goes: upper-casing never maps a non-ASCII
character to an ASCII one, so only the two ASCII cases of a letter are
identified with it. -/
def canonicalize (c : Char) : Char := c.toUpper

/-- Word characters of `\b`: `[A-Za-z0-9_]`. -/
def isWordChar (c : Char) : Bool :=
  c.isAlphanum || c == '_'

/-- Whether the position next to an optional character is inside a word. -/
def isWordAt : Option Char → Bool
  | none => false
  | some c => isWordChar c

/-- Greedy repetition of the matcher `step`; an iteration has to consume input.
The counter starts above the length of the input and is never exhausted. -/
def starLoop {α : Type} (step : Option Char → List Char →
    (Option Char → List Char → Option α) → Option α) :
    Nat → Option Char → List Char → (Option Char → List Char → Option α) → Option α
  | 0, prev, cs, k => k prev cs
  | n + 1, prev, cs, k =>
    match step prev cs (fun p cs' =>
        if cs'.length < cs.length then starLoop step n p cs' k else none) with
    | some r => some r
    | none => k prev cs

/-- The matcher of a pattern: `prev` is the character before the current
position, `cs` the input from the current position on, `k` the continuation. -/
def Regex.run {α : Type} : Regex → Option Char → List Char →
    (Option Char → List Char → Option α) → Option α
  | .empty, prev, cs, k => k prev cs
  | .char c, _, cs, k =>
    match cs with
    | [] => none
    | d :: ds => if canonicalize d = canonicalize c then k (some d) ds else none
  | .notChar c, _, cs, k =>
    match cs with
    | [] => none
    | d :: ds => if d = c then none else k (some d) ds
  | .wordBoundary, prev, cs, k =>
    if isWordAt prev != isWordAt cs.head? then k prev cs else none
  | .seq r₁ r₂, prev, cs, k => r₁.run prev cs (fun p cs' => r₂.run p cs' k)
  | .star r, prev, cs, k => starLoop (fun p cs' k' => r.run p cs' k') (cs.length + 1) prev cs k
  | .notAhead r, prev, cs, k =>
    match r.run prev cs (fun _ cs' => some cs') with
    | some _ => none
    | none => k prev cs

/-- The literal characters of a pattern, in sequence. -/
def Regex.lit : List Char → Regex
  | [] => .empty
  | c :: cs => .seq (.char c) (Regex.lit cs)

/-- First match of `re` starting at the current position: the last character
it consumed (or `prev`) and the input left after it. -/
def Regex.matchHere (re : Regex) (prev : Option Char) (cs : List Char) :
    Option (Option Char × List Char) :=
  re.run prev cs (fun p cs' => some (p, cs'))

/-- `str.replace(re, '')` with flag `g`: scan from the left, drop each match
and go on after it. The counter starts above the length of the input. -/
def replaceAllEmpty (re : Regex) : Nat → Option Char → List Char → List Char
  | 0, _, cs => cs
  | _ + 1, _, [] => []
  | n + 1, prev, c :: cs =>
    match re.matchHere prev (c :: cs) with
    | some (p, rest) =>
      if rest.length < (c :: cs).length then replaceAllEmpty re n p rest
      else c :: replaceAllEmpty re n (some c) cs
    | none => c :: replaceAllEmpty re n (some c) cs

/-- The pattern `/<script\b[^<]*(?:(?!<\/script>)<[^<]*)*<\/script>/gi`. -/
def scriptPattern : Regex :=
  .seq (Regex.lit "<script".data)
  (.seq .wordBoundary
  (.seq (.star (.notChar '<'))
  (.seq (.star (.seq (.notAhead (Regex.lit "</script>".data))
                (.seq (.char '<') (.star (.notChar '<')))))
        (Regex.lit "</script>".data))))

/-- `sanitizeInput(input)`: `''` for a falsy input, else the trimmed input
with every match of the script pattern removed. -/
def sanitizeInput (input : String) : String :=
  if input = "" then ""
  else
    let t := trimChars input.data
    String.mk (replaceAllEmpty scriptPattern (t.length + 1) none t)

/-! ## Data model -/

/-- Epoch milliseconds of a timestamp string. -/
abbrev Time := Int

/-- A value read from a property or stored in one: `undefined`, a string, a
member inherited from `Object.prototype` (a built-in function, or the
prototype object itself for `__proto__`), named by the property that held it,
or a plain object without own properties (what `JSON.parse` returns for `{}`). -/
inductive JSValue where
  | undefined
  | str (s : String)
  | inherited (name : String)
  | plainObject
  deriving DecidableEq

/-- Truthiness (`ToBoolean`). -/
def JSValue.truthy : JSValue → Bool
  | .undefined => false
  | .str s => s != ""
  | .inherited _ => true
  | .plainObject => true

/-- The operator `a || b`. -/
def JSValue.or (a b : JSValue) : JSValue :=
  if a.truthy then a else b

/-- String conversion in a template literal (`ToString`); a built-in function
prints as its native-code source text. -/
def JSValue.toJSString : JSValue → String
  | .undefined => "undefined"
  | .str s => s
  | .inherited name =>
    if name = "__proto__" then "[object Object]"
    else if name = "constructor" then "function Object() \x7b [native code] \x7d"
    else "function " ++ name ++ "() \x7b [native code] \x7d"
  | .plainObject => "[object Object]"

/-- One entry of `report.timeline`. -/
structure TimelineEntry where
  status : String
  date : Time
  description : String
  deriving DecidableEq

/-- One entry of `getEvidenceFiles()`. -/
structure EvidenceFile where
  name : String
  size : Nat
  type : String
  lastModified : Time
  deriving DecidableEq

/-- A report object (also the shape of a draft). A property that has not been
set is `none`/`undefined`/`false`, and `[]` for `evidence`. `category` is
optional because a record may lack it; the text fields always come from form
inputs and are strings. -/
structure Report where
  id : String
  title : String
  category : Option String
  priority : String
  location : String
  description : String
  evidence : List EvidenceFile
  isPublic : Bool
  isAnonymous : Bool
  submittedBy : Option String
  submittedAt : Time
  status : String
  timeline : List TimelineEntry
  assignedTo : JSValue := .undefined
  routedAt : Option Time := none
  isDraft : Bool := false
  savedAt : Option Time := none
  deriving DecidableEq

/-- The registered user (`this.currentUser`). -/
structure User where
  id : String
  name : String
  email : String
  phone : String
  location : String
  registeredAt : Time
  isVerified : Bool
  deriving DecidableEq

/-- The object `getSettings()` returns; the same record holds the state of the
settings controls. -/
structure Settings where
  highContrast : Bool
  largeText : Bool
  screenReader : Bool
  language : String
  emailNotifications : Bool
  smsNotifications : Bool
  deriving DecidableEq

/-- The object `saveToLocalStorage` serialises. -/
structure Snapshot where
  reports : List Report
  drafts : List Report
  currentUser : Option User
  settings : Settings
  deriving DecidableEq

/-- The values of the report form controls. -/
structure Form where
  title : String
  category : String
  priority : String
  location : String
  description : String
  evidence : List EvidenceFile
  isPublic : Bool
  isAnonymous : Bool
  deriving DecidableEq

/-! ## Validation and routing -/

/-- The result object of `validateReportData`. -/
structure Validation where
  isValid : Bool
  errors : List String
  data : Report
  deriving DecidableEq

/-- The test `!data.title || data.title.trim().length < n` on a string. -/
def tooShort (s : String) (n : Nat) : Bool :=
  s == "" || decide (jsLength (jsTrim s) < n)

/-- The test `!data.category`: the category is missing or the empty string. -/
def categoryMissing (c : Option String) : Bool :=
  match c with
  | none => true
  | some s => s == ""

/-- `validateReportData(data)`: the three checks push their messages in order,
then title, description and location are replaced by their sanitised text. -/
def validateReportData (data : Report) : Validation :=
  let errors : List String := []
  let errors := if tooShort data.title 5 then
      errors ++ ["Title must be at least 5 characters long"] else errors
  let errors := if categoryMissing data.category then
      errors ++ ["Please select a category"] else errors
  let errors := if tooShort data.description 20 then
      errors ++ ["Description must be at least 20 characters long"] else errors
  let data := { data with
    title := sanitizeInput data.title
    description := sanitizeInput data.description
    location := sanitizeInput data.location }
  { isValid := errors.length == 0, errors := errors, data := data }

/-- The object literal `routingRules`: its own properties. -/
def routingRules : List (String × String) :=
  [("infrastructure", "Municipal Public Works Department"),
   ("public-safety", "Police Department"),
   ("environment", "Environmental Protection Agency"),
   ("transportation", "Transportation Department"),
   ("public-services", "Municipal Services"),
   ("corruption", "Anti-Corruption Commission"),
   ("accessibility", "Disability Rights Office"),
   ("other", "General Administration")]

/-- Property names every object literal inherits from `Object.prototype`. -/
def objectPrototypeNames : List String :=
  ["constructor", "hasOwnProperty", "isPrototypeOf", "propertyIsEnumerable",
   "toLocaleString", "toString", "valueOf", "__proto__", "__defineGetter__",
   "__defineSetter__", "__lookupGetter__", "__lookupSetter__"]

/-- Property key of the expression `obj[v]` for a category value `v`:
`undefined` becomes the key `"undefined"`. -/
def propertyKey : Option String → String
  | none => "undefined"
  | some s => s

/-- Property read `obj[key]` on an object literal with string-valued own
properties: an own property first, then the prototype chain. -/
def getProperty (own : List (String × String)) (key : String) : JSValue :=
  match own.lookup key with
  | some v => .str v
  | none => if key ∈ objectPrototypeNames then .inherited key else .undefined

/-- The expression `routingRules[report.category] || 'General Administration'`. -/
def routeAuthority (category : Option String) : JSValue :=
  (getProperty routingRules (propertyKey category)).or (.str "General Administration")

/-- `routeReport(report)`, with the clock reading of `routedAt`. -/
def routeReport (report : Report) (now : Time) : Report :=
  let assignedTo := routeAuthority report.category
  { report with
    assignedTo := assignedTo
    routedAt := some now
    timeline := report.timeline ++
      [{ status := "routed", date := now,
         description := "Report routed to " ++ assignedTo.toJSString }] }

/-! ## Application state -/

/-- The arrow functions the code hands to `setTimeout`. -/
inductive TimerTask where
  /-- In `submitReport`: `this.updateReportStatus(routedReport.id, ...)`. -/
  | updateStatus (reportId newStatus description : String)
  /-- In `simulateResolution`: the advance of the captured `report` object. -/
  | advance (report : Nat)
  /-- In `generateMockData`: `this.simulateResolution()`. -/
  | simulate
  deriving DecidableEq

/-- A pending `setTimeout` call. -/
structure Timer where
  delay : Nat
  task : TimerTask
  deriving DecidableEq

/-- What the code writes outside the application object. -/
inductive Effect where
  /-- The call `localStorage.setItem('civicConnectData', JSON.stringify(data))`. -/
  | setItem (data : Snapshot)
  /-- The call `showNotification(type, title, message)`. -/
  | showNotification (type title message : String)
  /-- The three counters `updateDashboard` writes. -/
  | dashboard (totalReports resolvedReports pendingReports : Nat)
  deriving DecidableEq

/-- The application object, the pending timers, the stored snapshot and the
part of the page the lifecycle code reads. -/
structure App where
  currentUser : Option User
  isOffline : Bool
  /-- Every report object created so far, by address. -/
  heap : List Report
  /-- The array `this.reports`: addresses into `heap`. -/
  reports : List Nat
  /-- The array `this.drafts`. -/
  drafts : List Report
  /-- The object last serialised under the key `civicConnectData`. -/
  storage : Option Snapshot
  timers : List Timer
  effects : List Effect
  /-- State of the settings controls, read by `getSettings`: a box that is
  missing or unchecked is `false`, a language control that is missing or has
  no value is the empty string. -/
  settings : Settings
  /-- Whether the element `recentActivity` exists. -/
  recentActivity : Bool

/-- The object at an address. -/
def App.deref (s : App) (a : Nat) : Option Report :=
  s.heap[a]?

/-- The elements of `this.reports`, in order. -/
def App.reportList (s : App) : List Report :=
  s.reports.filterMap s.deref

/-- `showNotification(type, title, message)`. -/
def showNotification (s : App) (type title message : String) : App :=
  { s with effects := s.effects ++ [.showNotification type title message] }

/-- `getSettings()`: every flag is `checked || false` of its box, the language
is `value || 'en'` of the language control. -/
def getSettings (s : App) : Settings :=
  { highContrast := s.settings.highContrast || false
    largeText := s.settings.largeText || false
    screenReader := s.settings.screenReader || false
    language := if s.settings.language = "" then "en" else s.settings.language
    emailNotifications := s.settings.emailNotifications || false
    smsNotifications := s.settings.smsNotifications || false }

/-- `saveToLocalStorage()`. -/
def saveToLocalStorage (s : App) : App :=
  let data : Snapshot :=
    { reports := s.reportList, drafts := s.drafts,
      currentUser := s.currentUser, settings := getSettings s }
  { s with storage := some data, effects := s.effects ++ [.setItem data] }

/-- The test `['submitted', 'under-review', 'in-progress'].includes(r.status)`. -/
def isPending (r : Report) : Bool :=
  ["submitted", "under-review", "in-progress"].contains r.status

/-- `submittedAt` of the object at an address. -/
def App.submittedAtOf (s : App) (a : Nat) : Time :=
  match s.deref a with
  | some r => r.submittedAt
  | none => 0

/-- `updateRecentActivity()`: when the container exists, `this.reports.sort`
with the comparator `new Date(b.submittedAt) - new Date(a.submittedAt)`
reorders the array in place (the sort is stable). -/
def updateRecentActivity (s : App) : App :=
  if s.recentActivity then
    { s with reports :=
        s.reports.insertionSort (fun a b => s.submittedAtOf b - s.submittedAtOf a ≤ 0) }
  else s

/-- `updateDashboard()`. -/
def updateDashboard (s : App) : App :=
  let totalReports := s.reportList.length
  let resolvedReports := (s.reportList.filter (fun r => r.status == "resolved")).length
  let pendingReports := (s.reportList.filter isPending).length
  updateRecentActivity
    { s with effects := s.effects ++ [.dashboard totalReports resolvedReports pendingReports] }

/-- `this.reports.find(r => r.id === reportId)`: the first element of the
array with that id, with its address. -/
def App.findReport (s : App) (reportId : String) : Option (Nat × Report) :=
  s.reports.findSome? (fun a =>
    match s.deref a with
    | some r => if r.id = reportId then some (a, r) else none
    | none => none)

/-- `updateReportStatus(reportId, newStatus, description)`, with the clock
reading of the new timeline entry. -/
def updateReportStatus (s : App) (reportId newStatus description : String)
    (now : Time) : App :=
  match s.findReport reportId with
  | none => s
  | some (a, report) =>
    let report' := { report with
      status := newStatus
      timeline := report.timeline ++
        [{ status := newStatus, date := now, description := description }] }
    let s := { s with heap := s.heap.set a report' }
    let s := saveToLocalStorage s
    let s := updateDashboard s
    if newStatus = "resolved" then
      showNotification s "success" "Issue Resolved"
        ("Your report \"" ++ report.title ++ "\" has been resolved.")
    else s

/-- `Array.prototype.indexOf`: `-1` when the element is absent. -/
def jsIndexOf : List String → String → Int
  | [], _ => -1
  | y :: ys, x =>
    if y = x then 0
    else
      let i := jsIndexOf ys x
      if i < 0 then -1 else i + 1

/-- The array `statuses` of the advance task. -/
def statuses : List String := ["under-review", "in-progress", "resolved"]

/-- The object literal `descriptions` of the advance task. -/
def descriptions : List (String × String) :=
  [("under-review", "Report is being reviewed by authorities"),
   ("in-progress", "Authorities have started working on this issue"),
   ("resolved", "Issue has been successfully resolved")]

/-- The body of the arrow function `simulateResolution` schedules for the
captured object `report` (an address): one advance step. -/
def advanceTask (s : App) (report : Nat) (now : Time) : App :=
  match s.deref report with
  | none => s
  | some r =>
    let currentIndex := jsIndexOf statuses r.status
    if currentIndex < (statuses.length : Int) - 1 then
      let nextStatus := statuses.getD (currentIndex + 1).toNat "undefined"
      updateReportStatus s r.id nextStatus
        ((descriptions.lookup nextStatus).getD "undefined") now
    else s

/-- `setTimeout(task, delay)`. -/
def setTimeout (s : App) (task : TimerTask) (delay : Nat) : App :=
  { s with timers := s.timers ++ [{ delay := delay, task := task }] }

/-- `simulateResolution()`: one task per pending report, staggered. -/
def simulateResolution (s : App) : App :=
  let pendingReports := s.reports.filter (fun a => (s.deref a).any isPending)
  { s with timers := s.timers ++
      pendingReports.enum.map (fun p =>
        { delay := (p.1 + 1) * 10000, task := .advance p.2 }) }

/-- `collectReportData()`: `id` is the result of `generateId()`, `t₁` and `t₂`
the two clock readings. -/
def collectReportData (s : App) (form : Form) (id : String) (t₁ t₂ : Time) : Report :=
  { id := id
    title := form.title
    category := some form.category
    priority := form.priority
    location := form.location
    description := form.description
    evidence := form.evidence
    isPublic := form.isPublic
    isAnonymous := form.isAnonymous
    submittedBy := if s.isOffline then some "offline_user" else s.currentUser.map (·.id)
    submittedAt := t₁
    status := "submitted"
    timeline := [{ status := "submitted", date := t₂,
                   description := "Report submitted by citizen" }] }

/-- `id.substring(0, 8)`, for an id of basic-plane characters (`generateId`
returns digits and lower-case letters). -/
def idStart (id : String) : String :=
  String.mk (id.data.take 8)

/-- `submitReport()`: `t₃` is the clock reading of `routeReport`. -/
def submitReport (s : App) (form : Form) (id : String) (t₁ t₂ t₃ : Time) : App :=
  let data := collectReportData s form id t₁ t₂
  let validation := validateReportData data
  if !validation.isValid then
    showNotification s "error" "Validation Error" (", ".intercalate validation.errors)
  else
    let routedReport := routeReport validation.data t₃
    let s := { s with heap := s.heap ++ [routedReport],
                      reports := s.reports ++ [s.heap.length] }
    let s := saveToLocalStorage s
    let s := setTimeout s
      (.updateStatus routedReport.id "under-review" "Report is being reviewed by authorities")
      2000
    showNotification s "success" "Report Submitted"
      ("Your report has been submitted with ID: " ++ idStart routedReport.id ++
       ". You can track its progress in the tracking section.")

/-- `saveDraft()`: `t₃` is the clock reading of `savedAt`. -/
def saveDraft (s : App) (form : Form) (id : String) (t₁ t₂ t₃ : Time) : App :=
  let data := collectReportData s form id t₁ t₂
  let data := { data with isDraft := true, savedAt := some t₃ }
  let s := { s with drafts := s.drafts ++ [data] }
  let s := saveToLocalStorage s
  showNotification s "info" "Draft Saved" "Your report has been saved as a draft."

/-- `registerUser()`, from the values of the registration form. -/
def registerUser (s : App) (name email phone location id : String) (now : Time) : App :=
  if name = "" || email = "" then
    showNotification s "error" "Registration Error" "Name and email are required."
  else
    let user : User :=
      { id := id, name := name, email := email, phone := phone, location := location,
        registeredAt := now, isVerified := true }
    let s := { s with currentUser := some user }
    let s := saveToLocalStorage s
    showNotification s "success" "Welcome!"
      ("Welcome to CivicConnect, " ++ name ++
       "! You can now start reporting issues in your community.")

/-- `updateOnlineStatus(isOnline)`. -/
def updateOnlineStatus (s : App) (isOnline : Bool) : App :=
  { s with isOffline := !isOnline }

/-- The two demo reports of `generateMockData`; `now k` is the `k`-th reading
of `Date.now()` in the array literal. -/
def mockReports (id₁ id₂ : String) (now : Nat → Time) : List Report :=
  [{ id := id₁
     title := "Broken streetlight on Main Street"
     category := some "infrastructure"
     priority := "medium"
     location := "Main Street & 5th Avenue"
     description := "The streetlight at the intersection of Main Street and 5th Avenue has been broken for over a week, creating a safety hazard for pedestrians and drivers."
     evidence := []
     isPublic := true
     isAnonymous := false
     submittedBy := some "demo_user"
     submittedAt := now 0 - 2 * 24 * 60 * 60 * 1000
     status := "in-progress"
     assignedTo := .str "Municipal Public Works Department"
     timeline :=
       [{ status := "submitted", date := now 1 - 2 * 24 * 60 * 60 * 1000,
          description := "Report submitted by citizen" },
        { status := "under-review", date := now 2 - 129600000,
          description := "Report is being reviewed by authorities" },
        { status := "in-progress", date := now 3 - 1 * 24 * 60 * 60 * 1000,
          description := "Authorities have started working on this issue" }] },
   { id := id₂
     title := "Illegal dumping in Central Park"
     category := some "environment"
     priority := "high"
     location := "Central Park, North Section"
     description := "Someone has been illegally dumping construction waste in the north section of Central Park. This is damaging the environment and creating an eyesore."
     evidence := []
     isPublic := true
     isAnonymous := true
     submittedBy := some "anonymous"
     submittedAt := now 4 - 5 * 24 * 60 * 60 * 1000
     status := "resolved"
     assignedTo := .str "Environmental Protection Agency"
     timeline :=
       [{ status := "submitted", date := now 5 - 5 * 24 * 60 * 60 * 1000,
          description := "Report submitted by citizen" },
        { status := "under-review", date := now 6 - 4 * 24 * 60 * 60 * 1000,
          description := "Report is being reviewed by authorities" },
        { status := "in-progress", date := now 7 - 2 * 24 * 60 * 60 * 1000,
          description := "Cleanup crew dispatched to the location" },
        { status := "resolved", date := now 8 - 1 * 24 * 60 * 60 * 1000,
          description := "Illegal waste removed and area cleaned up" }] }]

/-- `generateMockData()`: seeds an empty repository with the demo reports, then
schedules `simulateResolution`. -/
def generateMockData (s : App) (id₁ id₂ : String) (now : Nat → Time) : App :=
  let s :=
    if s.reports.length = 0 then
      saveToLocalStorage
        { s with heap := s.heap ++ mockReports id₁ id₂ now,
                 reports := [s.heap.length, s.heap.length + 1] }
    else s
  setTimeout s .simulate 5000

/-- The application object as the constructor leaves it before `init()`, on a
page with the given connectivity, settings controls and dashboard container,
and with nothing stored yet. -/
def App.new (isOffline : Bool) (settings : Settings) (recentActivity : Bool) : App :=
  { currentUser := none, isOffline := isOffline, heap := [], reports := [], drafts := [],
    storage := none, timers := [], effects := [],
    settings := settings, recentActivity := recentActivity }

/-- `init()` on a page with nothing stored (`loadFromLocalStorage` finds no
snapshot): the demo reports are seeded and the dashboard is drawn. -/
def init (isOffline : Bool) (settings : Settings) (recentActivity : Bool)
    (id₁ id₂ : String) (now : Nat → Time) : App :=
  updateDashboard (generateMockData (App.new isOffline settings recentActivity) id₁ id₂ now)

/-- Runs a timer task that has come due. -/
def runTask (s : App) (task : TimerTask) (now : Time) : App :=
  match task with
  | .updateStatus reportId newStatus description =>
    updateReportStatus s reportId newStatus description now
  | .advance report => advanceTask s report now
  | .simulate => simulateResolution s

/-- Removes the timer at position `i` and runs its task. -/
def fire (s : App) (i : Nat) (now : Time) : App :=
  match s.timers[i]? with
  | none => s
  | some t => runTask { s with timers := s.timers.eraseIdx i } t.task now

/-- One event of the running program: a user action or a timer that fires.
`generateId` never returns the id of a report that already exists. -/
inductive Step : App → App → Prop where
  | submit (s : App) (form : Form) (id : String) (t₁ t₂ t₃ : Time)
      (fresh : ∀ r ∈ s.heap, r.id ≠ id) :
      Step s (submitReport s form id t₁ t₂ t₃)
  | draft (s : App) (form : Form) (id : String) (t₁ t₂ t₃ : Time) :
      Step s (saveDraft s form id t₁ t₂ t₃)
  | register (s : App) (name email phone location id : String) (now : Time) :
      Step s (registerUser s name email phone location id now)
  | online (s : App) (isOnline : Bool) :
      Step s (updateOnlineStatus s isOnline)
  | dashboard (s : App) :
      Step s (updateDashboard s)
  | timer (s : App) (i : Nat) (now : Time) (due : i < s.timers.length) :
      Step s (fire s i now)

/-- States the program reaches from the empty application object or from the
seeded one. -/
inductive Reachable : App → Prop where
  | empty (isOffline : Bool) (settings : Settings) (recentActivity : Bool) :
      Reachable (App.new isOffline settings recentActivity)
  | seeded (isOffline : Bool) (settings : Settings) (recentActivity : Bool)
      (id₁ id₂ : String) (now : Nat → Time) (distinct : id₁ ≠ id₂) :
      Reachable (init isOffline settings recentActivity id₁ id₂ now)
  | step {s s' : App} (h : Reachable s) (st : Step s s') : Reachable s'

/-! ## Fixtures and predicates used by the theorems -/

/-- Some state of the settings controls. -/
def defaultSettings : Settings :=
  { highContrast := false, largeText := false, screenReader := false,
    language := "en", emailNotifications := false, smsNotifications := false }

/-- The form of the pothole scenario. -/
def potholeForm : Form :=
  { title := "Pothole on Oak St", category := "infrastructure", priority := "medium",
    location := "", description := "A large pothole has formed near the school crossing.",
    evidence := [], isPublic := true, isAnonymous := false }

/-- A freshly collected report with the given category. -/
def categoryReport (category : Option String) : Report :=
  { id := "r", title := "", category := category, priority := "", location := "",
    description := "", evidence := [], isPublic := false, isAnonymous := false,
    submittedBy := none, submittedAt := 0, status := "submitted",
    timeline := [{ status := "submitted", date := 0,
                   description := "Report submitted by citizen" }] }

/-- The seeded application with ids `m1`, `m2` and a constant clock. -/
def seededApp : App :=
  init false defaultSettings true "m1" "m2" (fun _ => 1700000000000)

/-- The report object once `updateReportStatus` has assigned its status and
pushed the timeline entry. -/
def Report.withStatus (r : Report) (newStatus description : String) (now : Time) : Report :=
  { r with
    status := newStatus
    timeline := r.timeline ++
      [{ status := newStatus, date := now, description := description }] }

/-- The tasks of the pending timers. -/
def App.tasks (s : App) : List TimerTask :=
  s.timers.map (·.task)

/-- The object an advance task has captured. -/
def TimerTask.advanceAddr : TimerTask → Option Nat
  | .advance a => some a
  | _ => none

/-- The report id a deferred status update carries. -/
def TimerTask.statusId : TimerTask → Option String
  | .updateStatus reportId _ _ => some reportId
  | _ => none

/-- Addresses captured by the pending advance tasks. -/
def advanceAddrs (tasks : List TimerTask) : List Nat :=
  tasks.filterMap TimerTask.advanceAddr

/-- Report ids carried by the pending deferred status updates. -/
def statusIds (tasks : List TimerTask) : List String :=
  tasks.filterMap TimerTask.statusId

/-- The status of the last timeline entry, if there is one. -/
def lastStatus (r : Report) : Option String :=
  r.timeline.getLast?.map (·.status)

/-- Status and timeline agree: the status is that of the last entry, or the
report is as `submitReport` stored it (status `submitted`, entries `submitted`
and `routed`). -/
def StatusAgrees (r : Report) : Prop :=
  lastStatus r = some r.status ∨
  (r.status = "submitted" ∧ r.timeline.map (·.status) = ["submitted", "routed"])

/-- The timeline starts with the `submitted` entry. -/
def StartsSubmitted (r : Report) : Prop :=
  (r.timeline.head?.map (·.status)) = some "submitted"

/-- What a pending deferred status update of `submitReport` knows about its
report: it is still `submitted`, or one advance step has made it
`under-review` and no further advance of it is pending or can be scheduled. -/
def DeferredOK (s : App) (reportId : String) : Prop :=
  ∃ a r, s.deref a = some r ∧ r.id = reportId ∧
    (r.status = "submitted" ∨
     (r.status = "under-review" ∧ a ∉ advanceAddrs s.tasks ∧
      TimerTask.simulate ∉ s.tasks))

/-- Invariant of the running program. -/
structure Inv (s : App) : Prop where
  /-- `this.reports` holds every report object exactly once. -/
  perm : s.reports.Perm (List.range s.heap.length)
  /-- Report ids are pairwise distinct. -/
  ids : (s.heap.map (·.id)).Nodup
  /-- No object is captured by two pending advance tasks. -/
  advNodup : (advanceAddrs s.tasks).Nodup
  /-- `simulateResolution` is scheduled at most once. -/
  simOnce : s.tasks.count .simulate ≤ 1
  /-- Advance tasks exist only after `simulateResolution` has run. -/
  simFirst : TimerTask.simulate ∈ s.tasks → advanceAddrs s.tasks = []
  /-- Every pending deferred status update is the one of `submitReport`. -/
  deferred : ∀ reportId newStatus description,
    TimerTask.updateStatus reportId newStatus description ∈ s.tasks →
      newStatus = "under-review" ∧ DeferredOK s reportId
  /-- No two pending deferred status updates carry the same id. -/
  defNodup : (statusIds s.tasks).Nodup

/-! ## Persistence, filtering and scheduled advances -/

/-- `JSON.parse(JSON.stringify(v))` on a property value: a function-valued
property is left out by `JSON.stringify` and reads `undefined` afterwards, the
prototype object is written as `{}`. -/
def JSValue.throughJSON : JSValue → JSValue
  | .undefined => .undefined
  | .str s => .str s
  | .inherited name => if name = "__proto__" then .plainObject else .undefined
  | .plainObject => .plainObject

/-- `JSON.parse(JSON.stringify(report))`: strings, booleans, numbers and arrays
of them come back as they were; a property that is `undefined` is left out and
reads `undefined` again. -/
def Report.throughJSON (r : Report) : Report :=
  { r with assignedTo := r.assignedTo.throughJSON }

/-- `JSON.parse(JSON.stringify(data))` on the object `saveToLocalStorage`
builds. -/
def Snapshot.throughJSON (d : Snapshot) : Snapshot :=
  { d with reports := d.reports.map Report.throughJSON,
           drafts := d.drafts.map Report.throughJSON }

/-- What `localStorage.getItem('civicConnectData')` returns when the key is
set: the text `JSON.stringify(data)` of a snapshot, or a text `JSON.parse`
rejects. Only `saveToLocalStorage` writes the key, so a text that parses to
something else is not part of the model. -/
inductive StoredItem where
  | snapshot (data : Snapshot)
  | invalid (text : String)
  deriving DecidableEq

/-- The item under the key `civicConnectData` after the application has run. -/
def App.storedItem (s : App) : Option StoredItem :=
  s.storage.map StoredItem.snapshot

/-- `applySettings(settings)`, on the settings controls (taken to exist): a
flag that is set checks its box, a non-empty language is selected; nothing is
ever unchecked. -/
def applySettings (s : App) (settings : Settings) : App :=
  { s with settings :=
      { highContrast := s.settings.highContrast || settings.highContrast
        largeText := s.settings.largeText || settings.largeText
        screenReader := s.settings.screenReader || settings.screenReader
        language := if settings.language = "" then s.settings.language else settings.language
        emailNotifications := s.settings.emailNotifications || settings.emailNotifications
        smsNotifications := s.settings.smsNotifications || settings.smsNotifications } }

/-- `loadFromLocalStorage()`, given what `getItem` returns: nothing happens
without an item and when `JSON.parse` throws (the `catch` only logs);
otherwise the parsed arrays replace `this.reports` and `this.drafts` (the
parsed reports are new objects), the parsed user replaces `this.currentUser`
and the parsed settings go to `applySettings`. -/
def loadFromLocalStorage (s : App) (data : Option StoredItem) : App :=
  match data with
  | none => s
  | some (.invalid _) => s
  | some (.snapshot d) =>
    let parsed := d.throughJSON
    let s := { s with
      heap := s.heap ++ parsed.reports
      reports := List.range' s.heap.length parsed.reports.length
      drafts := parsed.drafts
      currentUser := parsed.currentUser }
    applySettings s parsed.settings

/-- `haystack.includes(needle)`. -/
def jsIncludes (haystack needle : String) : Bool :=
  haystack.data.tails.any (fun rest => needle.data.isPrefixOf rest)

/-- The test `if (value)` on what `document.getElementById(...)?.value` gives:
the element exists and its value is not the empty string. -/
def filterActive : Option String → Bool
  | none => false
  | some v => v != ""

/-- `getFilteredReports()`: `searchReports`, `statusFilter`, `categoryFilter`
are the values of the three controls (`none` for a missing element) and
`toLowerCase` is `String.prototype.toLowerCase`. A copy of `this.reports` goes
through the filters that are active and is then sorted (stable) with the
comparator `new Date(b.submittedAt) - new Date(a.submittedAt)`. Returns the
state after the call and the returned array of report objects, by address. -/
def getFilteredReports (s : App) (toLowerCase : String → String)
    (searchReports statusFilter categoryFilter : Option String) : App × List Nat :=
  let filtered := s.reports
  let searchTerm := searchReports.map toLowerCase
  let filtered :=
    match searchTerm with
    | some term =>
      if term != "" then
        filtered.filter (fun a => (s.deref a).any (fun (report : Report) =>
          jsIncludes (toLowerCase report.title) term ||
          jsIncludes (toLowerCase report.id) term))
      else filtered
    | none => filtered
  let filtered :=
    if filterActive statusFilter then
      filtered.filter (fun a =>
        (s.deref a).any (fun (report : Report) => some report.status == statusFilter))
    else filtered
  let filtered :=
    if filterActive categoryFilter then
      filtered.filter (fun a =>
        (s.deref a).any (fun (report : Report) => report.category == categoryFilter))
    else filtered
  (s, filtered.insertionSort (fun a b => s.submittedAtOf b - s.submittedAtOf a ≤ 0))

/-- The search filter of `getFilteredReports` on one report, for the
lower-cased search term; it lets every report pass when it is not active. -/
def searchPasses (toLowerCase : String → String) (searchTerm : Option String)
    (r : Report) : Bool :=
  match searchTerm with
  | some term =>
    if term != "" then
      jsIncludes (toLowerCase r.title) term || jsIncludes (toLowerCase r.id) term
    else true
  | none => true

/-- The status filter on one report. -/
def statusPasses (statusFilter : Option String) (r : Report) : Bool :=
  !filterActive statusFilter || (some r.status == statusFilter)

/-- The category filter on one report. -/
def categoryPasses (categoryFilter : Option String) (r : Report) : Bool :=
  !filterActive categoryFilter || (r.category == categoryFilter)

/-- The filters of `getFilteredReports` as one test on a report. -/
def passesFilters (toLowerCase : String → String)
    (searchTerm statusFilter categoryFilter : Option String) (r : Report) : Bool :=
  searchPasses toLowerCase searchTerm r && statusPasses statusFilter r &&
    categoryPasses categoryFilter r

/-- The array `pendingReports` of `simulateResolution`. -/
def pendingReports (s : App) : List Nat :=
  s.reports.filter (fun a => (s.deref a).any isPending)

/-- Fires one after the other, in the order of their delays, the timers that
were appended from position `p` on; `nows` holds one clock reading per timer. -/
def fireScheduled (s : App) (p : Nat) : List Time → App
  | [] => s
  | now :: rest => fireScheduled (fire s p now) p rest

/-- One round of scheduled advances: `simulateResolution()` and then every
task it has scheduled; `clock i` is the clock reading of the `i`-th task. -/
def advanceRound (s : App) (clock : Nat → Time) : App :=
  fireScheduled (simulateResolution s) s.timers.length
    ((List.range (pendingReports s).length).map clock)

/-- Rounds of scheduled advances repeated until no report is pending, at most
`fuel` of them; `clock k` is the clock of round `k`. Returns the final state
and the number of rounds made. -/
def resolveAll (clock : Nat → Nat → Time) : Nat → Nat → App → App × Nat
  | 0, _, s => (s, 0)
  | fuel + 1, k, s =>
    if pendingReports s = [] then (s, 0)
    else
      let res := resolveAll clock fuel (k + 1) (advanceRound s (clock k))
      (res.1, res.2 + 1)

/-- The object one advance step makes of a report. -/
def Report.advanced (r : Report) (now : Time) : Report :=
  if r.status = "resolved" then r
  else if r.status = "under-review" then
    r.withStatus "in-progress" "Authorities have started working on this issue" now
  else if r.status = "in-progress" then
    r.withStatus "resolved" "Issue has been successfully resolved" now
  else
    r.withStatus "under-review" "Report is being reviewed by authorities" now

/-- Number of advance steps a report still takes: 3 for `submitted`, 2 for
`under-review`, 1 for `in-progress`, none otherwise. -/
def Report.stepsLeft (r : Report) : Nat :=
  if r.status = "submitted" then 3
  else if r.status = "under-review" then 2
  else if r.status = "in-progress" then 1
  else 0

/-- Lower-casing of the letters `A` to `Z`, a stand-in for `toLowerCase` on
ASCII text. -/
def asciiLower (t : String) : String :=
  String.mk (t.data.map Char.toLower)

/-- A form with the given texts, category `other`. -/
def textForm (title description : String) : Form :=
  { title := title, category := "other", priority := "low", location := "",
    description := description, evidence := [], isPublic := true, isAnonymous := false }

/-- The pothole form with another category. -/
def potholeFormIn (category : String) : Form :=
  { potholeForm with category := category }

/-- The application after three valid submissions on an empty repository. -/
def threeSubmitted : App :=
  submitReport
    (submitReport
      (submitReport (App.new false defaultSettings true) potholeForm "a1" 10 10 11)
      potholeForm "b2" 20 20 21)
    potholeForm "c3" 30 30 31

/-- The four statuses of the lifecycle. -/
def lifecycleStatuses : List String :=
  ["submitted", "under-review", "in-progress", "resolved"]

/-! ## Page loads -/

/-- A later page load, `location.reload()` or a new visit: a new application
object runs `init()` on the storage the earlier page `s` has left. The stored
snapshot is loaded, the demo reports are seeded when no report was stored,
`simulateResolution` is scheduled and the dashboard is drawn; the timers of
the earlier page are gone. -/
def reloadPage (s : App) (isOffline : Bool) (settings : Settings) (recentActivity : Bool)
    (id₁ id₂ : String) (now : Nat → Time) : App :=
  updateDashboard (generateMockData
    (loadFromLocalStorage
      { App.new isOffline settings recentActivity with storage := s.storage } s.storedItem)
    id₁ id₂ now)

/-- States the program reaches over any number of page loads, starting with
nothing stored: every later load starts from the snapshot the page before it
has stored. -/
inductive ReachableOverLoads : App → Prop where
  | empty (isOffline : Bool) (settings : Settings) (recentActivity : Bool) :
      ReachableOverLoads (App.new isOffline settings recentActivity)
  | seeded (isOffline : Bool) (settings : Settings) (recentActivity : Bool)
      (id₁ id₂ : String) (now : Nat → Time) (distinct : id₁ ≠ id₂) :
      ReachableOverLoads (init isOffline settings recentActivity id₁ id₂ now)
  | step {s s' : App} (h : ReachableOverLoads s) (st : Step s s') : ReachableOverLoads s'
  | reload {s : App} (h : ReachableOverLoads s) (isOffline : Bool) (settings : Settings)
      (recentActivity : Bool) (id₁ id₂ : String) (now : Nat → Time) (distinct : id₁ ≠ id₂) :
      ReachableOverLoads (reloadPage s isOffline settings recentActivity id₁ id₂ now)

/-- The ids of the reports in the stored snapshot. -/
def storedIds (s : App) : List String :=
  match s.storage with
  | none => []
  | some d => d.reports.map (·.id)

/-- First page load: the pothole report is submitted on an empty page and its
deferred status update fires. -/
def firstLoad : App :=
  fire (submitReport (App.new false defaultSettings true) potholeForm "a1" 10 10 11) 0 2011

/-- Second page load: `simulateResolution` runs and the advance task of the
stored report fires. -/
def secondLoad : App :=
  fire (fire (reloadPage firstLoad false defaultSettings true "m1" "m2" (fun _ => 100000))
    0 105000) 0 115000

/-- Third page load: the next advance task resolves the report, then a second
report is submitted. -/
def thirdLoad : App :=
  submitReport
    (fire (fire (reloadPage secondLoad false defaultSettings true "m1" "m2" (fun _ => 200000))
      0 205000) 0 215000)
    potholeForm "b2" 220000 220000 220001

/-! ## Frame lemmas of the operations -/

theorem deref_eq (s : App) (a : Nat) : s.deref a = s.heap[a]? := rfl

theorem deref_lt {s : App} {a : Nat} {r : Report} (h : s.deref a = some r) :
    a < s.heap.length := by
  rw [deref_eq, List.getElem?_eq_some_iff] at h
  exact h.1

theorem mem_heap_of_deref {s : App} {a : Nat} {r : Report} (h : s.deref a = some r) :
    r ∈ s.heap := by
  rw [deref_eq] at h
  exact List.mem_iff_getElem?.mpr ⟨a, h⟩

theorem exists_deref_of_mem {s : App} {r : Report} (h : r ∈ s.heap) :
    ∃ a, s.deref a = some r := by
  obtain ⟨a, ha, rfl⟩ := List.getElem_of_mem h
  exact ⟨a, by rw [deref_eq, List.getElem?_eq_getElem ha]⟩

@[simp] theorem updateDashboard_heap (s : App) : (updateDashboard s).heap = s.heap := by
  unfold updateDashboard updateRecentActivity
  dsimp only
  split <;> rfl

@[simp] theorem updateDashboard_timers (s : App) : (updateDashboard s).timers = s.timers := by
  unfold updateDashboard updateRecentActivity
  dsimp only
  split <;> rfl

@[simp] theorem updateDashboard_drafts (s : App) : (updateDashboard s).drafts = s.drafts := by
  unfold updateDashboard updateRecentActivity
  dsimp only
  split <;> rfl

theorem updateDashboard_reports_perm (s : App) :
    (updateDashboard s).reports.Perm s.reports := by
  unfold updateDashboard updateRecentActivity
  dsimp only
  split
  · exact List.perm_insertionSort _ _
  · exact List.Perm.refl _

/-- `find` returns an element of the array that carries the id. -/
theorem findReport_some {s : App} {reportId : String} {a : Nat} {r : Report}
    (h : s.findReport reportId = some (a, r)) :
    a ∈ s.reports ∧ s.deref a = some r ∧ r.id = reportId := by
  obtain ⟨b, hb, hf⟩ := List.exists_of_findSome?_eq_some h
  cases hd : s.deref b with
  | none => simp [hd] at hf
  | some rb =>
    simp only [hd] at hf
    by_cases hid : rb.id = reportId
    · simp only [hid, if_true, Option.some.injEq, Prod.mk.injEq] at hf
      obtain ⟨rfl, rfl⟩ := hf
      exact ⟨hb, hd, hid⟩
    · simp [hid] at hf

theorem findSome?_unique {α β : Type} (f : α → Option β) (l : List α) (a : α) (v : β)
    (ha : a ∈ l) (hv : f a = some v) (hu : ∀ b ∈ l, ∀ w, f b = some w → w = v) :
    l.findSome? f = some v := by
  induction l with
  | nil => simp at ha
  | cons b l ih =>
    rw [List.findSome?_cons]
    cases hb : f b with
    | some w =>
      have := hu b (List.mem_cons_self _ _) w hb
      simp [this]
    | none =>
      simp only
      have hne : a ≠ b := by
        intro e
        rw [e, hb] at hv
        cases hv
      have ha' : a ∈ l := by
        rcases List.mem_cons.mp ha with e | h
        · exact absurd e hne
        · exact h
      exact ih ha' (fun c hc w hw => hu c (List.mem_cons_of_mem _ hc) w hw)

theorem addr_eq_of_id_eq {s : App} (hids : (s.heap.map (·.id)).Nodup) {a b : Nat}
    {ra rb : Report} (ha : s.deref a = some ra) (hb : s.deref b = some rb)
    (h : ra.id = rb.id) : a = b := by
  have la := deref_lt ha
  have lb := deref_lt hb
  rw [deref_eq, List.getElem?_eq_getElem la] at ha
  rw [deref_eq, List.getElem?_eq_getElem lb] at hb
  have la' : a < (s.heap.map (·.id)).length := by simpa using la
  have lb' : b < (s.heap.map (·.id)).length := by simpa using lb
  have e : (s.heap.map (·.id))[a] = (s.heap.map (·.id))[b] := by
    simp only [List.getElem_map]
    cases ha; cases hb
    exact h
  exact (hids.getElem_inj_iff).mp e

/-- With every object in the array and distinct ids, `find` by the id of an
object returns that object. -/
theorem findReport_of_distinct {s : App} (hperm : s.reports.Perm (List.range s.heap.length))
    (hids : (s.heap.map (·.id)).Nodup) {a : Nat} {r : Report} (hr : s.deref a = some r) :
    s.findReport r.id = some (a, r) := by
  unfold App.findReport
  apply findSome?_unique _ _ a
  · exact hperm.mem_iff.mpr (List.mem_range.mpr (deref_lt hr))
  · simp [hr]
  · intro b _ w hw
    cases hd : s.deref b with
    | none => simp [hd] at hw
    | some rb =>
      simp only [hd] at hw
      by_cases hid : rb.id = r.id
      · have hab := addr_eq_of_id_eq hids hd hr hid
        subst hab
        rw [hr] at hd
        cases hd
        simpa using hw.symm
      · simp [hid] at hw

theorem updateReportStatus_of_none {s : App} {reportId : String}
    (h : s.findReport reportId = none) (newStatus description : String) (now : Time) :
    updateReportStatus s reportId newStatus description now = s := by
  simp [updateReportStatus, h]

theorem updateReportStatus_heap {s : App} {reportId : String} {a : Nat} {r : Report}
    (h : s.findReport reportId = some (a, r)) (newStatus description : String) (now : Time) :
    (updateReportStatus s reportId newStatus description now).heap =
      s.heap.set a (r.withStatus newStatus description now) := by
  simp only [updateReportStatus, h]
  split <;> simp [showNotification, saveToLocalStorage, Report.withStatus]

@[simp] theorem updateReportStatus_timers (s : App) (reportId newStatus description : String)
    (now : Time) :
    (updateReportStatus s reportId newStatus description now).timers = s.timers := by
  unfold updateReportStatus
  split
  · rfl
  · dsimp only
    split <;> simp [showNotification, saveToLocalStorage]

@[simp] theorem updateReportStatus_drafts (s : App) (reportId newStatus description : String)
    (now : Time) :
    (updateReportStatus s reportId newStatus description now).drafts = s.drafts := by
  unfold updateReportStatus
  split
  · rfl
  · dsimp only
    split <;> simp [showNotification, saveToLocalStorage]

theorem updateReportStatus_reports_perm (s : App) (reportId newStatus description : String)
    (now : Time) :
    (updateReportStatus s reportId newStatus description now).reports.Perm s.reports := by
  unfold updateReportStatus
  split
  · exact List.Perm.refl _
  · dsimp only
    split
    · exact updateDashboard_reports_perm _
    · exact updateDashboard_reports_perm _

@[simp] theorem updateReportStatus_heap_length (s : App) (reportId newStatus description : String)
    (now : Time) :
    (updateReportStatus s reportId newStatus description now).heap.length = s.heap.length := by
  cases h : s.findReport reportId with
  | none => rw [updateReportStatus_of_none h]
  | some p =>
    obtain ⟨a, r⟩ := p
    rw [updateReportStatus_heap h, List.length_set]

@[simp] theorem updateReportStatus_ids (s : App) (reportId newStatus description : String)
    (now : Time) :
    (updateReportStatus s reportId newStatus description now).heap.map (·.id) =
      s.heap.map (·.id) := by
  cases h : s.findReport reportId with
  | none => rw [updateReportStatus_of_none h]
  | some p =>
    obtain ⟨a, r⟩ := p
    have hr := (findReport_some h).2.1
    rw [updateReportStatus_heap h, List.map_set]
    apply List.ext_getElem? 
    intro n
    rw [List.getElem?_set]
    split
    · rename_i e
      subst e
      have : a < (List.map (fun x => x.id) s.heap).length := by simpa using deref_lt hr
      simp only [this, if_true]
      rw [List.getElem?_map, ← deref_eq, hr]
      rfl
    · rfl

/-- What `updateReportStatus` does to the object at an address: the found
object gets the new status and one more timeline entry, every other object is
left as it is. -/
theorem deref_updateReportStatus (s : App) (reportId newStatus description : String)
    (now : Time) (b : Nat) :
    (updateReportStatus s reportId newStatus description now).deref b =
      if (s.findReport reportId).map (·.1) = some b
      then (s.deref b).map (fun r => r.withStatus newStatus description now)
      else s.deref b := by
  cases h : s.findReport reportId with
  | none => simp [updateReportStatus_of_none h]
  | some p =>
    obtain ⟨a, r⟩ := p
    have hr := (findReport_some h).2.1
    rw [deref_eq, updateReportStatus_heap h, List.getElem?_set]
    by_cases e : a = b
    · subst e
      simp [deref_lt hr, hr]
    · simp [e, deref_eq]

/-! ## The advance step -/

theorem jsIndexOf_statuses (x : String) :
    jsIndexOf statuses x =
      if x = "under-review" then 0 else if x = "in-progress" then 1
      else if x = "resolved" then 2 else -1 := by
  by_cases h1 : x = "under-review"
  · subst h1; decide
  by_cases h2 : x = "in-progress"
  · subst h2; decide
  by_cases h3 : x = "resolved"
  · subst h3; decide
  have h1' : ¬ "under-review" = x := fun e => h1 e.symm
  have h2' : ¬ "in-progress" = x := fun e => h2 e.symm
  have h3' : ¬ "resolved" = x := fun e => h3 e.symm
  simp [jsIndexOf, statuses, h1, h2, h3, h1', h2', h3']

/-- The status an advance step moves to, and its description. -/
theorem advanceTask_eq (s : App) (a : Nat) (now : Time) (r : Report)
    (hr : s.deref a = some r) :
    advanceTask s a now =
      if r.status = "resolved" then s
      else if r.status = "under-review" then
        updateReportStatus s r.id "in-progress"
          "Authorities have started working on this issue" now
      else if r.status = "in-progress" then
        updateReportStatus s r.id "resolved" "Issue has been successfully resolved" now
      else
        updateReportStatus s r.id "under-review" "Report is being reviewed by authorities" now := by
  simp only [advanceTask, hr, jsIndexOf_statuses]
  by_cases h1 : r.status = "under-review"
  · have : r.status ≠ "resolved" := by rw [h1]; decide
    simp only [h1, this, if_true, if_false]
    rw [if_pos (by decide)]
    rfl
  by_cases h2 : r.status = "in-progress"
  · have : r.status ≠ "resolved" := by rw [h2]; decide
    simp only [h1, h2, this, if_true, if_false]
    rw [if_pos (by decide)]
    rfl
  by_cases h3 : r.status = "resolved"
  · simp only [h1, h2, h3, if_true, if_false]
    rw [if_neg (by decide)]
  · simp only [h1, h2, h3, if_true, if_false]
    rw [if_pos (by decide)]
    rfl

theorem advanceTask_of_none (s : App) (a : Nat) (now : Time) (hr : s.deref a = none) :
    advanceTask s a now = s := by
  simp [advanceTask, hr]

/-! ## One event of the program -/

theorem timers_split {l : List Timer} {i : Nat} (h : i < l.length) :
    ∃ l₁ l₂, l = l₁ ++ l[i] :: l₂ ∧ l.eraseIdx i = l₁ ++ l₂ := by
  refine ⟨l.take i, l.drop (i + 1), ?_, List.eraseIdx_eq_take_drop_succ l i⟩
  rw [← List.drop_eq_getElem_cons h, List.take_append_drop]

/-- The report `submitReport` stores for a form. -/
theorem submitReport_valid (s : App) (form : Form) (id : String) (t₁ t₂ t₃ : Time)
    (hv : (validateReportData (collectReportData s form id t₁ t₂)).isValid = true) :
    (submitReport s form id t₁ t₂ t₃).heap =
        s.heap ++ [routeReport (validateReportData (collectReportData s form id t₁ t₂)).data t₃] ∧
    (submitReport s form id t₁ t₂ t₃).reports = s.reports ++ [s.heap.length] ∧
    (submitReport s form id t₁ t₂ t₃).timers = s.timers ++
        [{ delay := 2000, task := .updateStatus id "under-review"
            "Report is being reviewed by authorities" }] ∧
    (submitReport s form id t₁ t₂ t₃).drafts = s.drafts := by
  simp only [submitReport, hv]
  exact ⟨rfl, rfl, rfl, rfl⟩

theorem submitReport_invalid (s : App) (form : Form) (id : String) (t₁ t₂ t₃ : Time)
    (hv : (validateReportData (collectReportData s form id t₁ t₂)).isValid = false) :
    submitReport s form id t₁ t₂ t₃ =
      showNotification s "error" "Validation Error"
        (", ".intercalate (validateReportData (collectReportData s form id t₁ t₂)).errors) := by
  simp only [submitReport, hv]
  rfl

theorem updateReportStatus_heap_cases (s : App) (reportId newStatus description : String)
    (now : Time) :
    (updateReportStatus s reportId newStatus description now).heap = s.heap ∨
    (∃ a r, s.deref a = some r ∧
      (updateReportStatus s reportId newStatus description now).heap =
        s.heap.set a (r.withStatus newStatus description now)) := by
  cases hf : s.findReport reportId with
  | none => left; rw [updateReportStatus_of_none hf]
  | some p =>
    obtain ⟨a, r⟩ := p
    exact Or.inr ⟨a, r, (findReport_some hf).2.1, updateReportStatus_heap hf _ _ _⟩

theorem runTask_heap_cases (s : App) (task : TimerTask) (now : Time) :
    (runTask s task now).heap = s.heap ∨
    (∃ a r newStatus description, s.deref a = some r ∧
      (runTask s task now).heap = s.heap.set a (r.withStatus newStatus description now)) := by
  cases task with
  | updateStatus reportId newStatus description =>
    rcases updateReportStatus_heap_cases s reportId newStatus description now with h | ⟨a, r, h⟩
    · exact Or.inl h
    · exact Or.inr ⟨a, r, _, _, h⟩
  | advance b =>
    simp only [runTask]
    cases hb : s.deref b with
    | none => left; rw [advanceTask_of_none _ _ _ hb]
    | some rb =>
      rw [advanceTask_eq _ _ _ rb hb]
      split
      · left; rfl
      · split
        · rcases updateReportStatus_heap_cases s rb.id "in-progress"
            "Authorities have started working on this issue" now with h | ⟨a, r, h⟩
          · exact Or.inl h
          · exact Or.inr ⟨a, r, _, _, h⟩
        · split
          · rcases updateReportStatus_heap_cases s rb.id "resolved"
              "Issue has been successfully resolved" now with h | ⟨a, r, h⟩
            · exact Or.inl h
            · exact Or.inr ⟨a, r, _, _, h⟩
          · rcases updateReportStatus_heap_cases s rb.id "under-review"
              "Report is being reviewed by authorities" now with h | ⟨a, r, h⟩
            · exact Or.inl h
            · exact Or.inr ⟨a, r, _, _, h⟩
  | simulate => left; rfl

/-- The heap after an event: unchanged, one report appended by `submitReport`,
or one object touched by `updateReportStatus`. -/
theorem step_heap {s s' : App} (h : Step s s') :
    s'.heap = s.heap ∨
    (∃ form id t₁ t₂ t₃,
      s'.heap = s.heap ++
        [routeReport (validateReportData (collectReportData s form id t₁ t₂)).data t₃]) ∨
    (∃ a r newStatus description now, s.deref a = some r ∧
      s'.heap = s.heap.set a (r.withStatus newStatus description now)) := by
  cases h with
  | submit form id t₁ t₂ t₃ fresh =>
    cases hv : (validateReportData (collectReportData s form id t₁ t₂)).isValid with
    | true => right; left; exact ⟨form, id, t₁, t₂, t₃, (submitReport_valid s form id t₁ t₂ t₃ hv).1⟩
    | false => left; rw [submitReport_invalid s form id t₁ t₂ t₃ hv]; rfl
  | draft form id t₁ t₂ t₃ => left; rfl
  | register name email phone location id now =>
    left
    unfold registerUser
    split <;> rfl
  | online isOnline => left; rfl
  | dashboard => left; simp
  | timer i now due =>
    unfold fire
    rw [List.getElem?_eq_getElem due]
    dsimp only
    rcases runTask_heap_cases { s with timers := s.timers.eraseIdx i } s.timers[i].task now
      with h | ⟨a, r, ns, d, h1, h2⟩
    · exact Or.inl h
    · exact Or.inr (Or.inr ⟨a, r, ns, d, now, h1, h2⟩)

theorem init_heap (isOffline : Bool) (settings : Settings) (recentActivity : Bool)
    (id₁ id₂ : String) (now : Nat → Time) :
    (init isOffline settings recentActivity id₁ id₂ now).heap = mockReports id₁ id₂ now := by
  simp [init, generateMockData, App.new, setTimeout, saveToLocalStorage]

/-- A property of report objects that the demo reports and every stored report
have and that `updateReportStatus` keeps holds of every object the program
ever holds. -/
theorem reachable_heap_forall (P : Report → Prop)
    (hmock : ∀ id₁ id₂ now, ∀ r ∈ mockReports id₁ id₂ now, P r)
    (hnew : ∀ s form id t₁ t₂ t₃,
      P (routeReport (validateReportData (collectReportData s form id t₁ t₂)).data t₃))
    (htouch : ∀ r newStatus description now, P r → P (r.withStatus newStatus description now))
    {s : App} (hs : Reachable s) : ∀ r ∈ s.heap, P r := by
  induction hs with
  | empty isOffline settings recentActivity => intro r hr; simp [App.new] at hr
  | seeded isOffline settings recentActivity id₁ id₂ now distinct =>
    intro r hr
    rw [init_heap] at hr
    exact hmock _ _ _ r hr
  | step h st ih =>
    intro r hr
    rcases step_heap st with e | ⟨form, id, t₁, t₂, t₃, e⟩ | ⟨a, r₀, ns, d, now, hd, e⟩
    · rw [e] at hr; exact ih r hr
    · rw [e] at hr
      rcases List.mem_append.mp hr with h | h
      · exact ih r h
      · rw [List.mem_singleton] at h
        rw [h]; exact hnew _ _ _ _ _ _
    · rw [e] at hr
      rcases List.mem_or_eq_of_mem_set hr with h | h
      · exact ih r h
      · rw [h]; exact htouch _ _ _ _ (ih r₀ (mem_heap_of_deref hd))

/-! ## The invariant of the running program -/

theorem tasks_eq (s : App) : s.tasks = s.timers.map (·.task) := rfl

theorem mem_statusIds {tasks : List TimerTask} {reportId : String} :
    reportId ∈ statusIds tasks ↔
      ∃ newStatus description, TimerTask.updateStatus reportId newStatus description ∈ tasks := by
  unfold statusIds
  rw [List.mem_filterMap]
  constructor
  · rintro ⟨t, ht, e⟩
    cases t with
    | updateStatus i n d =>
      simp only [TimerTask.statusId, Option.some.injEq] at e
      subst e
      exact ⟨n, d, ht⟩
    | advance b => simp [TimerTask.statusId] at e
    | simulate => simp [TimerTask.statusId] at e
  · rintro ⟨n, d, h⟩
    exact ⟨_, h, rfl⟩

theorem mem_advanceAddrs {tasks : List TimerTask} {a : Nat} :
    a ∈ advanceAddrs tasks ↔ TimerTask.advance a ∈ tasks := by
  unfold advanceAddrs
  rw [List.mem_filterMap]
  constructor
  · rintro ⟨t, ht, e⟩
    cases t with
    | updateStatus i n d => simp [TimerTask.advanceAddr] at e
    | advance b =>
      simp only [TimerTask.advanceAddr, Option.some.injEq] at e
      subst e
      exact ht
    | simulate => simp [TimerTask.advanceAddr] at e
  · intro h
    exact ⟨_, h, rfl⟩

theorem DeferredOK.mono {s s₀ : App} {reportId : String} (h : DeferredOK s reportId)
    (hh : s₀.heap = s.heap) (ht : s₀.tasks ⊆ s.tasks) : DeferredOK s₀ reportId := by
  obtain ⟨a, r, hd, hid, hst⟩ := h
  refine ⟨a, r, by rw [deref_eq, hh]; exact hd, hid, ?_⟩
  rcases hst with h1 | ⟨h1, h2, h3⟩
  · exact Or.inl h1
  · refine Or.inr ⟨h1, ?_, fun hm => h3 (ht hm)⟩
    intro hm
    exact h2 (mem_advanceAddrs.mpr (ht (mem_advanceAddrs.mp hm)))

/-- Dropping pending timers and reordering the array keeps the invariant. -/
theorem Inv.of_sublist {s s₀ : App} (h : Inv s) (hh : s₀.heap = s.heap)
    (hp : s₀.reports.Perm s.reports) (ht : s₀.timers.Sublist s.timers) : Inv s₀ := by
  have hts : s₀.tasks.Sublist s.tasks := ht.map _
  have hadv : (advanceAddrs s₀.tasks).Sublist (advanceAddrs s.tasks) := hts.filterMap _
  refine ⟨?_, ?_, ?_, ?_, ?_, ?_, ?_⟩
  · rw [hh]; exact hp.trans h.perm
  · rw [hh]; exact h.ids
  · exact h.advNodup.sublist hadv
  · exact le_trans (hts.count_le _) h.simOnce
  · intro hm
    have := h.simFirst (hts.subset hm)
    rw [this] at hadv
    exact List.eq_nil_of_sublist_nil hadv
  · intro reportId newStatus description hm
    obtain ⟨h1, h2⟩ := h.deferred reportId newStatus description (hts.subset hm)
    exact ⟨h1, h2.mono hh hts.subset⟩
  · exact h.defNodup.sublist (hts.filterMap _)

theorem inv_new (isOffline : Bool) (settings : Settings) (recentActivity : Bool) :
    Inv (App.new isOffline settings recentActivity) := by
  refine ⟨?_, ?_, ?_, ?_, ?_, ?_, ?_⟩ <;>
    simp [App.new, App.tasks, advanceAddrs, statusIds]

theorem inv_init (isOffline : Bool) (settings : Settings) (recentActivity : Bool)
    (id₁ id₂ : String) (now : Nat → Time) (distinct : id₁ ≠ id₂) :
    Inv (init isOffline settings recentActivity id₁ id₂ now) := by
  have base : Inv (generateMockData (App.new isOffline settings recentActivity) id₁ id₂ now) := by
    refine ⟨?_, ?_, ?_, ?_, ?_, ?_, ?_⟩ <;>
      simp [generateMockData, App.new, App.tasks, advanceAddrs, statusIds, setTimeout,
        saveToLocalStorage, mockReports, TimerTask.advanceAddr, TimerTask.statusId, distinct,
        List.range_succ]
  exact base.of_sublist (updateDashboard_heap _) (updateDashboard_reports_perm _)
    (by unfold init; rw [updateDashboard_timers])

/-- `updateReportStatus` keeps the invariant when the update of a report that
still has a deferred update pending sets `under-review` and no advance of that
report can follow. -/
theorem Inv.updateReportStatus {s : App} (h : Inv s)
    (reportId newStatus description : String) (now : Time)
    (hcond : ∀ a r, s.findReport reportId = some (a, r) → reportId ∈ statusIds s.tasks →
      newStatus = "under-review" ∧ a ∉ advanceAddrs s.tasks ∧ TimerTask.simulate ∉ s.tasks) :
    Inv (updateReportStatus s reportId newStatus description now) := by
  have ht : (CivicConnect.updateReportStatus s reportId newStatus description now).tasks
      = s.tasks := by
    rw [tasks_eq, updateReportStatus_timers]; rfl
  refine ⟨?_, ?_, ?_, ?_, ?_, ?_, ?_⟩
  · rw [updateReportStatus_heap_length]
    exact (updateReportStatus_reports_perm _ _ _ _ _).trans h.perm
  · rw [updateReportStatus_ids]; exact h.ids
  · rw [ht]; exact h.advNodup
  · rw [ht]; exact h.simOnce
  · rw [ht]; exact h.simFirst
  · intro id' st' d' hm
    rw [ht] at hm
    obtain ⟨h1, a', r', hd, hid, hst⟩ := h.deferred id' st' d' hm
    refine ⟨h1, ?_⟩
    cases hf : s.findReport reportId with
    | none =>
      rw [updateReportStatus_of_none hf]
      exact ⟨a', r', hd, hid, hst⟩
    | some p =>
      obtain ⟨a, r⟩ := p
      obtain ⟨-, hr, hrid⟩ := findReport_some hf
      by_cases e : a = a'
      · subst e
        rw [hr] at hd
        cases hd
        have hin : reportId ∈ statusIds s.tasks := by
          rw [← hrid, hid]
          exact mem_statusIds.mpr ⟨st', d', hm⟩
        obtain ⟨c1, c2, c3⟩ := hcond a r' hf hin
        refine ⟨a, r'.withStatus newStatus description now, ?_, hid, Or.inr ⟨c1, ?_, ?_⟩⟩
        · rw [deref_updateReportStatus, hf]
          simp [hr]
        · rw [ht]; exact c2
        · rw [ht]; exact c3
      · refine ⟨a', r', ?_, hid, ?_⟩
        · rw [deref_updateReportStatus, hf]
          simp [e, hd]
        · rw [ht]; exact hst
  · rw [ht]; exact h.defNodup

theorem simulateResolution_tasks (s : App) :
    (simulateResolution s).tasks = s.tasks ++
      (s.reports.filter (fun a => (s.deref a).any isPending)).map TimerTask.advance := by
  simp only [simulateResolution, App.tasks, List.map_append, List.map_map]
  congr 1
  generalize s.reports.filter (fun a => (s.deref a).any isPending) = l
  have : (fun p : Nat × Nat => TimerTask.advance p.2) = TimerTask.advance ∘ Prod.snd := rfl
  show List.map (fun p : Nat × Nat => TimerTask.advance p.2) l.enum = _
  rw [this, ← List.map_map, List.enum_map_snd]

theorem advanceAddrs_map_advance (l : List Nat) :
    advanceAddrs (l.map TimerTask.advance) = l := by
  induction l with
  | nil => rfl
  | cons a l ih =>
    simp only [advanceAddrs, List.map_cons, List.filterMap_cons, TimerTask.advanceAddr] at ih ⊢
    rw [ih]

theorem statusIds_map_advance (l : List Nat) :
    statusIds (l.map TimerTask.advance) = [] := by
  induction l with
  | nil => rfl
  | cons a l ih =>
    simp only [statusIds, List.map_cons, List.filterMap_cons, TimerTask.statusId] at ih ⊢
    rw [ih]

/-- `simulateResolution` keeps the invariant when it runs for the first time,
every report with a deferred update pending being still `submitted`. -/
theorem Inv.simulateResolution {s : App} (h : Inv s)
    (hsim : TimerTask.simulate ∉ s.tasks) (hadv : advanceAddrs s.tasks = [])
    (hsub : ∀ reportId newStatus description,
      TimerTask.updateStatus reportId newStatus description ∈ s.tasks →
        ∃ a r, s.deref a = some r ∧ r.id = reportId ∧ r.status = "submitted") :
    Inv (simulateResolution s) := by
  have hnd : s.reports.Nodup := h.perm.nodup_iff.mpr (List.nodup_range _)
  have hsim' : TimerTask.simulate ∉ (CivicConnect.simulateResolution s).tasks := by
    rw [simulateResolution_tasks, List.mem_append]
    rintro (hm | hm)
    · exact hsim hm
    · simp at hm
  refine ⟨h.perm, h.ids, ?_, ?_, ?_, ?_, ?_⟩
  · rw [simulateResolution_tasks]
    unfold advanceAddrs at hadv ⊢
    rw [List.filterMap_append, hadv, List.nil_append]
    have := advanceAddrs_map_advance (s.reports.filter (fun a => (s.deref a).any isPending))
    unfold advanceAddrs at this
    rw [this]
    exact hnd.filter _
  · rw [List.count_eq_zero_of_not_mem hsim']
    exact Nat.zero_le _
  · intro hm
    exact absurd hm hsim'
  · intro reportId newStatus description hm
    rw [simulateResolution_tasks, List.mem_append] at hm
    rcases hm with hm | hm
    · obtain ⟨a, r, hd, hid, hst⟩ := hsub _ _ _ hm
      exact ⟨(h.deferred _ _ _ hm).1, a, r, hd, hid, Or.inl hst⟩
    · simp at hm
  · rw [simulateResolution_tasks]
    unfold statusIds
    rw [List.filterMap_append]
    have := statusIds_map_advance (s.reports.filter (fun a => (s.deref a).any isPending))
    unfold statusIds at this
    rw [this, List.append_nil]
    exact h.defNodup

theorem routeReport_id (r : Report) (now : Time) : (routeReport r now).id = r.id := rfl

theorem routeReport_status (r : Report) (now : Time) : (routeReport r now).status = r.status :=
  rfl

/-- `submitReport` with a fresh id keeps the invariant. -/
theorem Inv.submitReport {s : App} (h : Inv s) (form : Form) (id : String) (t₁ t₂ t₃ : Time)
    (fresh : ∀ r ∈ s.heap, r.id ≠ id) : Inv (submitReport s form id t₁ t₂ t₃) := by
  cases hv : (validateReportData (collectReportData s form id t₁ t₂)).isValid with
  | false =>
    rw [submitReport_invalid s form id t₁ t₂ t₃ hv]
    exact h.of_sublist rfl (List.Perm.refl _) (List.Sublist.refl _)
  | true =>
    obtain ⟨e1, e2, e3, -⟩ := submitReport_valid s form id t₁ t₂ t₃ hv
    have et : (CivicConnect.submitReport s form id t₁ t₂ t₃).tasks = s.tasks ++
        [TimerTask.updateStatus id "under-review" "Report is being reviewed by authorities"] := by
      rw [tasks_eq, e3]; simp [App.tasks]
    have eadv : advanceAddrs (CivicConnect.submitReport s form id t₁ t₂ t₃).tasks
        = advanceAddrs s.tasks := by
      rw [et]; simp [advanceAddrs, TimerTask.advanceAddr]
    have esim : TimerTask.simulate ∈ (CivicConnect.submitReport s form id t₁ t₂ t₃).tasks ↔
        TimerTask.simulate ∈ s.tasks := by
      rw [et]; simp
    have hderef : ∀ a r, s.deref a = some r →
        (CivicConnect.submitReport s form id t₁ t₂ t₃).deref a = some r := by
      intro a r hd
      rw [deref_eq, e1, List.getElem?_append_left (deref_lt hd)]
      exact hd
    refine ⟨?_, ?_, ?_, ?_, ?_, ?_, ?_⟩
    · rw [e1, e2, List.length_append, List.length_singleton, List.range_succ]
      exact h.perm.append_right _
    · rw [e1, List.map_append, List.nodup_append]
      refine ⟨h.ids, by simp, ?_⟩
      intro x hx hx'
      simp only [List.map_cons, List.map_nil, List.mem_singleton] at hx'
      obtain ⟨r, hr, rfl⟩ := List.mem_map.mp hx
      exact fresh r hr hx'
    · rw [eadv]; exact h.advNodup
    · rw [et, List.count_append]
      have : List.count TimerTask.simulate
          [TimerTask.updateStatus id "under-review" "Report is being reviewed by authorities"]
            = 0 := by
        simp [List.count_cons]
      rw [this]
      exact h.simOnce
    · intro hm
      rw [eadv]
      exact h.simFirst (esim.mp hm)
    · intro reportId newStatus description hm
      rw [et, List.mem_append] at hm
      rcases hm with hm | hm
      · obtain ⟨h1, a, r, hd, hid, hst⟩ := h.deferred _ _ _ hm
        refine ⟨h1, a, r, hderef a r hd, hid, ?_⟩
        rcases hst with c | ⟨c1, c2, c3⟩
        · exact Or.inl c
        · exact Or.inr ⟨c1, by rw [eadv]; exact c2, fun hx => c3 (esim.mp hx)⟩
      · simp only [List.mem_singleton, TimerTask.updateStatus.injEq] at hm
        obtain ⟨rfl, rfl, rfl⟩ := hm
        refine ⟨rfl, s.heap.length,
          routeReport (validateReportData (collectReportData s form reportId t₁ t₂)).data t₃,
          ?_, rfl, Or.inl rfl⟩
        rw [deref_eq, e1]
        simp
    · rw [et]
      unfold statusIds
      rw [List.filterMap_append, List.nodup_append]
      refine ⟨h.defNodup, by simp [TimerTask.statusId], ?_⟩
      intro x hx hx'
      simp only [List.filterMap_cons, TimerTask.statusId, List.filterMap_nil,
        List.mem_singleton] at hx'
      obtain ⟨n, d, hm⟩ := mem_statusIds.mp hx
      obtain ⟨-, a, r, hd, hid, -⟩ := h.deferred _ _ _ hm
      exact fresh r (mem_heap_of_deref hd) (hid.trans hx')

theorem fire_eq (s : App) (i : Nat) (now : Time) (due : i < s.timers.length) :
    fire s i now =
      runTask { s with timers := s.timers.eraseIdx i } s.timers[i].task now := by
  unfold fire
  rw [List.getElem?_eq_getElem due]

/-- The tasks before and after the timer at position `i` is taken out. -/
theorem tasks_split (s : App) (i : Nat) (due : i < s.timers.length) :
    ∃ T₁ T₂, s.tasks = T₁ ++ s.timers[i].task :: T₂ ∧
      (s.timers.eraseIdx i).map (·.task) = T₁ ++ T₂ := by
  obtain ⟨l₁, l₂, h1, h2⟩ := timers_split due
  refine ⟨l₁.map (·.task), l₂.map (·.task), ?_, ?_⟩
  · conv_lhs => rw [tasks_eq, h1]
    simp
  · rw [h2]; simp

/-- A report with a deferred update pending is not `resolved`; it is the
object `find` returns for the id. -/
theorem Inv.deferred_find {s : App} (h : Inv s) {reportId newStatus description : String}
    (hm : TimerTask.updateStatus reportId newStatus description ∈ s.tasks) :
    ∃ a r, s.findReport reportId = some (a, r) ∧ s.deref a = some r ∧
      (r.status = "submitted" ∨
       (r.status = "under-review" ∧ a ∉ advanceAddrs s.tasks ∧
        TimerTask.simulate ∉ s.tasks)) := by
  obtain ⟨-, a, r, hd, hid, hst⟩ := h.deferred _ _ _ hm
  refine ⟨a, r, ?_, hd, hst⟩
  rw [← hid]
  exact findReport_of_distinct h.perm h.ids hd

/-- Firing a timer keeps the invariant. -/
theorem Inv.fire {s : App} (h : Inv s) (i : Nat) (now : Time) (due : i < s.timers.length) :
    Inv (fire s i now) := by
  rw [fire_eq s i now due]
  obtain ⟨T₁, T₂, hT, hT₀⟩ := tasks_split s i due
  have h₀ : Inv { s with timers := s.timers.eraseIdx i } :=
    h.of_sublist rfl (List.Perm.refl _) (List.eraseIdx_sublist _ _)
  have ht₀ : ({ s with timers := s.timers.eraseIdx i } : App).tasks = T₁ ++ T₂ := hT₀
  have hsub : ({ s with timers := s.timers.eraseIdx i } : App).tasks ⊆ s.tasks := by
    rw [ht₀, hT]
    intro x hx
    rcases List.mem_append.mp hx with hx | hx
    · exact List.mem_append_left _ hx
    · exact List.mem_append_right _ (List.mem_cons_of_mem _ hx)
  have hmem : s.timers[i].task ∈ s.tasks := by
    rw [hT]; simp
  cases hk : s.timers[i].task with
  | updateStatus reportId newStatus description =>
    rw [hk] at hT
    apply h₀.updateReportStatus
    intro a r _ hin
    exfalso
    have hnd := h.defNodup
    rw [hT] at hnd
    unfold statusIds at hnd hin
    rw [List.filterMap_append, List.filterMap_cons_some (b := reportId) (by rfl),
      List.nodup_middle, List.nodup_cons, ← List.filterMap_append] at hnd
    rw [ht₀] at hin
    exact hnd.1 hin
  | advance b =>
    rw [hk] at hT hmem
    have hb : b ∈ advanceAddrs s.tasks := mem_advanceAddrs.mpr hmem
    have hnosim : TimerTask.simulate ∉ s.tasks := by
      intro hm
      rw [h.simFirst hm] at hb
      simp at hb
    have hnob : b ∉ advanceAddrs ({ s with timers := s.timers.eraseIdx i } : App).tasks := by
      have hnd := h.advNodup
      rw [hT] at hnd
      unfold advanceAddrs at hnd ⊢
      rw [List.filterMap_append, List.filterMap_cons_some (b := b) (by rfl),
        List.nodup_middle, List.nodup_cons, ← List.filterMap_append] at hnd
      rw [ht₀]
      exact hnd.1
    simp only [runTask]
    cases hd : ({ s with timers := s.timers.eraseIdx i } : App).deref b with
    | none => rw [advanceTask_of_none _ _ _ hd]; exact h₀
    | some rb =>
      have hfind : ({ s with timers := s.timers.eraseIdx i } : App).findReport rb.id
          = some (b, rb) := findReport_of_distinct h₀.perm h₀.ids hd
      -- a report with a deferred update pending is still `submitted` here
      have hstill : rb.id ∈ statusIds ({ s with timers := s.timers.eraseIdx i } : App).tasks →
          rb.status = "submitted" := by
        intro hin
        obtain ⟨n, d, hm⟩ := mem_statusIds.mp hin
        obtain ⟨a', r', hf', -, hst⟩ := h.deferred_find (hsub hm)
        have hf'' : s.findReport rb.id = some (b, rb) := hfind
        rw [hf''] at hf'
        simp only [Option.some.injEq, Prod.mk.injEq] at hf'
        obtain ⟨rfl, rfl⟩ := hf'
        rcases hst with c | ⟨-, c, -⟩
        · exact c
        · exact absurd hb c
      rw [advanceTask_eq _ _ _ rb hd]
      split
      · exact h₀
      · rename_i hres
        split
        · rename_i hur
          apply h₀.updateReportStatus
          intro a r _ hin
          have := hstill hin
          rw [this] at hur
          exact absurd hur (by decide)
        · rename_i hur
          split
          · rename_i hip
            apply h₀.updateReportStatus
            intro a r _ hin
            have := hstill hin
            rw [this] at hip
            exact absurd hip (by decide)
          · apply h₀.updateReportStatus
            intro a r hf _
            rw [hfind] at hf
            simp only [Option.some.injEq, Prod.mk.injEq] at hf
            obtain ⟨rfl, rfl⟩ := hf
            exact ⟨rfl, hnob, fun hm => hnosim (hsub hm)⟩
  | simulate =>
    rw [hk] at hT hmem
    have hadv : advanceAddrs s.tasks = [] := h.simFirst hmem
    have hnosim : TimerTask.simulate ∉
        ({ s with timers := s.timers.eraseIdx i } : App).tasks := by
      have hc := h.simOnce
      rw [hT, List.count_append, List.count_cons_self] at hc
      rw [ht₀, ← List.count_eq_zero, List.count_append]
      omega
    apply h₀.simulateResolution hnosim
    · have : (advanceAddrs ({ s with timers := s.timers.eraseIdx i } : App).tasks).Sublist
          (advanceAddrs s.tasks) :=
        (List.Sublist.map _ (List.eraseIdx_sublist _ _)).filterMap _
      rw [hadv] at this
      exact List.eq_nil_of_sublist_nil this
    · intro reportId newStatus description hm
      obtain ⟨-, a, r, hd, hid, hst⟩ := h.deferred _ _ _ (hsub hm)
      refine ⟨a, r, hd, hid, ?_⟩
      rcases hst with c | ⟨-, -, c⟩
      · exact c
      · exact absurd hmem c

/-- Every event keeps the invariant. -/
theorem Inv.step {s s' : App} (h : Inv s) (st : Step s s') : Inv s' := by
  cases st with
  | submit form id t₁ t₂ t₃ fresh => exact h.submitReport form id t₁ t₂ t₃ fresh
  | draft form id t₁ t₂ t₃ =>
    exact h.of_sublist rfl (List.Perm.refl _) (List.Sublist.refl _)
  | register name email phone location id now =>
    apply h.of_sublist
    · unfold registerUser; split <;> rfl
    · unfold registerUser; split <;> exact List.Perm.refl _
    · unfold registerUser; split <;> exact List.Sublist.refl _
  | online isOnline => exact h.of_sublist rfl (List.Perm.refl _) (List.Sublist.refl _)
  | dashboard =>
    exact h.of_sublist (updateDashboard_heap _) (updateDashboard_reports_perm _)
      (by rw [updateDashboard_timers])
  | timer i now due => exact h.fire i now due

/-- The invariant holds in every state the program reaches. -/
theorem inv_of_reachable {s : App} (hs : Reachable s) : Inv s := by
  induction hs with
  | empty isOffline settings recentActivity => exact inv_new _ _ _
  | seeded isOffline settings recentActivity id₁ id₂ now distinct =>
    exact inv_init _ _ _ _ _ _ distinct
  | step _ st ih => exact ih.step st

/-! ## Validation and routing -/

theorem tooShort_iff (s : String) (n : Nat) (hn : 0 < n) :
    tooShort s n = true ↔ jsLength (jsTrim s) < n := by
  unfold tooShort
  by_cases hs : s = ""
  · subst hs
    have : jsLength (jsTrim "") = 0 := by decide
    simp [this, hn]
  · simp [hs]

theorem categoryMissing_iff (c : Option String) :
    categoryMissing c = true ↔ (c = none ∨ c = some "") := by
  cases c <;> simp [categoryMissing]

theorem validateReportData_errors (data : Report) :
    (validateReportData data).errors =
      (if jsLength (jsTrim data.title) < 5
        then ["Title must be at least 5 characters long"] else []) ++
      (if data.category = none ∨ data.category = some ""
        then ["Please select a category"] else []) ++
      (if jsLength (jsTrim data.description) < 20
        then ["Description must be at least 20 characters long"] else []) := by
  have h1 := tooShort_iff data.title 5 (by decide)
  have h2 := tooShort_iff data.description 20 (by decide)
  have h3 := categoryMissing_iff data.category
  unfold validateReportData
  by_cases a : tooShort data.title 5 = true <;>
  by_cases b : categoryMissing data.category = true <;>
  by_cases c : tooShort data.description 20 = true <;>
  · have a' := a; have b' := b; have c' := c
    rw [h1] at a'; rw [h3] at b'; rw [h2] at c'
    simp only [a, b, c, a', b', c']
    simp

theorem validateReportData_isValid (data : Report) :
    (validateReportData data).isValid = ((validateReportData data).errors.length == 0) :=
  rfl

theorem validateReportData_isValid_iff (data : Report) :
    (validateReportData data).isValid = true ↔
      (5 ≤ jsLength (jsTrim data.title) ∧
       (∃ c, data.category = some c ∧ c ≠ "") ∧
       20 ≤ jsLength (jsTrim data.description)) := by
  have hcat : (∃ c, data.category = some c ∧ c ≠ "") ↔
      ¬ (data.category = none ∨ data.category = some "") := by
    cases data.category <;> simp
  rw [validateReportData_isValid, validateReportData_errors, hcat]
  by_cases pa : jsLength (jsTrim data.title) < 5 <;>
  by_cases pb : (data.category = none ∨ data.category = some "") <;>
  by_cases pc : jsLength (jsTrim data.description) < 20 <;>
  first
    | (simp [pa, pb, pc]; done)
    | (simp [pa, pb, pc]; omega)

theorem mem_of_lookup {l : List (String × String)} {k v : String}
    (h : l.lookup k = some v) : (k, v) ∈ l := by
  induction l with
  | nil => simp at h
  | cons p l ih =>
    obtain ⟨k', v'⟩ := p
    rw [List.lookup_cons] at h
    by_cases hk : (k == k') = true
    · simp only [hk] at h
      have hk' : k = k' := by simpa using hk
      have hv' : v' = v := by simpa using h
      simp [hk', hv']
    · have hk' : (k == k') = false := by simpa using hk
      simp only [hk'] at h
      exact List.mem_cons_of_mem _ (ih h)

theorem routingRules_values : ∀ p ∈ routingRules, p.2 ≠ "" := by decide

/-- A category that is a key of the routing table is routed to its entry. -/
theorem routeAuthority_of_lookup (c : String) (v : String)
    (h : routingRules.lookup c = some v) : routeAuthority (some c) = .str v := by
  have hv : v ≠ "" := routingRules_values _ (mem_of_lookup h)
  simp [routeAuthority, getProperty, propertyKey, h, JSValue.or, JSValue.truthy, hv]

/-- A category that is neither a key of the routing table nor the name of a
member of `Object.prototype` is routed to the default authority. -/
theorem routeAuthority_fallback (c : Option String)
    (hk : routingRules.lookup (propertyKey c) = none)
    (hp : propertyKey c ∉ objectPrototypeNames) :
    routeAuthority c = .str "General Administration" := by
  simp [routeAuthority, getProperty, hk, hp, JSValue.or, JSValue.truthy]

/-- Outside the states the program reaches, `updateReportStatus` itself has no
guard for the terminal state: called with the id of a resolved report it
overwrites the status. -/
theorem updateReportStatus_unguarded :
    ∃ r, seededApp.deref 1 = some r ∧ r.status = "resolved" ∧
      ((updateReportStatus seededApp "m2" "under-review"
          "Report is being reviewed by authorities" 7).deref 1).map (·.status)
        = some "under-review" := by
  exact ⟨_, rfl, rfl, by decide⟩

/-! ## Claims on validation, routing and sanitising -/

/-- What `submitReport` appends for a form that passes `validateReportData`:
one report with status `submitted`, assigned to the value of
`routingRules[category] || 'General Administration'` (the entry of the table
when the category is one of its keys), with the two timeline entries
`submitted` and `routed`, the latter dated `routedAt` and described as routed
to that value. -/
theorem submitReport_routes (s : App) (form : Form) (id : String) (t₁ t₂ t₃ : Time)
    (hv : (validateReportData (collectReportData s form id t₁ t₂)).isValid = true) :
    ∃ r, (submitReport s form id t₁ t₂ t₃).heap = s.heap ++ [r] ∧
      (submitReport s form id t₁ t₂ t₃).reports = s.reports ++ [s.heap.length] ∧
      r.status = "submitted" ∧
      r.category = some form.category ∧
      r.assignedTo = routeAuthority (some form.category) ∧
      (∀ v, routingRules.lookup form.category = some v → r.assignedTo = .str v) ∧
      r.routedAt = some t₃ ∧
      r.timeline =
        [{ status := "submitted", date := t₂, description := "Report submitted by citizen" },
         { status := "routed", date := t₃,
           description := "Report routed to " ++ r.assignedTo.toJSString }] := by
  refine ⟨routeReport (validateReportData (collectReportData s form id t₁ t₂)).data t₃, ?_⟩
  simp only [submitReport, hv]
  refine ⟨rfl, rfl, rfl, rfl, rfl, ?_, rfl, rfl⟩
  intro v h
  exact routeAuthority_of_lookup _ _ h

/-- The pothole scenario: the report goes to the public works department. -/
theorem submitReport_routes_witness :
    ∃ r, (submitReport (App.new false defaultSettings true) potholeForm "k3x9" 1 2 3).heap
        = [r] ∧
      r.status = "submitted" ∧
      r.assignedTo = .str "Municipal Public Works Department" ∧
      r.timeline.map (·.status) = ["submitted", "routed"] := by
  obtain ⟨r, h1, -, h3, -, -, h6, -, h8⟩ :=
    submitReport_routes (App.new false defaultSettings true) potholeForm "k3x9" 1 2 3 (by decide)
  exact ⟨r, h1, h3, h6 _ (by decide), by simp [h8]⟩

/-- For a form that passes validation and whose category is neither a key of
the routing table nor a member name of `Object.prototype`, the report
`submitReport` appends is assigned to `General Administration`. -/
theorem submitReport_routes_fallback (s : App) (form : Form) (id : String) (t₁ t₂ t₃ : Time)
    (hv : (validateReportData (collectReportData s form id t₁ t₂)).isValid = true)
    (hk : routingRules.lookup form.category = none)
    (hp : form.category ∉ objectPrototypeNames) :
    ∃ r, (submitReport s form id t₁ t₂ t₃).heap = s.heap ++ [r] ∧
      r.assignedTo = .str "General Administration" := by
  obtain ⟨r, h1, -, -, -, h5, -⟩ := submitReport_routes s form id t₁ t₂ t₃ hv
  exact ⟨r, h1, h5.trans (routeAuthority_fallback (some form.category) hk hp)⟩

/-- C1 at the pothole form with the category `constructor`: validation accepts
it, the category is no key of the routing table, and the one report
`submitReport` appends is assigned to the member the routing object inherits
under that name; that is neither an authority of the table nor
`General Administration`, and the `routed` entry prints the function. With a
category that names nothing (`parks`) the fallback is taken. -/
theorem submitReport_assigns_inherited :
    (validateReportData (collectReportData (App.new false defaultSettings true)
      (potholeFormIn "constructor") "k3x9" 1 2)).isValid = true ∧
    routingRules.lookup "constructor" = none ∧
    (submitReport (App.new false defaultSettings true)
      (potholeFormIn "constructor") "k3x9" 1 2 3).reportList.map
        (fun r => (r.status, r.category, r.assignedTo))
        = [("submitted", some "constructor", .inherited "constructor")] ∧
    (∀ r ∈ (submitReport (App.new false defaultSettings true)
      (potholeFormIn "constructor") "k3x9" 1 2 3).reportList,
        r.assignedTo ≠ .str "General Administration" ∧
        ∀ entry ∈ routingRules, r.assignedTo ≠ .str entry.2) ∧
    (submitReport (App.new false defaultSettings true)
      (potholeFormIn "constructor") "k3x9" 1 2 3).reportList.map
        (fun r => r.timeline.map (fun e => (e.status, e.description)))
        = [[("submitted", "Report submitted by citizen"),
            ("routed", "Report routed to function Object() \x7b [native code] \x7d")]] ∧
    (submitReport (App.new false defaultSettings true)
      (potholeFormIn "parks") "k3x9" 1 2 3).reportList.map (·.assignedTo)
        = [.str "General Administration"] := by
  refine ⟨by decide, by decide, by decide, by decide, by decide, by decide⟩

/-- C3 at the categories `constructor` and `toString`: `routeReport` assigns the
member the routing object inherits under that name, not
`General Administration`, and the timeline entry prints it. -/
theorem routeReport_inherited (r : Report) (now : Time) :
    (routeReport { r with category := some "constructor" } now).assignedTo
        = .inherited "constructor" ∧
    (routeReport { r with category := some "constructor" } now).assignedTo
        ≠ .str "General Administration" ∧
    ((routeReport { r with category := some "constructor" } now).timeline.getLast?.map
        (·.description)) = some "Report routed to function Object() \x7b [native code] \x7d" ∧
    (routeReport { r with category := some "toString" } now).assignedTo
        = .inherited "toString" ∧
    (routeReport { r with category := some "toString" } now).assignedTo
        ≠ .str "General Administration" := by
  have h : routeAuthority (some "constructor") = .inherited "constructor" := by decide
  have h' : routeAuthority (some "toString") = .inherited "toString" := by decide
  refine ⟨h, ?_, ?_, h', ?_⟩
  · show routeAuthority (some "constructor") ≠ _
    rw [h]
    decide
  · simp [routeReport, h]
    decide
  · show routeAuthority (some "toString") ≠ _
    rw [h']
    decide

/-- C4: `routeReport` assigns each of the eight categories the authority of the
glossary, and two reports with the same category get the same authority. -/
theorem routeReport_table (r₁ r₂ : Report) (n₁ n₂ : Time) (h : r₁.category = r₂.category) :
    (routeReport r₁ n₁).assignedTo = (routeReport r₂ n₂).assignedTo ∧
    (r₁.category = some "infrastructure" →
      (routeReport r₁ n₁).assignedTo = .str "Municipal Public Works Department") ∧
    (r₁.category = some "public-safety" →
      (routeReport r₁ n₁).assignedTo = .str "Police Department") ∧
    (r₁.category = some "environment" →
      (routeReport r₁ n₁).assignedTo = .str "Environmental Protection Agency") ∧
    (r₁.category = some "transportation" →
      (routeReport r₁ n₁).assignedTo = .str "Transportation Department") ∧
    (r₁.category = some "public-services" →
      (routeReport r₁ n₁).assignedTo = .str "Municipal Services") ∧
    (r₁.category = some "corruption" →
      (routeReport r₁ n₁).assignedTo = .str "Anti-Corruption Commission") ∧
    (r₁.category = some "accessibility" →
      (routeReport r₁ n₁).assignedTo = .str "Disability Rights Office") ∧
    (r₁.category = some "other" →
      (routeReport r₁ n₁).assignedTo = .str "General Administration") := by
  have key : ∀ (r : Report) (n : Time), (routeReport r n).assignedTo = routeAuthority r.category :=
    fun _ _ => rfl
  refine ⟨by rw [key, key, h], ?_, ?_, ?_, ?_, ?_, ?_, ?_, ?_⟩ <;>
    (intro hc; rw [key, hc]; decide)

/-- Witness of C4: two reports of category `corruption` routed at different
times. -/
theorem routeReport_table_witness :
    (routeReport (categoryReport (some "corruption")) 5).assignedTo =
      (routeReport { categoryReport (some "corruption") with id := "q" } 9).assignedTo ∧
    (routeReport (categoryReport (some "corruption")) 5).assignedTo =
      .str "Anti-Corruption Commission" :=
  ⟨(routeReport_table (categoryReport (some "corruption"))
      { categoryReport (some "corruption") with id := "q" } 5 9 rfl).1,
   (routeReport_table (categoryReport (some "corruption"))
      { categoryReport (some "corruption") with id := "q" } 5 9 rfl).2.2.2.2.2.2.1 rfl⟩

/-- C5: `validateReportData` accepts exactly when the trimmed title has at
least 5 code units, the category is present and non-empty and the trimmed
description has at least 20 code units; the error list holds one message per
failed rule, in the order title, category, description; the bounds 5 and 20
are exact. -/
theorem validateReportData_rules (data : Report) :
    ((validateReportData data).isValid = true ↔
      (5 ≤ jsLength (jsTrim data.title) ∧
       (∃ c, data.category = some c ∧ c ≠ "") ∧
       20 ≤ jsLength (jsTrim data.description))) ∧
    (validateReportData data).errors =
      (if jsLength (jsTrim data.title) < 5
        then ["Title must be at least 5 characters long"] else []) ++
      (if data.category = none ∨ data.category = some ""
        then ["Please select a category"] else []) ++
      (if jsLength (jsTrim data.description) < 20
        then ["Description must be at least 20 characters long"] else []) ∧
    (jsLength (jsTrim data.title) = 4 → (validateReportData data).isValid = false) ∧
    (jsLength (jsTrim data.description) = 19 → (validateReportData data).isValid = false) ∧
    ((∃ c, data.category = some c ∧ c ≠ "") → 20 ≤ jsLength (jsTrim data.description) →
      jsLength (jsTrim data.title) = 5 → (validateReportData data).isValid = true) ∧
    ((∃ c, data.category = some c ∧ c ≠ "") → 5 ≤ jsLength (jsTrim data.title) →
      jsLength (jsTrim data.description) = 20 → (validateReportData data).isValid = true) := by
  have hiff := validateReportData_isValid_iff data
  refine ⟨hiff, validateReportData_errors data, ?_, ?_, ?_, ?_⟩
  · intro h4
    cases hv : (validateReportData data).isValid with
    | false => rfl
    | true => have := (hiff.mp hv).1; omega
  · intro h19
    cases hv : (validateReportData data).isValid with
    | false => rfl
    | true => have := (hiff.mp hv).2.2; omega
  · intro hc hd h5
    exact hiff.mpr ⟨by omega, hc, hd⟩
  · intro hc ht h20
    exact hiff.mpr ⟨ht, hc, by omega⟩

/-- Witness of C5: with category and description valid, the title ` abcd `
(4 code units once trimmed) is rejected with the title message alone and the
title ` abcde ` is accepted. -/
theorem validateReportData_rules_witness :
    (validateReportData { categoryReport (some "other") with
        title := " abcd ", description := "twenty characters ok" }).isValid = false ∧
    (validateReportData { categoryReport (some "other") with
        title := " abcd ", description := "twenty characters ok" }).errors
      = ["Title must be at least 5 characters long"] ∧
    (validateReportData { categoryReport (some "other") with
        title := " abcde ", description := "twenty characters ok" }).isValid = true :=
  ⟨(validateReportData_rules { categoryReport (some "other") with
        title := " abcd ", description := "twenty characters ok" }).2.2.1 (by decide),
   by decide,
   (validateReportData_rules { categoryReport (some "other") with
        title := " abcde ", description := "twenty characters ok" }).2.2.2.2.1
      ⟨"other", rfl, by decide⟩ (by decide) (by decide)⟩

/-- C10 at a nested input: removing the inner block joins the text around it
into a script block, which `sanitizeInput` returns and which the pattern
matches as a whole. -/
theorem sanitizeInput_leaves_script :
    sanitizeInput "<scr<script></script>ipt>alert(1)</script>" = "<script>alert(1)</script>" ∧
    scriptPattern.matchHere none
        (sanitizeInput "<scr<script></script>ipt>alert(1)</script>").data = some (some '>', []) := by
  decide

/-- C2: one advance step moves a report of the repository one state forward and
appends the matching timeline entry. -/
theorem advance_step (s : App) (hs : Reachable s) (a : Nat) (r : Report)
    (ha : a ∈ s.reports) (hr : s.deref a = some r) (now : Time) :
    (r.status = "submitted" →
      (advanceTask s a now).deref a = some { r with
        status := "under-review"
        timeline := r.timeline ++
          [{ status := "under-review", date := now,
             description := "Report is being reviewed by authorities" }] }) ∧
    (r.status = "under-review" →
      (advanceTask s a now).deref a = some { r with
        status := "in-progress"
        timeline := r.timeline ++
          [{ status := "in-progress", date := now,
             description := "Authorities have started working on this issue" }] }) ∧
    (r.status = "in-progress" →
      (advanceTask s a now).deref a = some { r with
        status := "resolved"
        timeline := r.timeline ++
          [{ status := "resolved", date := now,
             description := "Issue has been successfully resolved" }] }) := by
  have _ := ha
  have hinv := inv_of_reachable hs
  have hfind := findReport_of_distinct hinv.perm hinv.ids hr
  have key : ∀ st d, (updateReportStatus s r.id st d now).deref a
      = some (r.withStatus st d now) := by
    intro st d
    rw [deref_updateReportStatus, hfind]
    simp [hr]
  rw [advanceTask_eq s a now r hr]
  refine ⟨?_, ?_, ?_⟩
  · intro h
    rw [h, if_neg (by decide), if_neg (by decide), if_neg (by decide)]
    exact key _ _
  · intro h
    rw [h, if_neg (by decide), if_pos rfl]
    exact key _ _
  · intro h
    rw [h, if_neg (by decide), if_neg (by decide), if_pos rfl]
    exact key _ _

/-- Witness of C2 on the seeded application: the demo report that is in
progress becomes resolved. -/
theorem advance_step_witness :
    ∃ r, seededApp.deref 0 = some r ∧ r.status = "in-progress" ∧
      (advanceTask seededApp 0 7).deref 0 = some { r with
        status := "resolved"
        timeline := r.timeline ++
          [{ status := "resolved", date := 7,
             description := "Issue has been successfully resolved" }] } :=
  ⟨_, rfl, rfl,
    (advance_step seededApp
      (Reachable.seeded false defaultSettings true "m1" "m2" _ (by decide)) 0 _
      (by decide) rfl 7).2.2 rfl⟩

theorem statusAgrees_new (s : App) (form : Form) (id : String) (t₁ t₂ t₃ : Time) :
    StatusAgrees (routeReport (validateReportData (collectReportData s form id t₁ t₂)).data t₃) :=
  Or.inr ⟨rfl, rfl⟩

theorem statusAgrees_mock (id₁ id₂ : String) (now : Nat → Time) :
    ∀ r ∈ mockReports id₁ id₂ now, StatusAgrees r := by
  intro r hr
  simp only [mockReports, List.mem_cons, List.mem_singleton, List.not_mem_nil, or_false] at hr
  rcases hr with rfl | rfl <;> exact Or.inl rfl

theorem statusAgrees_withStatus (r : Report) (newStatus description : String) (now : Time) :
    StatusAgrees (r.withStatus newStatus description now) := by
  left
  simp [lastStatus, Report.withStatus]

theorem startsSubmitted_new (s : App) (form : Form) (id : String) (t₁ t₂ t₃ : Time) :
    StartsSubmitted
      (routeReport (validateReportData (collectReportData s form id t₁ t₂)).data t₃) := rfl

theorem startsSubmitted_mock (id₁ id₂ : String) (now : Nat → Time) :
    ∀ r ∈ mockReports id₁ id₂ now, StartsSubmitted r := by
  intro r hr
  simp only [mockReports, List.mem_cons, List.mem_singleton, List.not_mem_nil, or_false] at hr
  rcases hr with rfl | rfl <;> rfl

theorem startsSubmitted_withStatus (r : Report) (newStatus description : String) (now : Time)
    (h : StartsSubmitted r) : StartsSubmitted (r.withStatus newStatus description now) := by
  unfold StartsSubmitted at h ⊢
  cases ht : r.timeline with
  | nil => rw [ht] at h; simp at h
  | cons e es =>
    rw [ht] at h
    simpa [Report.withStatus, ht] using h

/-- C6 as stated fails: after `submitReport` the stored report has status
`submitted` while the last entry of its timeline has status `routed`. -/
theorem status_last_entry_counterexample :
    ¬ (∀ s, Reachable s → ∀ a r, s.deref a = some r → lastStatus r = some r.status) := by
  intro h
  have hs : Reachable (submitReport (App.new false defaultSettings true) potholeForm "k3x9" 1 2 3) :=
    Reachable.step (Reachable.empty false defaultSettings true)
      (Step.submit _ potholeForm "k3x9" 1 2 3 (by intro r hr; simp [App.new] at hr))
  have := h _ hs 0 _ rfl
  revert this
  decide

/-- C6, amended: in every reachable state the status of a report is the status
of the last entry of its timeline, or the report is as `submitReport` stored
it: status `submitted`, timeline entries `submitted` then `routed`. -/
theorem status_agrees_with_timeline (s : App) (hs : Reachable s) (a : Nat) (r : Report)
    (hr : s.deref a = some r) :
    lastStatus r = some r.status ∨
    (r.status = "submitted" ∧ r.timeline.map (·.status) = ["submitted", "routed"]) :=
  reachable_heap_forall StatusAgrees statusAgrees_mock statusAgrees_new
    (fun r ns d now _ => statusAgrees_withStatus r ns d now) hs r (mem_heap_of_deref hr)

/-- Witness of the amended C6 on the seeded application. -/
theorem status_agrees_with_timeline_witness :
    ∃ r, seededApp.deref 1 = some r ∧
      (lastStatus r = some r.status ∨
       (r.status = "submitted" ∧ r.timeline.map (·.status) = ["submitted", "routed"])) :=
  ⟨_, rfl, status_agrees_with_timeline seededApp
    (Reachable.seeded false defaultSettings true "m1" "m2" _ (by decide)) 1 _ rfl⟩

/-- C7: in every reachable state a timeline is non-empty and starts with the
`submitted` entry, and `routeReport`, `updateReportStatus` and an advance step
leave the timeline of every report object as a prefix of its timeline
afterwards. -/
theorem timeline_append_only (s : App) (a : Nat) (r : Report) (hr : s.deref a = some r) :
    (Reachable s → r.timeline ≠ [] ∧ r.timeline.head?.map (·.status) = some "submitted") ∧
    (∀ now, r.timeline <+: (routeReport r now).timeline) ∧
    (∀ reportId newStatus description now,
      ∃ r', (updateReportStatus s reportId newStatus description now).deref a = some r' ∧
        r.timeline <+: r'.timeline) ∧
    (∀ b now, ∃ r', (advanceTask s b now).deref a = some r' ∧ r.timeline <+: r'.timeline) := by
  have upd : ∀ reportId newStatus description now,
      ∃ r', (updateReportStatus s reportId newStatus description now).deref a = some r' ∧
        r.timeline <+: r'.timeline := by
    intro reportId newStatus description now
    rw [deref_updateReportStatus]
    split
    · exact ⟨r.withStatus newStatus description now, by simp [hr],
        ⟨_, rfl⟩⟩
    · exact ⟨r, hr, ⟨[], List.append_nil _⟩⟩
  refine ⟨?_, fun now => ⟨_, rfl⟩, upd, ?_⟩
  · intro hs
    have h : StartsSubmitted r :=
      reachable_heap_forall StartsSubmitted startsSubmitted_mock startsSubmitted_new
        startsSubmitted_withStatus hs r (mem_heap_of_deref hr)
    refine ⟨?_, h⟩
    intro e
    unfold StartsSubmitted at h
    rw [e] at h
    simp at h
  · intro b now
    cases hb : s.deref b with
    | none => rw [advanceTask_of_none _ _ _ hb]; exact ⟨r, hr, ⟨[], List.append_nil _⟩⟩
    | some rb =>
      rw [advanceTask_eq _ _ _ rb hb]
      split
      · exact ⟨r, hr, ⟨[], List.append_nil _⟩⟩
      · split
        · exact upd _ _ _ _
        · split
          · exact upd _ _ _ _
          · exact upd _ _ _ _

/-- Witness of C7 on the seeded application. -/
theorem timeline_append_only_witness :
    ∃ r, seededApp.deref 0 = some r ∧
      r.timeline.head?.map (·.status) = some "submitted" ∧
      ∃ r', (advanceTask seededApp 0 7).deref 0 = some r' ∧ r.timeline <+: r'.timeline :=
  ⟨_, rfl,
    ((timeline_append_only seededApp 0 _ rfl).1
      (Reachable.seeded false defaultSettings true "m1" "m2" _ (by decide))).2,
    (timeline_append_only seededApp 0 _ rfl).2.2.2 0 7⟩

/-- In a state with the invariant, an event of the running program (a user
action, the deferred status update of `submitReport`, an advance step,
`simulateResolution`) leaves every report object whose status is `resolved`
unchanged. -/
theorem step_keeps_resolved {s s' : App} (hinv : Inv s) (st : Step s s')
    (a : Nat) (r : Report) (hr : s.deref a = some r) (hres : r.status = "resolved") :
    s'.deref a = some r := by
  cases st with
  | submit form id t₁ t₂ t₃ fresh =>
    cases hv : (validateReportData (collectReportData s form id t₁ t₂)).isValid with
    | false => rw [submitReport_invalid s form id t₁ t₂ t₃ hv]; exact hr
    | true =>
      rw [deref_eq, (submitReport_valid s form id t₁ t₂ t₃ hv).1,
        List.getElem?_append_left (deref_lt hr)]
      exact hr
  | draft form id t₁ t₂ t₃ => exact hr
  | register name email phone location id now =>
    rw [deref_eq]
    have : (registerUser s name email phone location id now).heap = s.heap := by
      unfold registerUser; split <;> rfl
    rw [this]; exact hr
  | online isOnline => exact hr
  | dashboard => rw [deref_eq, updateDashboard_heap]; exact hr
  | timer i now due =>
    rw [fire_eq s i now due]
    have hmem : s.timers[i].task ∈ s.tasks := List.mem_map.mpr ⟨_, List.getElem_mem due, rfl⟩
    have other : ∀ (b : Nat) (rb : Report) (ns d : String), s.deref b = some rb →
        rb.status ≠ "resolved" →
        (updateReportStatus { s with timers := s.timers.eraseIdx i } rb.id ns d now).deref a
          = some r := by
      intro b rb ns d hb hne
      have hf : ({ s with timers := s.timers.eraseIdx i } : App).findReport rb.id
          = some (b, rb) := findReport_of_distinct hinv.perm hinv.ids hb
      rw [deref_updateReportStatus, hf]
      have hab : b ≠ a := by
        rintro rfl
        rw [hr] at hb
        cases hb
        exact hne hres
      simp only [Option.map_some', Option.some.injEq, hab, if_false]
      exact hr
    cases hk : s.timers[i].task with
    | updateStatus reportId newStatus description =>
      rw [hk] at hmem
      obtain ⟨-, b, rb, hb, hid, hst⟩ := hinv.deferred _ _ _ hmem
      simp only [runTask]
      rw [← hid]
      apply other b rb _ _ hb
      rcases hst with c | ⟨c, -, -⟩ <;> rw [c] <;> decide
    | advance b =>
      simp only [runTask]
      cases hb : ({ s with timers := s.timers.eraseIdx i } : App).deref b with
      | none => rw [advanceTask_of_none _ _ _ hb]; exact hr
      | some rb =>
        rw [advanceTask_eq _ _ _ rb hb]
        split
        · exact hr
        · rename_i hne
          split
          · exact other b rb _ _ hb hne
          · split
            · exact other b rb _ _ hb hne
            · exact other b rb _ _ hb hne
    | simulate => exact hr

/-- C9: an advance step on a report whose status is `resolved` and
`updateReportStatus` with an id that no report of the repository has return
the state unchanged: same reports, same stored snapshot, no effect. -/
theorem advance_noop (s : App) (now : Time) :
    (∀ a r, s.deref a = some r → r.status = "resolved" → advanceTask s a now = s) ∧
    (∀ reportId newStatus description, reportId ∉ s.reportList.map (·.id) →
      updateReportStatus s reportId newStatus description now = s) := by
  constructor
  · intro a r hr hst
    rw [advanceTask_eq s a now r hr, if_pos hst]
  · intro reportId newStatus description h
    apply updateReportStatus_of_none
    simp only [App.findReport, List.findSome?_eq_none_iff]
    intro a ha
    cases hd : s.deref a with
    | none => rfl
    | some r =>
      have hm : r ∈ s.reportList := List.mem_filterMap.mpr ⟨a, ha, hd⟩
      have hne : r.id ≠ reportId := fun e => h (List.mem_map.mpr ⟨r, hm, e⟩)
      simp [hne]

/-- Witness of C9 on the seeded application: the resolved demo report and an
id no report has. -/
theorem advance_noop_witness :
    advanceTask seededApp 1 7 = seededApp ∧
    updateReportStatus seededApp "zzz" "resolved" "Issue has been successfully resolved" 7
      = seededApp :=
  ⟨(advance_noop seededApp 7).1 1 _ rfl rfl,
   (advance_noop seededApp 7).2 "zzz" _ _ (by decide)⟩

/-! ## Frame lemmas for drafts, user and storage -/

@[simp] theorem updateDashboard_currentUser (s : App) :
    (updateDashboard s).currentUser = s.currentUser := by
  unfold updateDashboard updateRecentActivity
  dsimp only
  split <;> rfl

@[simp] theorem updateDashboard_effects (s : App) :
    (updateDashboard s).effects = s.effects ++
      [.dashboard s.reportList.length
        (s.reportList.filter (fun r => r.status == "resolved")).length
        (s.reportList.filter isPending).length] := by
  unfold updateDashboard updateRecentActivity
  dsimp only
  split <;> rfl

@[simp] theorem updateReportStatus_currentUser (s : App)
    (reportId newStatus description : String) (now : Time) :
    (updateReportStatus s reportId newStatus description now).currentUser = s.currentUser := by
  unfold updateReportStatus
  split
  · rfl
  · dsimp only
    split <;> simp [showNotification, saveToLocalStorage]

/-- An advance step does nothing or is one call of `updateReportStatus` with
the id of the captured object and one of the three statuses. -/
theorem advanceTask_cases (s : App) (a : Nat) (now : Time) :
    advanceTask s a now = s ∨
    ∃ r newStatus description, s.deref a = some r ∧ newStatus ∈ statuses ∧
      advanceTask s a now = updateReportStatus s r.id newStatus description now := by
  cases hr : s.deref a with
  | none => left; exact advanceTask_of_none s a now hr
  | some r =>
    rw [advanceTask_eq s a now r hr]
    split
    · left; rfl
    · split
      · exact Or.inr ⟨r, _, _, rfl, by decide, rfl⟩
      · split
        · exact Or.inr ⟨r, _, _, rfl, by decide, rfl⟩
        · exact Or.inr ⟨r, _, _, rfl, by decide, rfl⟩

@[simp] theorem advanceTask_drafts (s : App) (a : Nat) (now : Time) :
    (advanceTask s a now).drafts = s.drafts := by
  rcases advanceTask_cases s a now with h | ⟨r, ns, d, -, -, h⟩ <;> rw [h]
  exact updateReportStatus_drafts _ _ _ _ _

@[simp] theorem advanceTask_timers (s : App) (a : Nat) (now : Time) :
    (advanceTask s a now).timers = s.timers := by
  rcases advanceTask_cases s a now with h | ⟨r, ns, d, -, -, h⟩ <;> rw [h]
  exact updateReportStatus_timers _ _ _ _ _

@[simp] theorem advanceTask_heap_length (s : App) (a : Nat) (now : Time) :
    (advanceTask s a now).heap.length = s.heap.length := by
  rcases advanceTask_cases s a now with h | ⟨r, ns, d, -, -, h⟩ <;> rw [h]
  exact updateReportStatus_heap_length _ _ _ _ _

@[simp] theorem advanceTask_ids (s : App) (a : Nat) (now : Time) :
    (advanceTask s a now).heap.map (·.id) = s.heap.map (·.id) := by
  rcases advanceTask_cases s a now with h | ⟨r, ns, d, -, -, h⟩ <;> rw [h]
  exact updateReportStatus_ids _ _ _ _ _

theorem advanceTask_reports_perm (s : App) (a : Nat) (now : Time) :
    (advanceTask s a now).reports.Perm s.reports := by
  rcases advanceTask_cases s a now with h | ⟨r, ns, d, -, -, h⟩ <;> rw [h]
  exact updateReportStatus_reports_perm _ _ _ _ _

/-- The object `find` returns is the first of the array with the id. -/
theorem findReport_first {s : App} {reportId : String} {a : Nat} {r : Report}
    (h : s.findReport reportId = some (a, r)) :
    ∃ l₁ l₂, s.reports = l₁ ++ a :: l₂ ∧
      ∀ b ∈ l₁, ∀ rb, s.deref b = some rb → rb.id ≠ reportId := by
  unfold App.findReport at h
  generalize s.reports = l at h
  induction l with
  | nil => simp at h
  | cons b l ih =>
    rw [List.findSome?_cons] at h
    cases hb : s.deref b with
    | none =>
      simp only [hb] at h
      obtain ⟨l₁, l₂, e, hl⟩ := ih h
      refine ⟨b :: l₁, l₂, by rw [e]; rfl, ?_⟩
      intro c hc rc hrc
      rcases List.mem_cons.mp hc with rfl | hc
      · rw [hb] at hrc; cases hrc
      · exact hl c hc rc hrc
    | some rb =>
      simp only [hb] at h
      by_cases hid : rb.id = reportId
      · simp only [hid, if_true, Option.some.injEq, Prod.mk.injEq] at h
        obtain ⟨rfl, rfl⟩ := h
        exact ⟨[], l, rfl, by simp⟩
      · simp only [hid, if_false] at h
        obtain ⟨l₁, l₂, e, hl⟩ := ih h
        refine ⟨b :: l₁, l₂, by rw [e]; rfl, ?_⟩
        intro c hc rc hrc
        rcases List.mem_cons.mp hc with rfl | hc
        · rw [hb] at hrc; cases hrc; exact hid
        · exact hl c hc rc hrc

/-! ## Claims on stored text, persistence and frames -/

/-- C11 at a title and a description that consist of one script block each:
`validateReportData` checks the lengths of the texts as typed, accepts, and
returns the sanitised texts, which are empty. -/
theorem validateReportData_returns_short :
    (validateReportData (collectReportData (App.new false defaultSettings true)
      (textForm "<script>Pothole</script>" "<script>A large pothole near the school.</script>")
      "k3x9" 1 2)).isValid = true ∧
    (validateReportData (collectReportData (App.new false defaultSettings true)
      (textForm "<script>Pothole</script>" "<script>A large pothole near the school.</script>")
      "k3x9" 1 2)).data.title = "" ∧
    (validateReportData (collectReportData (App.new false defaultSettings true)
      (textForm "<script>Pothole</script>" "<script>A large pothole near the school.</script>")
      "k3x9" 1 2)).data.description = "" ∧
    ((submitReport (App.new false defaultSettings true)
      (textForm "<script>Pothole</script>" "<script>A large pothole near the school.</script>")
      "k3x9" 1 2 3).reportList.map (fun r => (jsLength r.title, jsLength r.description)))
      = [(0, 0)] := by
  decide

/-- C13: without a stored item, and for every stored text that `JSON.parse`
rejects, `loadFromLocalStorage` returns the state it was given; on a fresh
application that is empty lists and no user. -/
theorem loadFromLocalStorage_fails_soft (s : App) (text : String) :
    loadFromLocalStorage s none = s ∧
    loadFromLocalStorage s (some (.invalid text)) = s ∧
    (∀ isOffline settings recentActivity,
      (loadFromLocalStorage (App.new isOffline settings recentActivity)
          (some (.invalid text))).reportList = [] ∧
      (loadFromLocalStorage (App.new isOffline settings recentActivity)
          (some (.invalid text))).drafts = [] ∧
      (loadFromLocalStorage (App.new isOffline settings recentActivity)
          (some (.invalid text))).currentUser = none) :=
  ⟨rfl, rfl, fun _ _ _ => ⟨rfl, rfl, rfl⟩⟩

/-- C14: `submitReport` on a form that fails validation changes neither heap,
repository, drafts nor stored snapshot and only shows the error notification;
on a form that passes it appends exactly one report object at the end of the
repository, leaves every object already there unchanged and persists the
repository with the new report. -/
theorem submitReport_stores_iff_valid (s : App) (form : Form) (id : String) (t₁ t₂ t₃ : Time) :
    ((validateReportData (collectReportData s form id t₁ t₂)).isValid = false →
      (submitReport s form id t₁ t₂ t₃).heap = s.heap ∧
      (submitReport s form id t₁ t₂ t₃).reports = s.reports ∧
      (submitReport s form id t₁ t₂ t₃).drafts = s.drafts ∧
      (submitReport s form id t₁ t₂ t₃).storage = s.storage ∧
      (submitReport s form id t₁ t₂ t₃).timers = s.timers ∧
      (submitReport s form id t₁ t₂ t₃).effects = s.effects ++
        [.showNotification "error" "Validation Error"
          (", ".intercalate (validateReportData (collectReportData s form id t₁ t₂)).errors)]) ∧
    ((validateReportData (collectReportData s form id t₁ t₂)).isValid = true →
      ∃ r, (submitReport s form id t₁ t₂ t₃).heap = s.heap ++ [r] ∧
        (submitReport s form id t₁ t₂ t₃).reports = s.reports ++ [s.heap.length] ∧
        (submitReport s form id t₁ t₂ t₃).drafts = s.drafts ∧
        (∀ a r₀, s.deref a = some r₀ → (submitReport s form id t₁ t₂ t₃).deref a = some r₀) ∧
        (submitReport s form id t₁ t₂ t₃).deref s.heap.length = some r ∧
        ((submitReport s form id t₁ t₂ t₃).storage.map (·.reports))
          = some (submitReport s form id t₁ t₂ t₃).reportList) := by
  constructor
  · intro hv
    rw [submitReport_invalid s form id t₁ t₂ t₃ hv]
    exact ⟨rfl, rfl, rfl, rfl, rfl, rfl⟩
  · intro hv
    obtain ⟨e1, e2, -, e4⟩ := submitReport_valid s form id t₁ t₂ t₃ hv
    refine ⟨_, e1, e2, e4, ?_, ?_, ?_⟩
    · intro a r₀ hd
      rw [deref_eq, e1, List.getElem?_append_left (deref_lt hd)]
      exact hd
    · rw [deref_eq, e1]
      simp
    · simp only [submitReport, hv]
      rfl

/-- Witness of C14: the empty form is rejected and stores nothing, the pothole
form is accepted and stores one report. -/
theorem submitReport_stores_iff_valid_witness :
    (submitReport seededApp (textForm "" "") "k3x9" 1 2 3).heap = seededApp.heap ∧
    (submitReport seededApp (textForm "" "") "k3x9" 1 2 3).storage = seededApp.storage ∧
    (submitReport seededApp potholeForm "k3x9" 1 2 3).reports = seededApp.reports ++ [2] :=
  ⟨((submitReport_stores_iff_valid seededApp (textForm "" "") "k3x9" 1 2 3).1 (by decide)).1,
   ((submitReport_stores_iff_valid seededApp (textForm "" "") "k3x9" 1 2 3).1 (by decide)).2.2.2.1,
   by
    obtain ⟨r, -, h, -⟩ :=
      (submitReport_stores_iff_valid seededApp potholeForm "k3x9" 1 2 3).2 (by decide)
    exact h⟩

/-- C15: `updateReportStatus` touches one object only, the first of the
repository with the id: it gets the new status and one more timeline entry and
keeps every other field; every other object, the drafts and the current user
are unchanged, and the repository holds the same objects. -/
theorem updateReportStatus_frame (s : App) (reportId newStatus description : String)
    (now : Time) :
    (updateReportStatus s reportId newStatus description now).drafts = s.drafts ∧
    (updateReportStatus s reportId newStatus description now).currentUser = s.currentUser ∧
    (updateReportStatus s reportId newStatus description now).heap.length = s.heap.length ∧
    (updateReportStatus s reportId newStatus description now).reports.Perm s.reports ∧
    (∀ a r, s.findReport reportId = some (a, r) →
      (∃ l₁ l₂, s.reports = l₁ ++ a :: l₂ ∧
        ∀ b ∈ l₁, ∀ rb, s.deref b = some rb → rb.id ≠ reportId) ∧
      s.deref a = some r ∧ r.id = reportId ∧
      (updateReportStatus s reportId newStatus description now).deref a = some { r with
        status := newStatus
        timeline := r.timeline ++
          [{ status := newStatus, date := now, description := description }] }) ∧
    (∀ b, (s.findReport reportId).map (·.1) ≠ some b →
      (updateReportStatus s reportId newStatus description now).deref b = s.deref b) := by
  refine ⟨updateReportStatus_drafts _ _ _ _ _, updateReportStatus_currentUser _ _ _ _ _,
    updateReportStatus_heap_length _ _ _ _ _, updateReportStatus_reports_perm _ _ _ _ _, ?_, ?_⟩
  · intro a r hf
    obtain ⟨-, hd, hid⟩ := findReport_some hf
    refine ⟨findReport_first hf, hd, hid, ?_⟩
    rw [deref_updateReportStatus, hf]
    simp [hd, Report.withStatus]
  · intro b hb
    rw [deref_updateReportStatus, if_neg hb]

/-- Witness of C15 on the seeded application: the update of the first demo
report leaves the second one as it is. -/
theorem updateReportStatus_frame_witness :
    (updateReportStatus seededApp "m1" "resolved" "Issue has been successfully resolved" 7).deref 1
      = seededApp.deref 1 :=
  (updateReportStatus_frame seededApp "m1" "resolved" "Issue has been successfully resolved"
    7).2.2.2.2.2 1 (by decide)

/-- C18: `saveDraft` appends one record to the drafts, flagged as draft, with
`savedAt` and without `assignedTo` or `routedAt`, and leaves heap, repository
and timers as they are; `updateReportStatus`, an advance step and
`simulateResolution` never change the drafts, whatever id or object is passed. -/
theorem saveDraft_outside_lifecycle (s : App) (form : Form) (id : String) (t₁ t₂ t₃ : Time) :
    (∃ d, (saveDraft s form id t₁ t₂ t₃).drafts = s.drafts ++ [d] ∧
      d.id = id ∧ d.isDraft = true ∧ d.savedAt = some t₃ ∧
      d.assignedTo = .undefined ∧ d.routedAt = none ∧
      d.timeline.map (·.status) = ["submitted"]) ∧
    (saveDraft s form id t₁ t₂ t₃).heap = s.heap ∧
    (saveDraft s form id t₁ t₂ t₃).reports = s.reports ∧
    (saveDraft s form id t₁ t₂ t₃).timers = s.timers ∧
    (∀ (s' : App) (reportId newStatus description : String) (now : Time),
      (updateReportStatus s' reportId newStatus description now).drafts = s'.drafts) ∧
    (∀ (s' : App) (a : Nat) (now : Time), (advanceTask s' a now).drafts = s'.drafts) ∧
    (∀ s' : App, (simulateResolution s').drafts = s'.drafts) ∧
    (∀ s' : App, ∀ t ∈ (simulateResolution s').timers, t ∈ s'.timers ∨
      ∃ a ∈ s'.reports, t.task = .advance a) := by
  refine ⟨⟨_, rfl, rfl, rfl, rfl, rfl, rfl, rfl⟩, rfl, rfl, rfl,
    fun s' _ _ _ _ => updateReportStatus_drafts s' _ _ _ _,
    fun s' a now => advanceTask_drafts s' a now, fun _ => rfl, ?_⟩
  intro s' t ht
  simp only [simulateResolution, List.mem_append, List.mem_map] at ht
  rcases ht with h | ⟨p, hp, rfl⟩
  · exact Or.inl h
  · right
    refine ⟨p.2, ?_, rfl⟩
    have : p.2 ∈ s'.reports.filter (fun a => (s'.deref a).any isPending) := by
      have := List.mem_map_of_mem Prod.snd hp
      rwa [List.enum_map_snd] at this
    exact (List.mem_filter.mp this).1

/-- Witness of C18 on the seeded application: a draft saved under the id of a
report stays as it is when that id is passed to `updateReportStatus`. -/
theorem saveDraft_outside_lifecycle_witness :
    (saveDraft seededApp potholeForm "m1" 1 2 3).drafts.map (fun d => (d.id, d.isDraft))
      = [("m1", true)] ∧
    (updateReportStatus (saveDraft seededApp potholeForm "m1" 1 2 3) "m1" "resolved"
      "Issue has been successfully resolved" 7).drafts
      = (saveDraft seededApp potholeForm "m1" 1 2 3).drafts :=
  ⟨by decide,
   (saveDraft_outside_lifecycle seededApp potholeForm "m1" 1 2 3).2.2.2.2.1
     (saveDraft seededApp potholeForm "m1" 1 2 3) "m1" "resolved"
     "Issue has been successfully resolved" 7⟩

/-! ## Loading the stored snapshot -/

theorem filterMap_range' (pre l : List Report) :
    (List.range' pre.length l.length).filterMap (fun i => (pre ++ l)[i]?) = l := by
  induction l generalizing pre with
  | nil => rfl
  | cons x xs ih =>
    rw [List.length_cons, List.range'_succ, List.filterMap_cons]
    have h0 : (pre ++ x :: xs)[pre.length]? = some x := by
      rw [List.getElem?_append_right (Nat.le_refl _)]
      simp
    simp only [h0]
    have := ih (pre ++ [x])
    simp only [List.length_append, List.length_singleton, List.append_assoc,
      List.singleton_append] at this
    rw [this]

/-- What `loadFromLocalStorage` makes of a stored snapshot. -/
theorem loadFromLocalStorage_snapshot (s : App) (d : Snapshot) :
    (loadFromLocalStorage s (some (.snapshot d))).reportList
      = d.reports.map Report.throughJSON ∧
    (loadFromLocalStorage s (some (.snapshot d))).drafts = d.drafts.map Report.throughJSON ∧
    (loadFromLocalStorage s (some (.snapshot d))).currentUser = d.currentUser ∧
    loadFromLocalStorage s (some (.snapshot d)) =
      applySettings { s with
        heap := s.heap ++ d.reports.map Report.throughJSON
        reports := List.range' s.heap.length (d.reports.map Report.throughJSON).length
        drafts := d.drafts.map Report.throughJSON
        currentUser := d.currentUser } d.settings := by
  refine ⟨?_, rfl, rfl, rfl⟩
  simp only [loadFromLocalStorage, applySettings, App.reportList, Snapshot.throughJSON]
  exact filterMap_range' s.heap (d.reports.map Report.throughJSON)

theorem throughJSON_eq_self (r : Report)
    (h : ∀ name, r.assignedTo ≠ .inherited name) : r.throughJSON = r := by
  unfold Report.throughJSON
  cases ha : r.assignedTo with
  | undefined => cases r; simp_all [JSValue.throughJSON]
  | str v => cases r; simp_all [JSValue.throughJSON]
  | inherited name => exact absurd ha (h name)
  | plainObject => cases r; simp_all [JSValue.throughJSON]

/-- Round trip: what a fresh application loads after `saveToLocalStorage` is
the saved repository, drafts and user, each report having gone through JSON,
and the settings `getSettings` read go to `applySettings`. Reports and drafts come back
exactly when no `assignedTo` is an inherited member. -/
theorem loadFromLocalStorage_roundTrip (s : App) (isOffline : Bool) (settings : Settings)
    (recentActivity : Bool) :
    (loadFromLocalStorage (App.new isOffline settings recentActivity)
        (saveToLocalStorage s).storedItem).reportList = s.reportList.map Report.throughJSON ∧
    (loadFromLocalStorage (App.new isOffline settings recentActivity)
        (saveToLocalStorage s).storedItem).drafts = s.drafts.map Report.throughJSON ∧
    (loadFromLocalStorage (App.new isOffline settings recentActivity)
        (saveToLocalStorage s).storedItem).currentUser = s.currentUser ∧
    loadFromLocalStorage (App.new isOffline settings recentActivity)
        (saveToLocalStorage s).storedItem =
      applySettings { App.new isOffline settings recentActivity with
        heap := s.reportList.map Report.throughJSON
        reports := List.range' 0 (s.reportList.map Report.throughJSON).length
        drafts := s.drafts.map Report.throughJSON
        currentUser := s.currentUser } (getSettings s) ∧
    ((∀ r ∈ s.reportList, ∀ name, r.assignedTo ≠ .inherited name) →
      (loadFromLocalStorage (App.new isOffline settings recentActivity)
        (saveToLocalStorage s).storedItem).reportList = s.reportList) ∧
    ((∀ r ∈ s.drafts, ∀ name, r.assignedTo ≠ .inherited name) →
      (loadFromLocalStorage (App.new isOffline settings recentActivity)
        (saveToLocalStorage s).storedItem).drafts = s.drafts) := by
  have hitem : (saveToLocalStorage s).storedItem = some (.snapshot
      { reports := s.reportList, drafts := s.drafts, currentUser := s.currentUser,
        settings := getSettings s }) := rfl
  rw [hitem]
  obtain ⟨h1, h2, h3, h4⟩ := loadFromLocalStorage_snapshot
    (App.new isOffline settings recentActivity)
    { reports := s.reportList, drafts := s.drafts, currentUser := s.currentUser,
      settings := getSettings s }
  refine ⟨h1, h2, h3, ?_, ?_, ?_⟩
  · rw [h4]; rfl
  · intro h
    rw [h1]
    conv_rhs => rw [← List.map_id s.reportList]
    exact List.map_congr_left (fun r hr => throughJSON_eq_self r (h r hr))
  · intro h
    rw [h2]
    conv_rhs => rw [← List.map_id s.drafts]
    exact List.map_congr_left (fun r hr => throughJSON_eq_self r (h r hr))

/-- C12 at a report routed under the category `constructor`: the repository of
a reachable state holds a report assigned to the inherited member, the stored
text leaves that property out, and the fresh application loads a report
without `assignedTo`, so the loaded repository differs from the saved one. -/
theorem roundTrip_loses_inherited :
    Reachable (submitReport (App.new false defaultSettings true)
      (potholeFormIn "constructor") "k3x9" 1 2 3) ∧
    (submitReport (App.new false defaultSettings true)
      (potholeFormIn "constructor") "k3x9" 1 2 3).reportList.map (·.assignedTo)
        = [.inherited "constructor"] ∧
    (loadFromLocalStorage (App.new false defaultSettings true)
      (saveToLocalStorage (submitReport (App.new false defaultSettings true)
        (potholeFormIn "constructor") "k3x9" 1 2 3)).storedItem).reportList.map (·.assignedTo)
        = [.undefined] ∧
    (loadFromLocalStorage (App.new false defaultSettings true)
      (saveToLocalStorage (submitReport (App.new false defaultSettings true)
        (potholeFormIn "constructor") "k3x9" 1 2 3)).storedItem).reportList
      ≠ (submitReport (App.new false defaultSettings true)
        (potholeFormIn "constructor") "k3x9" 1 2 3).reportList := by
  refine ⟨?_, by decide, by decide, by decide⟩
  exact Reachable.step (Reachable.empty false defaultSettings true)
    (Step.submit _ (potholeFormIn "constructor") "k3x9" 1 2 3
      (by intro r hr; simp [App.new] at hr))

/-! ## The statuses a report takes -/

theorem updateStatus_heap_status (s : App) (reportId newStatus description : String)
    (now : Time) (hns : newStatus ∈ statuses) :
    (updateReportStatus s reportId newStatus description now).heap = s.heap ∨
    (∃ a r ns d, s.deref a = some r ∧ ns ∈ statuses ∧
      (updateReportStatus s reportId newStatus description now).heap =
        s.heap.set a (r.withStatus ns d now)) := by
  rcases updateReportStatus_heap_cases s reportId newStatus description now with h | ⟨a, r, hd, h⟩
  · exact Or.inl h
  · exact Or.inr ⟨a, r, _, _, hd, hns, h⟩

/-- The heap after an event of the running program: as `step_heap`, with the
status an update sets being one of `under-review`, `in-progress`, `resolved`. -/
theorem step_heap_status {s s' : App} (hinv : Inv s) (st : Step s s') :
    s'.heap = s.heap ∨
    (∃ form id t₁ t₂ t₃,
      s'.heap = s.heap ++
        [routeReport (validateReportData (collectReportData s form id t₁ t₂)).data t₃]) ∨
    (∃ a r newStatus description now, s.deref a = some r ∧ newStatus ∈ statuses ∧
      s'.heap = s.heap.set a (r.withStatus newStatus description now)) := by
  cases st with
  | submit form id t₁ t₂ t₃ fresh =>
    cases hv : (validateReportData (collectReportData s form id t₁ t₂)).isValid with
    | true => right; left; exact ⟨form, id, t₁, t₂, t₃, (submitReport_valid s form id t₁ t₂ t₃ hv).1⟩
    | false => left; rw [submitReport_invalid s form id t₁ t₂ t₃ hv]; rfl
  | draft form id t₁ t₂ t₃ => left; rfl
  | register name email phone location id now =>
    left
    unfold registerUser
    split <;> rfl
  | online isOnline => left; rfl
  | dashboard => left; simp
  | timer i now due =>
    rw [fire_eq s i now due]
    have hmem : s.timers[i].task ∈ s.tasks := List.mem_map.mpr ⟨_, List.getElem_mem due, rfl⟩
    cases hk : s.timers[i].task with
    | updateStatus reportId newStatus description =>
      rw [hk] at hmem
      have hns : newStatus ∈ statuses := by
        rw [(hinv.deferred _ _ _ hmem).1]; decide
      rcases updateStatus_heap_status { s with timers := s.timers.eraseIdx i } reportId
        newStatus description now hns with h | ⟨a, r, ns, d, hd, hn, h⟩
      · exact Or.inl h
      · exact Or.inr (Or.inr ⟨a, r, ns, d, now, hd, hn, h⟩)
    | advance b =>
      simp only [runTask]
      rcases advanceTask_cases { s with timers := s.timers.eraseIdx i } b now
        with h | ⟨r, ns, d, -, hns, h⟩
      · left; rw [h]
      · rw [h]
        rcases updateStatus_heap_status { s with timers := s.timers.eraseIdx i } r.id
          ns d now hns with h | ⟨a, r', ns', d', hd, hn, h⟩
        · exact Or.inl h
        · exact Or.inr (Or.inr ⟨a, r', ns', d', now, hd, hn, h⟩)
    | simulate => left; rfl

/-- In every reachable state the status of every report object is one of the
four lifecycle statuses. -/
theorem reachable_status {s : App} (hs : Reachable s) :
    ∀ r ∈ s.heap, r.status ∈ lifecycleStatuses := by
  induction hs with
  | empty isOffline settings recentActivity => intro r hr; simp [App.new] at hr
  | seeded isOffline settings recentActivity id₁ id₂ now distinct =>
    intro r hr
    rw [init_heap] at hr
    simp only [mockReports, List.mem_cons, List.mem_singleton, List.not_mem_nil, or_false] at hr
    rcases hr with rfl | rfl
    · show "in-progress" ∈ lifecycleStatuses
      decide
    · show "resolved" ∈ lifecycleStatuses
      decide
  | step h st ih =>
    intro r hr
    rcases step_heap_status (inv_of_reachable h) st with
      e | ⟨form, id, t₁, t₂, t₃, e⟩ | ⟨a, r₀, ns, d, now, hd, hns, e⟩
    · rw [e] at hr; exact ih r hr
    · rw [e] at hr
      rcases List.mem_append.mp hr with h' | h'
      · exact ih r h'
      · rw [List.mem_singleton] at h'
        rw [h']
        show "submitted" ∈ lifecycleStatuses
        decide
    · rw [e] at hr
      rcases List.mem_or_eq_of_mem_set hr with h' | h'
      · exact ih r h'
      · rw [h']
        show ns ∈ lifecycleStatuses
        simp only [statuses, List.mem_cons, List.mem_singleton, List.not_mem_nil,
          or_false] at hns
        rcases hns with rfl | rfl | rfl <;> decide

theorem mem_heap_of_mem_reportList {s : App} {r : Report} (h : r ∈ s.reportList) :
    r ∈ s.heap := by
  obtain ⟨a, -, ha⟩ := List.mem_filterMap.mp h
  exact mem_heap_of_deref ha

/-- With lifecycle statuses only, every report is counted as resolved or as
pending, and never as both. -/
theorem length_eq_resolved_add_pending (l : List Report)
    (h : ∀ r ∈ l, r.status ∈ lifecycleStatuses) :
    l.length = (l.filter (fun r => r.status == "resolved")).length +
      (l.filter isPending).length := by
  induction l with
  | nil => rfl
  | cons r l ih =>
    have ih' := ih (fun x hx => h x (List.mem_cons_of_mem _ hx))
    have hr := h r (List.mem_cons_self _ _)
    simp only [lifecycleStatuses, List.mem_cons, List.mem_singleton, List.not_mem_nil,
      or_false] at hr
    have key : ((r.status == "resolved") = true ∧ isPending r = false) ∨
        ((r.status == "resolved") = false ∧ isPending r = true) := by
      unfold isPending
      rcases hr with e | e | e | e <;> rw [e] <;> decide
    rcases key with ⟨k1, k2⟩ | ⟨k1, k2⟩
    · simp only [List.filter_cons, k1, k2, if_true, List.length_cons]
      simp only [Bool.false_eq_true, if_false]
      omega
    · simp only [List.filter_cons, k1, k2, if_true, List.length_cons]
      simp only [Bool.false_eq_true, if_false]
      omega

/-- C20: in every reachable state every report has one of the four lifecycle
statuses, never `routed`, and the counters `updateDashboard` writes satisfy
total = resolved + pending. -/
theorem dashboard_counts_add_up (s : App) (hs : Reachable s) :
    (∀ a r, s.deref a = some r →
      r.status = "submitted" ∨ r.status = "under-review" ∨ r.status = "in-progress" ∨
        r.status = "resolved") ∧
    (∀ r ∈ s.reportList, r.status ≠ "routed") ∧
    (∃ totalReports resolvedReports pendingReports,
      (updateDashboard s).effects = s.effects ++
        [.dashboard totalReports resolvedReports pendingReports] ∧
      totalReports = s.reportList.length ∧
      resolvedReports = (s.reportList.filter (fun r => r.status == "resolved")).length ∧
      pendingReports = (s.reportList.filter isPending).length ∧
      totalReports = resolvedReports + pendingReports) := by
  have hst := reachable_status hs
  have four : ∀ r ∈ s.heap, r.status = "submitted" ∨ r.status = "under-review" ∨
      r.status = "in-progress" ∨ r.status = "resolved" := by
    intro r hr
    simpa [lifecycleStatuses] using hst r hr
  refine ⟨fun a r hd => four r (mem_heap_of_deref hd), ?_, ?_⟩
  · intro r hr e
    have := four r (mem_heap_of_mem_reportList hr)
    rw [e] at this
    revert this
    decide
  · refine ⟨_, _, _, updateDashboard_effects s, rfl, rfl, rfl, ?_⟩
    exact length_eq_resolved_add_pending _ (fun r hr => hst r (mem_heap_of_mem_reportList hr))

/-- Witness of C20 on the seeded application: two reports, one resolved, one
pending. -/
theorem dashboard_counts_add_up_witness :
    (updateDashboard seededApp).effects = seededApp.effects ++ [.dashboard 2 1 1] ∧
    (2 : Nat) = 1 + 1 := by
  obtain ⟨t, r, p, h1, h2, h3, h4, h5⟩ :=
    (dashboard_counts_add_up seededApp
      (Reachable.seeded false defaultSettings true "m1" "m2" _ (by decide))).2.2
  have e2 : t = 2 := by rw [h2]; decide
  have e3 : r = 1 := by rw [h3]; decide
  have e4 : p = 1 := by rw [h4]; decide
  subst e2 e3 e4
  exact ⟨h1, h5⟩

/-! ## Filtering and sorting the repository -/

theorem isPrefixOf_iff (n u : List Char) :
    n.isPrefixOf u = true ↔ ∃ post, u = n ++ post := by
  induction n generalizing u with
  | nil => simp
  | cons c cs ih =>
    cases u with
    | nil => simp
    | cons d ds =>
      rw [List.isPrefixOf_cons₂, Bool.and_eq_true, ih]
      constructor
      · rintro ⟨hcd, post, rfl⟩
        have : c = d := by simpa using hcd
        exact ⟨post, by rw [this]; rfl⟩
      · rintro ⟨post, h⟩
        simp only [List.cons_append, List.cons.injEq] at h
        exact ⟨by simp [h.1], post, h.2⟩

/-- `includes` holds exactly when the needle occurs in the haystack. -/
theorem jsIncludes_iff (haystack needle : String) :
    jsIncludes haystack needle = true ↔
      ∃ pre post, haystack.data = pre ++ needle.data ++ post := by
  unfold jsIncludes
  generalize haystack.data = h
  generalize needle.data = n
  induction h with
  | nil =>
    simp only [List.tails, List.any_cons, List.any_nil, Bool.or_false, isPrefixOf_iff]
    constructor
    · rintro ⟨post, e⟩
      exact ⟨[], post, by simpa using e⟩
    · rintro ⟨pre, post, e⟩
      have e' := e.symm
      simp only [List.append_eq_nil, List.append_assoc] at e'
      exact ⟨[], by simp [e'.2.1]⟩
  | cons x xs ih =>
    rw [List.tails_cons, List.any_cons, Bool.or_eq_true, ih, isPrefixOf_iff]
    constructor
    · rintro (⟨post, e⟩ | ⟨pre, post, e⟩)
      · exact ⟨[], post, by simpa using e⟩
      · exact ⟨x :: pre, post, by rw [e]; simp⟩
    · rintro ⟨pre, post, e⟩
      cases pre with
      | nil => exact Or.inl ⟨post, by simpa using e⟩
      | cons y ys =>
        simp only [List.cons_append, List.cons.injEq] at e
        exact Or.inr ⟨ys, post, e.2⟩

theorem filterActive_iff (v : Option String) :
    filterActive v = true ↔ ∃ f, v = some f ∧ f ≠ "" := by
  cases v <;> simp [filterActive]

/-- The filter predicate of `getFilteredReports`, rule by rule. -/
theorem passesFilters_iff (toLowerCase : String → String)
    (searchTerm statusFilter categoryFilter : Option String) (r : Report) :
    passesFilters toLowerCase searchTerm statusFilter categoryFilter r = true ↔
      (∀ term, searchTerm = some term → term ≠ "" →
        jsIncludes (toLowerCase r.title) term = true ∨
        jsIncludes (toLowerCase r.id) term = true) ∧
      (∀ f, statusFilter = some f → f ≠ "" → r.status = f) ∧
      (∀ f, categoryFilter = some f → f ≠ "" → r.category = some f) := by
  unfold passesFilters searchPasses statusPasses categoryPasses
  rw [Bool.and_eq_true, Bool.and_eq_true, and_assoc]
  refine and_congr ?_ (and_congr ?_ ?_)
  · cases searchTerm with
    | none => simp
    | some term =>
      by_cases h : term = ""
      · simp [h]
      · simp [h]
  · cases statusFilter with
    | none => simp [filterActive]
    | some f =>
      by_cases h : f = ""
      · simp [h, filterActive]
      · simp [h, filterActive]
  · cases categoryFilter with
    | none => simp [filterActive]
    | some f =>
      by_cases h : f = ""
      · simp [h, filterActive]
      · simp [h, filterActive]

theorem passesFilters_inactive (toLowerCase : String → String)
    (searchTerm statusFilter categoryFilter : Option String)
    (h1 : filterActive searchTerm = false) (h2 : filterActive statusFilter = false)
    (h3 : filterActive categoryFilter = false) (r : Report) :
    passesFilters toLowerCase searchTerm statusFilter categoryFilter r = true := by
  rw [passesFilters_iff]
  refine ⟨?_, ?_, ?_⟩
  · intro term e hne
    have : filterActive searchTerm = true := (filterActive_iff _).mpr ⟨term, e, hne⟩
    rw [h1] at this
    cases this
  · intro f e hne
    have : filterActive statusFilter = true := (filterActive_iff _).mpr ⟨f, e, hne⟩
    rw [h2] at this
    cases this
  · intro f e hne
    have : filterActive categoryFilter = true := (filterActive_iff _).mpr ⟨f, e, hne⟩
    rw [h3] at this
    cases this

/-- Sorting with the comparator of the code puts newer reports first. -/
theorem insertionSort_newest_first (s : App) (l : List Nat) :
    (l.insertionSort (fun a b => s.submittedAtOf b - s.submittedAtOf a ≤ 0)).Pairwise
      (fun a b => s.submittedAtOf b ≤ s.submittedAtOf a) := by
  haveI : IsTotal Nat (fun a b => s.submittedAtOf b - s.submittedAtOf a ≤ 0) :=
    ⟨fun a b => by
      show s.submittedAtOf b - s.submittedAtOf a ≤ 0 ∨ s.submittedAtOf a - s.submittedAtOf b ≤ 0
      rw [sub_nonpos, sub_nonpos]
      exact le_total _ _⟩
  haveI : IsTrans Nat (fun a b => s.submittedAtOf b - s.submittedAtOf a ≤ 0) :=
    ⟨fun a b c h1 h2 => by
      show s.submittedAtOf c - s.submittedAtOf a ≤ 0
      have h1' : s.submittedAtOf b - s.submittedAtOf a ≤ 0 := h1
      have h2' : s.submittedAtOf c - s.submittedAtOf b ≤ 0 := h2
      rw [sub_nonpos] at h1' h2' ⊢
      exact le_trans h2' h1'⟩
  have h := List.sorted_insertionSort (fun a b => s.submittedAtOf b - s.submittedAtOf a ≤ 0) l
  exact List.Pairwise.imp (fun {a b} (hab : s.submittedAtOf b - s.submittedAtOf a ≤ 0) =>
    sub_nonpos.mp hab) h

/-- A filter that is applied only when active is a filter that lets every
report pass when it is not active. -/
theorem filter_stage (s : App) (l : List Nat) (hvalid : ∀ a ∈ l, ∃ r, s.deref a = some r)
    (c : Bool) (p : Report → Bool) :
    (if c = true then l.filter (fun a => (s.deref a).any p) else l) =
      l.filter (fun a => (s.deref a).any (fun r => !c || p r)) := by
  cases c
  · simp only [Bool.false_eq_true, if_false, Bool.not_false, Bool.true_or]
    symm
    rw [List.filter_eq_self]
    intro a ha
    obtain ⟨r, hr⟩ := hvalid a ha
    simp [hr]
  · simp

/-- The array `getFilteredReports` sorts: the elements of the repository that
pass the filters, when every element of the repository is a report object. -/
theorem getFilteredReports_perm (s : App) (toLowerCase : String → String)
    (searchReports statusFilter categoryFilter : Option String)
    (hvalid : ∀ a ∈ s.reports, ∃ r, s.deref a = some r) :
    (getFilteredReports s toLowerCase searchReports statusFilter categoryFilter).2.Perm
      (s.reports.filter (fun a => (s.deref a).any
        (passesFilters toLowerCase (searchReports.map toLowerCase) statusFilter
          categoryFilter))) := by
  unfold getFilteredReports
  refine (List.perm_insertionSort _ _).trans ?_
  apply List.Perm.of_eq
  dsimp only
  generalize searchReports.map toLowerCase = searchTerm
  have hsearch : (match searchTerm with
      | some term =>
        if (term != "") = true then
          s.reports.filter (fun a => (s.deref a).any (fun (report : Report) =>
            jsIncludes (toLowerCase report.title) term ||
            jsIncludes (toLowerCase report.id) term))
        else s.reports
      | none => s.reports) =
      s.reports.filter (fun a => (s.deref a).any (searchPasses toLowerCase searchTerm)) := by
    cases searchTerm with
    | none =>
      have := filter_stage s s.reports hvalid false (fun _ => true)
      simpa [searchPasses] using this
    | some term =>
      have := filter_stage s s.reports hvalid (term != "") (fun (r : Report) =>
        jsIncludes (toLowerCase r.title) term || jsIncludes (toLowerCase r.id) term)
      show (if (term != "") = true then _ else _) = _
      rw [this]
      apply List.filter_congr
      intro a _
      cases s.deref a with
      | none => rfl
      | some r =>
        simp only [Option.any_some, searchPasses]
        by_cases ht : (term != "") = true
        · simp [ht]
        · simp [ht]
  rw [hsearch]
  have hv1 : ∀ a ∈ s.reports.filter
      (fun a => (s.deref a).any (searchPasses toLowerCase searchTerm)),
      ∃ r, s.deref a = some r :=
    fun a ha => hvalid a (List.mem_filter.mp ha).1
  have st1 := filter_stage s _ hv1 (filterActive statusFilter)
    (fun (report : Report) => some report.status == statusFilter)
  rw [st1]
  have hv2 : ∀ a ∈ (s.reports.filter
      (fun a => (s.deref a).any (searchPasses toLowerCase searchTerm))).filter
        (fun a => (s.deref a).any (fun r =>
          !filterActive statusFilter || (some r.status == statusFilter))),
      ∃ r, s.deref a = some r :=
    fun a ha => hv1 a (List.mem_filter.mp ha).1
  have st2 := filter_stage s _ hv2 (filterActive categoryFilter)
    (fun (report : Report) => report.category == categoryFilter)
  rw [st2, List.filter_filter, List.filter_filter]
  apply List.filter_congr
  intro a ha
  obtain ⟨r, hr⟩ := hvalid a ha
  simp only [hr, Option.any_some, passesFilters, statusPasses, categoryPasses]
  generalize searchPasses toLowerCase searchTerm r = x
  generalize (!filterActive statusFilter || (some r.status == statusFilter)) = y
  generalize (!filterActive categoryFilter || (r.category == categoryFilter)) = z
  cases x <;> cases y <;> cases z <;> rfl

/-- C19: `getFilteredReports` leaves the state as it is and returns, each as
often as the repository holds it, exactly the reports that pass every active
filter (the lower-cased title or id includes the lower-cased search term, the
status equals the status filter, the category equals the category filter),
newest first; with no filter active the result is a permutation of the
repository. -/
theorem getFilteredReports_spec (s : App) (toLowerCase : String → String)
    (searchReports statusFilter categoryFilter : Option String)
    (hvalid : ∀ a ∈ s.reports, (s.deref a).isSome = true) :
    (getFilteredReports s toLowerCase searchReports statusFilter categoryFilter).1 = s ∧
    (getFilteredReports s toLowerCase searchReports statusFilter categoryFilter).2.Perm
      (s.reports.filter (fun a => (s.deref a).any
        (passesFilters toLowerCase (searchReports.map toLowerCase) statusFilter
          categoryFilter))) ∧
    (∀ a, a ∈ (getFilteredReports s toLowerCase searchReports statusFilter categoryFilter).2 ↔
      a ∈ s.reports ∧ ∃ r, s.deref a = some r ∧
        (∀ term, searchReports = some term → toLowerCase term ≠ "" →
          (∃ pre post, (toLowerCase r.title).data = pre ++ (toLowerCase term).data ++ post) ∨
          (∃ pre post, (toLowerCase r.id).data = pre ++ (toLowerCase term).data ++ post)) ∧
        (∀ f, statusFilter = some f → f ≠ "" → r.status = f) ∧
        (∀ f, categoryFilter = some f → f ≠ "" → r.category = some f)) ∧
    (getFilteredReports s toLowerCase searchReports statusFilter categoryFilter).2.Pairwise
      (fun a b => s.submittedAtOf b ≤ s.submittedAtOf a) ∧
    (filterActive (searchReports.map toLowerCase) = false → filterActive statusFilter = false →
      filterActive categoryFilter = false →
      (getFilteredReports s toLowerCase searchReports statusFilter categoryFilter).2.Perm
        s.reports) := by
  have hvalid : ∀ a ∈ s.reports, ∃ r, s.deref a = some r :=
    fun a ha => Option.isSome_iff_exists.mp (hvalid a ha)
  have hperm := getFilteredReports_perm s toLowerCase searchReports statusFilter
    categoryFilter hvalid
  refine ⟨rfl, hperm, ?_, insertionSort_newest_first s _, ?_⟩
  · intro a
    rw [hperm.mem_iff, List.mem_filter]
    refine and_congr Iff.rfl ?_
    cases hd : s.deref a with
    | none => simp
    | some r =>
      simp only [Option.any_some, Option.some.injEq, exists_eq_left', passesFilters_iff,
        jsIncludes_iff]
      refine and_congr ?_ Iff.rfl
      cases searchReports with
      | none => simp
      | some term => simp
  · intro h1 h2 h3
    refine hperm.trans ?_
    rw [List.filter_eq_self.mpr]
    intro a ha
    obtain ⟨r, hr⟩ := hvalid a ha
    rw [hr]
    exact passesFilters_inactive toLowerCase _ _ _ h1 h2 h3 r

/-- Witness of C19 on the seeded application: the search term `MAIN` selects
the report on Main Street. -/
theorem getFilteredReports_spec_witness :
    (getFilteredReports seededApp asciiLower (some "MAIN") (some "")
      none).2 = [0] ∧
    ((getFilteredReports seededApp asciiLower (some "MAIN") (some "")
      none).2.Pairwise (fun a b => seededApp.submittedAtOf b ≤ seededApp.submittedAtOf a)) :=
  ⟨by decide,
   (getFilteredReports_spec seededApp asciiLower (some "MAIN") (some "") none
    (by decide)).2.2.2.1⟩

/-! ## Scheduled advances -/

/-- An advance step, when `find` by the id of the captured object returns that
object: the object is advanced and every other object is left as it is. -/
theorem deref_advanceTask {s : App} (hperm : s.reports.Perm (List.range s.heap.length))
    (hids : (s.heap.map (·.id)).Nodup) (a : Nat) (now : Time) (b : Nat) :
    (advanceTask s a now).deref b =
      if b = a then (s.deref a).map (·.advanced now) else s.deref b := by
  cases hr : s.deref a with
  | none =>
    rw [advanceTask_of_none s a now hr]
    split
    · rename_i e; rw [e, hr]; rfl
    · rfl
  | some r =>
    have hfind := findReport_of_distinct hperm hids hr
    have key : ∀ ns d, (updateReportStatus s r.id ns d now).deref b =
        if b = a then some (r.withStatus ns d now) else s.deref b := by
      intro ns d
      rw [deref_updateReportStatus, hfind]
      by_cases e : b = a
      · subst e; simp [hr]
      · have e' : a ≠ b := fun h => e h.symm
        simp [e, e']
    rw [advanceTask_eq s a now r hr]
    simp only [Option.map_some', Report.advanced]
    by_cases h1 : r.status = "resolved"
    · simp only [h1, if_true]
      split
      · rename_i e; rw [e, hr]
      · rfl
    · simp only [h1, if_false]
      by_cases h2 : r.status = "under-review"
      · simp only [h2, if_true]; exact key _ _
      · simp only [h2, if_false]
        by_cases h3 : r.status = "in-progress"
        · simp only [h3, if_true]; exact key _ _
        · simp only [h3, if_false]; exact key _ _

theorem fire_scheduled_head (s : App) (old : List Timer) (t : Timer) (rest : List Timer)
    (now : Time) (h : s.timers = old ++ t :: rest) :
    fire s old.length now = runTask { s with timers := old ++ rest } t.task now := by
  unfold fire
  have h1 : s.timers[old.length]? = some t := by
    rw [h, List.getElem?_append_right (Nat.le_refl _)]
    simp
  have h2 : s.timers.eraseIdx old.length = old ++ rest := by
    rw [h, List.eraseIdx_append_of_length_le (Nat.le_refl _)]
    simp
  rw [h1]
  simp only [h2]

/-- Firing the scheduled advance tasks one after the other: every captured
object is advanced once, every other object is left as it is, and the timers
that were pending before are what remains. -/
theorem fireScheduled_spec (sched : List Timer) :
    ∀ (s : App) (old : List Timer) (addrs : List Nat) (nows : List Time),
      s.timers = old ++ sched → sched.map (·.task) = addrs.map TimerTask.advance →
      nows.length = sched.length → addrs.Nodup →
      s.reports.Perm (List.range s.heap.length) → (s.heap.map (·.id)).Nodup →
      (fireScheduled s old.length nows).timers = old ∧
      (fireScheduled s old.length nows).reports.Perm s.reports ∧
      (fireScheduled s old.length nows).heap.length = s.heap.length ∧
      (fireScheduled s old.length nows).heap.map (·.id) = s.heap.map (·.id) ∧
      (∀ b, b ∉ addrs → (fireScheduled s old.length nows).deref b = s.deref b) ∧
      (∀ b ∈ addrs, ∃ now ∈ nows,
        (fireScheduled s old.length nows).deref b = (s.deref b).map (·.advanced now)) := by
  induction sched with
  | nil =>
    intro s old addrs nows ht hm hl _ _ _
    have hn : nows = [] := List.eq_nil_of_length_eq_zero (by simpa using hl)
    have ha : addrs = [] := by
      cases addrs with
      | nil => rfl
      | cons a as => simp at hm
    subst hn ha
    refine ⟨by simpa using ht, List.Perm.refl _, rfl, rfl, fun _ _ => rfl, ?_⟩
    intro b hb
    simp at hb
  | cons t rest ih =>
    intro s old addrs nows ht hm hl hnd hperm hids
    cases addrs with
    | nil => simp at hm
    | cons a as =>
      cases nows with
      | nil => simp at hl
      | cons now nows' =>
        simp only [List.map_cons, List.cons.injEq] at hm
        obtain ⟨hta, hm'⟩ := hm
        have hl' : nows'.length = rest.length := by simpa using hl
        obtain ⟨hna, hnd'⟩ := List.nodup_cons.mp hnd
        have hfire : fire s old.length now =
            advanceTask { s with timers := old ++ rest } a now := by
          rw [fire_scheduled_head s old t rest now ht, hta]
          rfl
        have hperm₀ : ({ s with timers := old ++ rest } : App).reports.Perm
            (List.range ({ s with timers := old ++ rest } : App).heap.length) := hperm
        have hids₀ : (({ s with timers := old ++ rest } : App).heap.map (·.id)).Nodup := hids
        have hunf : fireScheduled s old.length (now :: nows') =
            fireScheduled (fire s old.length now) old.length nows' := rfl
        rw [hunf]
        have ht₁ : (fire s old.length now).timers = old ++ rest := by
          rw [hfire, advanceTask_timers]
        have hlen₁ : (fire s old.length now).heap.length = s.heap.length := by
          rw [hfire, advanceTask_heap_length]
        have hids₁ : (fire s old.length now).heap.map (·.id) = s.heap.map (·.id) := by
          rw [hfire, advanceTask_ids]
        have hperm₁ : (fire s old.length now).reports.Perm s.reports := by
          rw [hfire]
          exact advanceTask_reports_perm _ _ _
        have hd₁ : ∀ b, (fire s old.length now).deref b =
            if b = a then (s.deref a).map (·.advanced now) else s.deref b := by
          intro b
          rw [hfire]
          exact deref_advanceTask hperm₀ hids₀ a now b
        obtain ⟨r1, r2, r3, r4, r5, r6⟩ := ih (fire s old.length now) old as nows' ht₁ hm' hl'
          hnd' (by rw [hlen₁]; exact hperm₁.trans hperm) (by rw [hids₁]; exact hids)
        refine ⟨r1, r2.trans hperm₁, r3.trans hlen₁, r4.trans hids₁, ?_, ?_⟩
        · intro b hb
          have hba : b ≠ a := fun e => hb (e ▸ List.mem_cons_self _ _)
          have hbas : b ∉ as := fun h => hb (List.mem_cons_of_mem _ h)
          rw [r5 b hbas, hd₁ b, if_neg hba]
        · intro b hb
          rcases List.mem_cons.mp hb with e | hbas
          · subst e
            refine ⟨now, List.mem_cons_self _ _, ?_⟩
            rw [r5 b hna, hd₁ b, if_pos rfl]
          · have hba : b ≠ a := fun e => hna (e ▸ hbas)
            obtain ⟨now', hn', h'⟩ := r6 b hbas
            refine ⟨now', List.mem_cons_of_mem _ hn', ?_⟩
            rw [h', hd₁ b, if_neg hba]

theorem scheduled_tasks (l : List Nat) :
    (l.enum.map (fun p => ({ delay := (p.1 + 1) * 10000, task := .advance p.2 } : Timer))).map
      (·.task) = l.map TimerTask.advance := by
  rw [List.map_map]
  have : ((fun t : Timer => t.task) ∘
      (fun p : Nat × Nat => ({ delay := (p.1 + 1) * 10000, task := .advance p.2 } : Timer)))
      = TimerTask.advance ∘ Prod.snd := rfl
  rw [this, ← List.map_map, List.enum_map_snd]

theorem simulateResolution_timers (s : App) :
    (simulateResolution s).timers = s.timers ++ (pendingReports s).enum.map
      (fun p => ({ delay := (p.1 + 1) * 10000, task := .advance p.2 } : Timer)) := by
  simp only [simulateResolution, pendingReports]

theorem mem_pendingReports {s : App} {a : Nat} :
    a ∈ pendingReports s ↔ a ∈ s.reports ∧ ∃ r, s.deref a = some r ∧ isPending r = true := by
  unfold pendingReports
  rw [List.mem_filter]
  refine and_congr Iff.rfl ?_
  cases s.deref a <;> simp

/-- One round of scheduled advances in a state whose repository holds every
report object once and whose ids are pairwise distinct: every pending report
is advanced once, every other object is left as it is. -/
theorem advanceRound_spec {s : App} (hperm : s.reports.Perm (List.range s.heap.length))
    (hids : (s.heap.map (·.id)).Nodup) (clock : Nat → Time) :
    (advanceRound s clock).timers = s.timers ∧
    (advanceRound s clock).reports.Perm (List.range (advanceRound s clock).heap.length) ∧
    ((advanceRound s clock).heap.map (·.id)).Nodup ∧
    (advanceRound s clock).reports.Perm s.reports ∧
    (advanceRound s clock).heap.length = s.heap.length ∧
    (∀ b r, s.deref b = some r → isPending r = true →
      ∃ now, (advanceRound s clock).deref b = some (r.advanced now)) ∧
    (∀ b r, s.deref b = some r → isPending r = false →
      (advanceRound s clock).deref b = some r) := by
  have hnd : (pendingReports s).Nodup :=
    (hperm.nodup_iff.mpr (List.nodup_range _)).filter _
  have hlen : ((List.range (pendingReports s).length).map clock).length =
      ((pendingReports s).enum.map
        (fun p => ({ delay := (p.1 + 1) * 10000, task := .advance p.2 } : Timer))).length := by
    rw [List.length_map, List.length_map, List.length_range, List.enum_length]
  have hperm' : (simulateResolution s).reports.Perm
      (List.range (simulateResolution s).heap.length) := hperm
  have hids' : ((simulateResolution s).heap.map (·.id)).Nodup := hids
  obtain ⟨r1, r2, r3, r4, r5, r6⟩ := fireScheduled_spec _
    (simulateResolution s) s.timers (pendingReports s)
    ((List.range (pendingReports s).length).map clock) (simulateResolution_timers s)
    (scheduled_tasks _) hlen hnd hperm' hids'
  have hin : ∀ b r, s.deref b = some r → (b ∈ pendingReports s ↔ isPending r = true) := by
    intro b r hd
    rw [mem_pendingReports]
    constructor
    · rintro ⟨-, r', hd', hp⟩
      rw [hd] at hd'
      cases hd'
      exact hp
    · intro hp
      exact ⟨hperm.mem_iff.mpr (List.mem_range.mpr (deref_lt hd)), r, hd, hp⟩
  refine ⟨r1, ?_, ?_, r2, r3, ?_, ?_⟩
  · show (fireScheduled _ _ _).reports.Perm (List.range (fireScheduled _ _ _).heap.length)
    rw [r3]
    exact r2.trans hperm
  · show ((fireScheduled _ _ _).heap.map (·.id)).Nodup
    rw [r4]
    exact hids
  · intro b r hd hp
    obtain ⟨now, -, h⟩ := r6 b ((hin b r hd).mpr hp)
    refine ⟨now, ?_⟩
    show (fireScheduled _ _ _).deref b = _
    rw [h]
    show (s.deref b).map _ = _
    rw [hd]
    rfl
  · intro b r hd hp
    have hnot : b ∉ pendingReports s := by
      intro hb
      rw [(hin b r hd).mp hb] at hp
      cases hp
    show (fireScheduled _ _ _).deref b = _
    rw [r5 b hnot]
    exact hd

theorem isPending_iff (r : Report) :
    isPending r = true ↔
      (r.status = "submitted" ∨ r.status = "under-review" ∨ r.status = "in-progress") := by
  simp [isPending]

theorem advanced_submitted (r : Report) (now : Time) (h : r.status = "submitted") :
    r.advanced now = r.withStatus "under-review" "Report is being reviewed by authorities" now := by
  unfold Report.advanced
  rw [h, if_neg (by decide), if_neg (by decide), if_neg (by decide)]

theorem advanced_underReview (r : Report) (now : Time) (h : r.status = "under-review") :
    r.advanced now =
      r.withStatus "in-progress" "Authorities have started working on this issue" now := by
  unfold Report.advanced
  rw [h, if_neg (by decide), if_pos rfl]

theorem advanced_inProgress (r : Report) (now : Time) (h : r.status = "in-progress") :
    r.advanced now = r.withStatus "resolved" "Issue has been successfully resolved" now := by
  unfold Report.advanced
  rw [h, if_neg (by decide), if_neg (by decide), if_pos rfl]

theorem stepsLeft_le (r : Report) : r.stepsLeft ≤ 3 := by
  unfold Report.stepsLeft
  split
  · exact Nat.le_refl _
  · split
    · decide
    · split <;> decide

theorem isPending_iff_stepsLeft (r : Report) : isPending r = true ↔ 0 < r.stepsLeft := by
  rw [isPending_iff]
  unfold Report.stepsLeft
  by_cases h1 : r.status = "submitted"
  · simp [h1]
  · by_cases h2 : r.status = "under-review"
    · simp [h2]
    · by_cases h3 : r.status = "in-progress"
      · simp [h3]
      · simp [h1, h2, h3]

theorem stepsLeft_advanced (r : Report) (now : Time) (h : isPending r = true) :
    (r.advanced now).stepsLeft = r.stepsLeft - 1 := by
  rcases (isPending_iff r).mp h with e | e | e
  · rw [advanced_submitted r now e]
    simp [Report.stepsLeft, Report.withStatus, e]
  · rw [advanced_underReview r now e]
    simp [Report.stepsLeft, Report.withStatus, e]
  · rw [advanced_inProgress r now e]
    simp [Report.stepsLeft, Report.withStatus, e]

/-- One round takes one step off every report object that has steps left. -/
theorem advanceRound_stepsLeft {s : App} (hperm : s.reports.Perm (List.range s.heap.length))
    (hids : (s.heap.map (·.id)).Nodup) (clock : Nat → Time) (b : Nat) :
    ((advanceRound s clock).deref b).map Report.stepsLeft =
      (s.deref b).map (fun r => r.stepsLeft - 1) := by
  obtain ⟨-, -, -, -, hlen, hp, hn⟩ := advanceRound_spec hperm hids clock
  cases hd : s.deref b with
  | none =>
    have : (advanceRound s clock).deref b = none := by
      rw [deref_eq, List.getElem?_eq_none_iff, hlen]
      rw [deref_eq, List.getElem?_eq_none_iff] at hd
      exact hd
    rw [this]; rfl
  | some r =>
    cases hpend : isPending r with
    | true =>
      obtain ⟨now, h⟩ := hp b r hd hpend
      rw [h]
      simp only [Option.map_some', stepsLeft_advanced r now hpend]
    | false =>
      rw [hn b r hd hpend]
      have : r.stepsLeft = 0 := by
        by_contra hne
        have := (isPending_iff_stepsLeft r).mpr (Nat.pos_of_ne_zero hne)
        rw [hpend] at this
        cases this
      simp [this]

theorem pendingReports_eq_nil {s : App}
    (h : ∀ a, (s.deref a).map Report.stepsLeft = none ∨
      (s.deref a).map Report.stepsLeft = some 0) : pendingReports s = [] := by
  unfold pendingReports
  rw [List.filter_eq_nil_iff]
  intro a _
  cases hd : s.deref a with
  | none => simp
  | some r =>
    rcases h a with e | e
    · rw [hd] at e; cases e
    · rw [hd] at e
      simp only [Option.map_some', Option.some.injEq] at e
      simp only [Option.any_some, Bool.not_eq_true]
      cases hp : isPending r with
      | false => rfl
      | true =>
        have := (isPending_iff_stepsLeft r).mp hp
        omega

theorem resolveAll_of_pending (clock : Nat → Nat → Time) (fuel k : Nat) (s : App)
    (h : pendingReports s ≠ []) :
    resolveAll clock (fuel + 1) k s =
      ((resolveAll clock fuel (k + 1) (advanceRound s (clock k))).1,
       (resolveAll clock fuel (k + 1) (advanceRound s (clock k))).2 + 1) := by
  simp [resolveAll, h]

theorem resolveAll_of_none (clock : Nat → Nat → Time) (fuel k : Nat) (s : App)
    (h : pendingReports s = []) : resolveAll clock fuel k s = (s, 0) := by
  cases fuel with
  | zero => rfl
  | succ n => simp [resolveAll, h]

/-- C16: `simulateResolution` appends one timer per pending report of the
repository, in repository order, the `i`-th with delay `(i + 1) * 10000` and
the advance of that report as task, and nothing else; when the repository
holds every report object once and the ids are pairwise distinct, firing the
scheduled timers advances every pending report by one state and leaves every
other report object unchanged. -/
theorem simulateResolution_schedules (s : App) :
    (simulateResolution s).timers.length = s.timers.length + (pendingReports s).length ∧
    (∀ i, i < s.timers.length → (simulateResolution s).timers[i]? = s.timers[i]?) ∧
    (∀ i a, (pendingReports s)[i]? = some a →
      (simulateResolution s).timers[s.timers.length + i]?
        = some { delay := (i + 1) * 10000, task := .advance a }) ∧
    (∀ a, a ∈ pendingReports s ↔ a ∈ s.reports ∧ ∃ r, s.deref a = some r ∧
      (r.status = "submitted" ∨ r.status = "under-review" ∨ r.status = "in-progress")) ∧
    (pendingReports s).Sublist s.reports ∧
    (s.reports.Perm (List.range s.heap.length) → (s.heap.map (·.id)).Nodup →
      ∀ nows : List Time, nows.length = (pendingReports s).length →
        (fireScheduled (simulateResolution s) s.timers.length nows).timers = s.timers ∧
        ∀ b r, s.deref b = some r →
          (r.status = "submitted" → ∃ now ∈ nows,
            (fireScheduled (simulateResolution s) s.timers.length nows).deref b = some { r with
              status := "under-review"
              timeline := r.timeline ++
                [{ status := "under-review", date := now,
                   description := "Report is being reviewed by authorities" }] }) ∧
          (r.status = "under-review" → ∃ now ∈ nows,
            (fireScheduled (simulateResolution s) s.timers.length nows).deref b = some { r with
              status := "in-progress"
              timeline := r.timeline ++
                [{ status := "in-progress", date := now,
                   description := "Authorities have started working on this issue" }] }) ∧
          (r.status = "in-progress" → ∃ now ∈ nows,
            (fireScheduled (simulateResolution s) s.timers.length nows).deref b = some { r with
              status := "resolved"
              timeline := r.timeline ++
                [{ status := "resolved", date := now,
                   description := "Issue has been successfully resolved" }] }) ∧
          (isPending r = false →
            (fireScheduled (simulateResolution s) s.timers.length nows).deref b = some r)) := by
  have hmem : ∀ a, a ∈ pendingReports s ↔ a ∈ s.reports ∧ ∃ r, s.deref a = some r ∧
      (r.status = "submitted" ∨ r.status = "under-review" ∨ r.status = "in-progress") := by
    intro a
    rw [mem_pendingReports]
    simp only [isPending_iff]
  refine ⟨?_, ?_, ?_, hmem, List.filter_sublist _, ?_⟩
  · rw [simulateResolution_timers]
    simp
  · intro i hi
    rw [simulateResolution_timers, List.getElem?_append_left hi]
  · intro i a hi
    rw [simulateResolution_timers, List.getElem?_append_right (Nat.le_add_right _ _),
      Nat.add_sub_cancel_left, List.getElem?_map, List.getElem?_enum, hi]
    rfl
  · intro hperm hids nows hlen
    have hnd : (pendingReports s).Nodup :=
      (hperm.nodup_iff.mpr (List.nodup_range _)).filter _
    have hlen' : nows.length = ((pendingReports s).enum.map
        (fun p => ({ delay := (p.1 + 1) * 10000, task := .advance p.2 } : Timer))).length := by
      rw [hlen, List.length_map, List.enum_length]
    have hperm' : (simulateResolution s).reports.Perm
        (List.range (simulateResolution s).heap.length) := hperm
    have hids' : ((simulateResolution s).heap.map (·.id)).Nodup := hids
    obtain ⟨r1, -, -, -, r5, r6⟩ := fireScheduled_spec _ (simulateResolution s) s.timers
      (pendingReports s) nows (simulateResolution_timers s) (scheduled_tasks _) hlen' hnd
      hperm' hids'
    refine ⟨r1, ?_⟩
    intro b r hd
    have hin : isPending r = true → b ∈ pendingReports s := fun hp =>
      mem_pendingReports.mpr ⟨hperm.mem_iff.mpr (List.mem_range.mpr (deref_lt hd)), r, hd, hp⟩
    have hadv : isPending r = true → ∃ now ∈ nows,
        (fireScheduled (simulateResolution s) s.timers.length nows).deref b
          = some (r.advanced now) := by
      intro hp
      obtain ⟨now, hn, h⟩ := r6 b (hin hp)
      refine ⟨now, hn, ?_⟩
      rw [h]
      show (s.deref b).map _ = _
      rw [hd]
      rfl
    refine ⟨?_, ?_, ?_, ?_⟩
    · intro e
      obtain ⟨now, hn, h⟩ := hadv ((isPending_iff r).mpr (Or.inl e))
      exact ⟨now, hn, by rw [h, advanced_submitted r now e]; rfl⟩
    · intro e
      obtain ⟨now, hn, h⟩ := hadv ((isPending_iff r).mpr (Or.inr (Or.inl e)))
      exact ⟨now, hn, by rw [h, advanced_underReview r now e]; rfl⟩
    · intro e
      obtain ⟨now, hn, h⟩ := hadv ((isPending_iff r).mpr (Or.inr (Or.inr e)))
      exact ⟨now, hn, by rw [h, advanced_inProgress r now e]; rfl⟩
    · intro hp
      have hnot : b ∉ pendingReports s := by
        intro hb
        obtain ⟨-, r', hd', hp'⟩ := mem_pendingReports.mp hb
        rw [hd] at hd'
        cases hd'
        rw [hp] at hp'
        cases hp'
      rw [r5 b hnot]
      exact hd

/-- Witness of C16 on the seeded application: one task, for the demo report in
progress, with delay 10000; firing it resolves that report and leaves the
other one as it is. -/
theorem simulateResolution_schedules_witness :
    (simulateResolution seededApp).timers[seededApp.timers.length + 0]?
      = some { delay := 10000, task := .advance 0 } ∧
    (fireScheduled (simulateResolution seededApp) seededApp.timers.length [7]).deref 1
      = seededApp.deref 1 :=
  ⟨(simulateResolution_schedules seededApp).2.2.1 0 0 (by decide),
   (((simulateResolution_schedules seededApp).2.2.2.2.2 (by decide) (by decide) [7]
      (by decide)).2 1 _ rfl).2.2.2 (by decide)⟩

theorem stepsLeft_after_round {s : App} (hperm : s.reports.Perm (List.range s.heap.length))
    (hids : (s.heap.map (·.id)).Nodup) (clock : Nat → Time) (b : Nat) :
    ((advanceRound s clock).deref b).map Report.stepsLeft =
      ((s.deref b).map Report.stepsLeft).map (· - 1) := by
  rw [advanceRound_stepsLeft hperm hids, Option.map_map]
  rfl

theorem mem_pending_of_status {s : App} (hperm : s.reports.Perm (List.range s.heap.length))
    {a : Nat} {r : Report} (hr : s.deref a = some r) (hp : isPending r = true) :
    pendingReports s ≠ [] := by
  have : a ∈ pendingReports s :=
    mem_pendingReports.mpr ⟨hperm.mem_iff.mpr (List.mem_range.mpr (deref_lt hr)), r, hr, hp⟩
  intro e
  rw [e] at this
  simp at this

/-- C17 as stated fails: three reports stored by `submitReport` are all
`submitted`; three rounds of scheduled advances resolve them, and each
timeline then has five entries, the `routed` entry among them, not four. -/
theorem resolved_timeline_counterexample :
    threeSubmitted.reportList.map (·.status) = ["submitted", "submitted", "submitted"] ∧
    (resolveAll (fun _ _ => 99) 5 0 threeSubmitted).2 = 3 ∧
    (resolveAll (fun _ _ => 99) 5 0 threeSubmitted).1.reportList.map
        (fun r => (r.status, r.timeline.map (·.status))) =
      [("resolved", ["submitted", "routed", "under-review", "in-progress", "resolved"]),
       ("resolved", ["submitted", "routed", "under-review", "in-progress", "resolved"]),
       ("resolved", ["submitted", "routed", "under-review", "in-progress", "resolved"])] ∧
    ¬ (∀ r ∈ (resolveAll (fun _ _ => 99) 5 0 threeSubmitted).1.reportList,
        r.timeline.map (·.status) = ["submitted", "under-review", "in-progress", "resolved"]) := by
  decide

/-- C17, amended: in a repository that holds every report object once, with
pairwise distinct ids, repeating rounds of scheduled advances until no report
is pending ends after exactly three rounds when some report is `submitted`;
every such report is then `resolved` and its timeline has grown by exactly the
three entries `under-review`, `in-progress`, `resolved`, which makes five
entries for a report as `submitReport` stored it. -/
theorem resolveAll_submitted (s : App) (hperm : s.reports.Perm (List.range s.heap.length))
    (hids : (s.heap.map (·.id)).Nodup) (clock : Nat → Nat → Time) (fuel : Nat)
    (hfuel : 3 ≤ fuel) (a : Nat) (r : Report) (hr : s.deref a = some r)
    (hst : r.status = "submitted") :
    (resolveAll clock fuel 0 s).2 = 3 ∧
    pendingReports (resolveAll clock fuel 0 s).1 = [] ∧
    (∃ n₁ n₂ n₃, (resolveAll clock fuel 0 s).1.deref a = some { r with
      status := "resolved"
      timeline := r.timeline ++
        [{ status := "under-review", date := n₁,
           description := "Report is being reviewed by authorities" },
         { status := "in-progress", date := n₂,
           description := "Authorities have started working on this issue" },
         { status := "resolved", date := n₃,
           description := "Issue has been successfully resolved" }] }) ∧
    (r.timeline.map (·.status) = ["submitted", "routed"] →
      ∃ r', (resolveAll clock fuel 0 s).1.deref a = some r' ∧ r'.status = "resolved" ∧
        r'.timeline.map (·.status) =
          ["submitted", "routed", "under-review", "in-progress", "resolved"]) := by
  obtain ⟨f, rfl⟩ : ∃ f, fuel = f + 3 := ⟨fuel - 3, by omega⟩
  -- first round
  obtain ⟨-, hperm1, hids1, -, -, hp1, -⟩ := advanceRound_spec hperm hids (clock 0)
  have hpend0 : isPending r = true := (isPending_iff r).mpr (Or.inl hst)
  obtain ⟨n₁, hd1⟩ := hp1 a r hr hpend0
  rw [advanced_submitted r n₁ hst] at hd1
  -- second round
  obtain ⟨-, hperm2, hids2, -, -, hp2, -⟩ := advanceRound_spec hperm1 hids1 (clock 1)
  have hpend1 : isPending (r.withStatus "under-review"
      "Report is being reviewed by authorities" n₁) = true := by
    rw [isPending_iff]; exact Or.inr (Or.inl rfl)
  obtain ⟨n₂, hd2⟩ := hp2 a _ hd1 hpend1
  rw [advanced_underReview _ n₂ rfl] at hd2
  -- third round
  obtain ⟨-, hperm3, hids3, -, -, hp3, -⟩ := advanceRound_spec hperm2 hids2 (clock 2)
  have hpend2 : isPending ((r.withStatus "under-review"
      "Report is being reviewed by authorities" n₁).withStatus "in-progress"
      "Authorities have started working on this issue" n₂) = true := by
    rw [isPending_iff]; exact Or.inr (Or.inr rfl)
  obtain ⟨n₃, hd3⟩ := hp3 a _ hd2 hpend2
  rw [advanced_inProgress _ n₃ rfl] at hd3
  -- nothing is pending after the third round
  have hnone : pendingReports (advanceRound (advanceRound (advanceRound s (clock 0)) (clock 1))
      (clock 2)) = [] := by
    apply pendingReports_eq_nil
    intro b
    rw [stepsLeft_after_round hperm2 hids2, stepsLeft_after_round hperm1 hids1,
      stepsLeft_after_round hperm hids]
    cases hb : s.deref b with
    | none => left; rfl
    | some rb =>
      right
      have := stepsLeft_le rb
      simp only [Option.map_some', Option.some.injEq]
      omega
  -- the loop
  have hloop : resolveAll clock (f + 3) 0 s =
      (advanceRound (advanceRound (advanceRound s (clock 0)) (clock 1)) (clock 2), 3) := by
    rw [resolveAll_of_pending clock (f + 2) 0 s (mem_pending_of_status hperm hr hpend0),
      resolveAll_of_pending clock (f + 1) 1 _ (mem_pending_of_status hperm1 hd1 hpend1),
      resolveAll_of_pending clock f 2 _ (mem_pending_of_status hperm2 hd2 hpend2),
      resolveAll_of_none clock f 3 _ hnone]
  rw [hloop]
  dsimp only
  refine ⟨rfl, hnone, ⟨n₁, n₂, n₃, ?_⟩, ?_⟩
  · rw [hd3]
    simp [Report.withStatus]
  · intro ht
    refine ⟨((r.withStatus "under-review" "Report is being reviewed by authorities"
      n₁).withStatus "in-progress" "Authorities have started working on this issue"
      n₂).withStatus "resolved" "Issue has been successfully resolved" n₃, hd3, ?_, ?_⟩
    · simp [Report.withStatus]
    · simp [Report.withStatus, ht]

/-- Witness of the amended C17: the first of three reports stored by
`submitReport`. -/
theorem resolveAll_submitted_witness :
    (resolveAll (fun _ _ => 99) 7 0 threeSubmitted).2 = 3 ∧
    pendingReports (resolveAll (fun _ _ => 99) 7 0 threeSubmitted).1 = [] ∧
    ∃ r', (resolveAll (fun _ _ => 99) 7 0 threeSubmitted).1.deref 0 = some r' ∧
      r'.status = "resolved" ∧
      r'.timeline.map (·.status) =
        ["submitted", "routed", "under-review", "in-progress", "resolved"] :=
  ⟨(resolveAll_submitted threeSubmitted (by decide) (by decide) (fun _ _ => 99) 7 (by decide)
      0 _ rfl rfl).1,
   (resolveAll_submitted threeSubmitted (by decide) (by decide) (fun _ _ => 99) 7 (by decide)
      0 _ rfl rfl).2.1,
   (resolveAll_submitted threeSubmitted (by decide) (by decide) (fun _ _ => 99) 7 (by decide)
      0 _ rfl rfl).2.2.2 rfl⟩

/-! ## The order of the repository across a dashboard update -/

@[simp] theorem updateDashboard_storage (s : App) :
    (updateDashboard s).storage = s.storage := by
  unfold updateDashboard updateRecentActivity
  dsimp only
  split <;> rfl

/-- With the container on the page the repository becomes the sorted one. -/
theorem updateDashboard_reports_sorted (s : App) (h : s.recentActivity = true) :
    (updateDashboard s).reports =
      s.reports.insertionSort (fun a b => s.submittedAtOf b - s.submittedAtOf a ≤ 0) := by
  unfold updateDashboard updateRecentActivity
  dsimp only
  rw [if_pos h]
  rfl

/-- Without the container `updateRecentActivity` returns before the sort. -/
theorem updateDashboard_reports_same (s : App) (h : s.recentActivity = false) :
    (updateDashboard s).reports = s.reports := by
  unfold updateDashboard updateRecentActivity
  dsimp only
  rw [if_neg (by rw [h]; decide)]

/-- The same objects behind a permuted array are a permutation of the reports. -/
theorem reportList_perm {s s' : App} (hh : s'.heap = s.heap) (hp : s'.reports.Perm s.reports) :
    s'.reportList.Perm s.reportList := by
  have hd : s'.deref = s.deref := by
    funext a
    rw [deref_eq, deref_eq, hh]
  unfold App.reportList
  rw [hd]
  exact hp.filterMap _

/-- Addresses in newest-first order hold reports in newest-first order. -/
theorem reportList_newest_first (s : App) (l : List Nat)
    (h : l.Pairwise (fun a b => s.submittedAtOf b ≤ s.submittedAtOf a)) :
    (l.filterMap s.deref).Pairwise (fun r r' => r'.submittedAt ≤ r.submittedAt) := by
  refine List.Pairwise.filterMap s.deref ?_ h
  intro a a' haa r hr r' hr'
  have e : s.submittedAtOf a = r.submittedAt := by
    unfold App.submittedAtOf
    rw [Option.mem_def.mp hr]
  have e' : s.submittedAtOf a' = r'.submittedAt := by
    unfold App.submittedAtOf
    rw [Option.mem_def.mp hr']
  rw [← e, ← e']
  exact haa

/-- The snapshot that `updateReportStatus` writes lists the reports in the
order the repository had before the call. -/
theorem updateReportStatus_storage (s : App) (reportId newStatus description : String)
    (now : Time) (a : Nat) (r : Report) (hf : s.findReport reportId = some (a, r)) :
    (updateReportStatus s reportId newStatus description now).storage.map (·.reports) =
      some (s.reports.filterMap (updateReportStatus s reportId newStatus description now).deref) := by
  have hd : (updateReportStatus s reportId newStatus description now).deref =
      fun b => (s.heap.set a (r.withStatus newStatus description now))[b]? := by
    funext b
    rw [deref_eq, updateReportStatus_heap hf newStatus description now]
  rw [hd]
  unfold updateReportStatus
  rw [hf]
  dsimp only
  split
  · simp only [showNotification, updateDashboard_storage, saveToLocalStorage, Option.map_some',
      App.reportList, Report.withStatus]
    rfl
  · simp only [updateDashboard_storage, saveToLocalStorage, Option.map_some',
      App.reportList, Report.withStatus]
    rfl

/-- The update of status and timeline leaves `submittedAt` of every object as
it was, so the comparator of the sort reads the same dates. -/
theorem submittedAtOf_set (s : App) (a : Nat) (r : Report) (hd : s.deref a = some r)
    (newStatus description : String) (now : Time) :
    App.submittedAtOf (saveToLocalStorage
      { s with heap := s.heap.set a (r.withStatus newStatus description now) }) =
      s.submittedAtOf := by
  funext b
  unfold App.submittedAtOf
  simp only [deref_eq, saveToLocalStorage]
  rw [List.getElem?_set]
  by_cases e : a = b
  · subst e
    have hlt := deref_lt hd
    rw [if_pos rfl, if_pos hlt, ← deref_eq, hd]
    rfl
  · rw [if_neg e]

/-- With the container on the page, `updateReportStatus` on a report that is
found leaves the repository sorted newest first. -/
theorem updateReportStatus_reports_sorted (s : App) (reportId newStatus description : String)
    (now : Time) (a : Nat) (r : Report) (hf : s.findReport reportId = some (a, r))
    (h : s.recentActivity = true) :
    (updateReportStatus s reportId newStatus description now).reports =
      s.reports.insertionSort (fun b c => s.submittedAtOf c - s.submittedAtOf b ≤ 0) := by
  have hd := (findReport_some hf).2.1
  have hX := updateDashboard_reports_sorted (saveToLocalStorage
      { s with heap := s.heap.set a (r.withStatus newStatus description now) }) h
  rw [submittedAtOf_set s a r hd newStatus description now] at hX
  unfold updateReportStatus
  rw [hf]
  dsimp only
  split
  · exact hX
  · exact hX

theorem reachable_threeSubmitted : Reachable threeSubmitted :=
  Reachable.step
    (Reachable.step
      (Reachable.step (Reachable.empty false defaultSettings true)
        (Step.submit _ potholeForm "a1" 10 10 11 (by decide)))
      (Step.submit _ potholeForm "b2" 20 20 21 (by decide)))
    (Step.submit _ potholeForm "c3" 30 30 31 (by decide))

/-- C21: `updateDashboard` keeps every report object and the elements of the
repository; on a page with the `recentActivity` container it rearranges the
repository itself into the stable newest-first order of `submittedAt` (without
the container the repository is left as it is). The order of insertion is
therefore not kept: three reports submitted one after the other come out
newest first, and after `updateReportStatus` the snapshot written just before
the dashboard update lists the reports in the old order while the repository
in memory holds them in the sorted one. -/
theorem updateDashboard_reorders (s : App) :
    (updateDashboard s).heap = s.heap ∧
    (updateDashboard s).reports.Perm s.reports ∧
    (updateDashboard s).reportList.Perm s.reportList ∧
    (s.recentActivity = true →
      (updateDashboard s).reports =
        s.reports.insertionSort (fun a b => s.submittedAtOf b - s.submittedAtOf a ≤ 0) ∧
      (updateDashboard s).reports.Pairwise
        (fun a b => s.submittedAtOf b ≤ s.submittedAtOf a) ∧
      (updateDashboard s).reportList.Pairwise
        (fun r r' => r'.submittedAt ≤ r.submittedAt)) ∧
    (s.recentActivity = false → (updateDashboard s).reports = s.reports) ∧
    (∀ (reportId newStatus description : String) (now : Time) (a : Nat) (r : Report),
      s.findReport reportId = some (a, r) →
      (updateReportStatus s reportId newStatus description now).storage.map (·.reports) =
        some (s.reports.filterMap
          (updateReportStatus s reportId newStatus description now).deref) ∧
      (updateReportStatus s reportId newStatus description now).reportList =
        (updateReportStatus s reportId newStatus description now).reports.filterMap
          (updateReportStatus s reportId newStatus description now).deref ∧
      (s.recentActivity = true →
        (updateReportStatus s reportId newStatus description now).reports =
          s.reports.insertionSort
            (fun b c => s.submittedAtOf c - s.submittedAtOf b ≤ 0))) ∧
    (Reachable threeSubmitted ∧
      threeSubmitted.reportList.map (·.id) = ["a1", "b2", "c3"] ∧
      (updateDashboard threeSubmitted).reportList.map (·.id) = ["c3", "b2", "a1"] ∧
      (updateReportStatus threeSubmitted "a1" "under-review"
        "Report is being reviewed by authorities" 2010).storage.map
          (fun d => d.reports.map (·.id)) = some ["a1", "b2", "c3"] ∧
      (updateReportStatus threeSubmitted "a1" "under-review"
        "Report is being reviewed by authorities" 2010).reportList.map (·.id)
          = ["c3", "b2", "a1"]) := by
  refine ⟨updateDashboard_heap s, updateDashboard_reports_perm s,
    reportList_perm (updateDashboard_heap s) (updateDashboard_reports_perm s), ?_,
    updateDashboard_reports_same s, ?_,
    reachable_threeSubmitted, by decide, by decide, by decide, by decide⟩
  · intro h
    have hs := updateDashboard_reports_sorted s h
    have hp : (updateDashboard s).reports.Pairwise
        (fun a b => s.submittedAtOf b ≤ s.submittedAtOf a) := by
      rw [hs]
      exact insertionSort_newest_first s _
    refine ⟨hs, hp, ?_⟩
    have hd : (updateDashboard s).deref = s.deref := by
      funext a
      rw [deref_eq, deref_eq, updateDashboard_heap]
    unfold App.reportList
    rw [hd]
    exact reportList_newest_first s _ hp
  · intro reportId newStatus description now a r hf
    refine ⟨updateReportStatus_storage s reportId newStatus description now a r hf, rfl, ?_⟩
    intro h
    exact updateReportStatus_reports_sorted s reportId newStatus description now a r hf h

/-- Witness of C21 on three reports submitted one after the other, on a page
with the container: the dashboard update reverses the repository. -/
theorem updateDashboard_reorders_witness :
    threeSubmitted.recentActivity = true ∧
    threeSubmitted.reports = [0, 1, 2] ∧
    (updateDashboard threeSubmitted).reports = [2, 1, 0] ∧
    (updateDashboard threeSubmitted).reportList.Pairwise
      (fun r r' => r'.submittedAt ≤ r.submittedAt) ∧
    (updateReportStatus threeSubmitted "a1" "under-review"
      "Report is being reviewed by authorities" 2010).reports = [2, 1, 0] :=
  ⟨by decide, by decide,
   ((updateDashboard_reorders threeSubmitted).2.2.2.1 (by decide)).1.trans (by decide),
   ((updateDashboard_reorders threeSubmitted).2.2.2.1 (by decide)).2.2,
   (((updateDashboard_reorders threeSubmitted).2.2.2.2.2.1 "a1" "under-review"
      "Report is being reviewed by authorities" 2010 0 _ rfl).2.2
        (by decide)).trans (by decide)⟩

/-! ## The invariant across page loads -/

theorem filterMap_range_getElem (l : List Report) :
    (List.range l.length).filterMap (fun i => l[i]?) = l := by
  have h := filterMap_range' [] l
  simpa [List.range_eq_range'] using h

/-- A repository that holds every object once lists the objects of the heap. -/
theorem reportList_perm_heap {s : App} (hperm : s.reports.Perm (List.range s.heap.length)) :
    s.reportList.Perm s.heap := by
  have h := hperm.filterMap s.deref
  have e : (List.range s.heap.length).filterMap s.deref = s.heap :=
    filterMap_range_getElem s.heap
  rw [e] at h
  exact h

theorem Inv.reportList_ids {s : App} (h : Inv s) : (s.reportList.map (·.id)).Nodup :=
  (((reportList_perm_heap h.perm).map (·.id)).nodup_iff).mpr h.ids

theorem storedIds_of_perm {s : App} (h : Inv s) {d : Snapshot} (hd : s.storage = some d)
    (hp : d.reports.Perm s.reportList) : (storedIds s).Nodup := by
  unfold storedIds
  rw [hd]
  exact ((hp.map (·.id)).nodup_iff).mpr h.reportList_ids

theorem storedIds_of_eq {s s' : App} (he : s'.storage = s.storage)
    (h : (storedIds s).Nodup) : (storedIds s').Nodup := by
  unfold storedIds at h ⊢
  rw [he]
  exact h

/-- The snapshot after `updateReportStatus`: the old one, or one that lists the
reports of the repository. -/
theorem updateReportStatus_storage_cases (s : App) (reportId newStatus description : String)
    (now : Time) :
    (updateReportStatus s reportId newStatus description now).storage = s.storage ∨
    ∃ d, (updateReportStatus s reportId newStatus description now).storage = some d ∧
      d.reports.Perm (updateReportStatus s reportId newStatus description now).reportList := by
  cases hf : s.findReport reportId with
  | none => left; rw [updateReportStatus_of_none hf]
  | some p =>
    obtain ⟨a, r⟩ := p
    right
    have h := updateReportStatus_storage s reportId newStatus description now a r hf
    cases hst : (updateReportStatus s reportId newStatus description now).storage with
    | none => rw [hst] at h; cases h
    | some d =>
      rw [hst] at h
      refine ⟨d, rfl, ?_⟩
      simp only [Option.map_some', Option.some.injEq] at h
      rw [h]
      exact ((updateReportStatus_reports_perm s reportId newStatus description now).symm).filterMap _

theorem runTask_storage_cases (s : App) (task : TimerTask) (now : Time) :
    (runTask s task now).storage = s.storage ∨
    ∃ d, (runTask s task now).storage = some d ∧ d.reports.Perm (runTask s task now).reportList := by
  cases task with
  | updateStatus reportId newStatus description =>
    exact updateReportStatus_storage_cases s reportId newStatus description now
  | advance b =>
    simp only [runTask]
    rcases advanceTask_cases s b now with h | ⟨r, ns, d, -, -, h⟩
    · left; rw [h]
    · rw [h]; exact updateReportStatus_storage_cases s r.id ns d now
  | simulate => left; rfl

/-- The snapshot after an event: the old one, or one that lists the reports of
the repository. -/
theorem step_storage {s s' : App} (st : Step s s') :
    s'.storage = s.storage ∨ ∃ d, s'.storage = some d ∧ d.reports.Perm s'.reportList := by
  cases st with
  | submit form id t₁ t₂ t₃ fresh =>
    cases hv : (validateReportData (collectReportData s form id t₁ t₂)).isValid with
    | false => left; rw [submitReport_invalid s form id t₁ t₂ t₃ hv]; rfl
    | true =>
      right
      simp only [submitReport, hv]
      exact ⟨_, rfl, List.Perm.refl _⟩
  | draft form id t₁ t₂ t₃ => exact Or.inr ⟨_, rfl, List.Perm.refl _⟩
  | register name email phone location id now =>
    unfold registerUser
    split
    · left; rfl
    · exact Or.inr ⟨_, rfl, List.Perm.refl _⟩
  | online isOnline => left; rfl
  | dashboard => left; exact updateDashboard_storage s
  | timer i now due =>
    rw [fire_eq s i now due]
    exact runTask_storage_cases { s with timers := s.timers.eraseIdx i } s.timers[i].task now

theorem step_storedIds {s s' : App} (hinv : Inv s') (st : Step s s')
    (h : (storedIds s).Nodup) : (storedIds s').Nodup := by
  rcases step_storage st with he | ⟨d, hd, hp⟩
  · exact storedIds_of_eq he h
  · exact storedIds_of_perm hinv hd hp

/-- The invariant after `generateMockData` and `updateDashboard` on an
application object without timers. -/
theorem inv_start (X : App) (id₁ id₂ : String) (now : Nat → Time) (distinct : id₁ ≠ id₂)
    (hperm : X.reports.Perm (List.range X.heap.length))
    (hids : (X.heap.map (·.id)).Nodup) (ht : X.timers = []) :
    Inv (updateDashboard (generateMockData X id₁ id₂ now)) := by
  have base : Inv (generateMockData X id₁ id₂ now) := by
    by_cases h0 : X.reports.length = 0
    · have hh : X.heap = [] := by
        have := hperm.length_eq
        rw [h0, List.length_range] at this
        exact List.length_eq_zero.mp this.symm
      refine ⟨?_, ?_, ?_, ?_, ?_, ?_, ?_⟩ <;>
        simp [generateMockData, h0, hh, ht, App.tasks, advanceAddrs, statusIds, setTimeout,
          saveToLocalStorage, mockReports, TimerTask.advanceAddr, TimerTask.statusId, distinct,
          List.range_succ]
    · refine ⟨?_, ?_, ?_, ?_, ?_, ?_, ?_⟩ <;>
        simp [generateMockData, h0, ht, App.tasks, advanceAddrs, statusIds, setTimeout,
          TimerTask.advanceAddr, TimerTask.statusId, hperm, hids]
  exact base.of_sublist (updateDashboard_heap _) (updateDashboard_reports_perm _)
    (by rw [updateDashboard_timers])

theorem storedIds_start (X : App) (id₁ id₂ : String) (now : Nat → Time) (distinct : id₁ ≠ id₂)
    (hperm : X.reports.Perm (List.range X.heap.length)) (hst : (storedIds X).Nodup) :
    (storedIds (updateDashboard (generateMockData X id₁ id₂ now))).Nodup := by
  unfold storedIds
  rw [updateDashboard_storage]
  by_cases h0 : X.reports.length = 0
  · have hh : X.heap = [] := by
      have := hperm.length_eq
      rw [h0, List.length_range] at this
      exact List.length_eq_zero.mp this.symm
    simp [generateMockData, h0, hh, setTimeout, saveToLocalStorage, mockReports,
      App.reportList, App.deref, distinct]
  · have e : (generateMockData X id₁ id₂ now).storage = X.storage := by
      simp [generateMockData, h0, setTimeout]
    rw [e]
    exact hst

/-- What `loadFromLocalStorage` leaves on a new application object when the
stored ids are pairwise distinct. -/
theorem load_start (s : App) (isOffline : Bool) (settings : Settings) (recentActivity : Bool)
    (hst : (storedIds s).Nodup) :
    (loadFromLocalStorage { App.new isOffline settings recentActivity with storage := s.storage }
      s.storedItem).reports.Perm (List.range (loadFromLocalStorage
        { App.new isOffline settings recentActivity with storage := s.storage }
        s.storedItem).heap.length) ∧
    ((loadFromLocalStorage { App.new isOffline settings recentActivity with storage := s.storage }
      s.storedItem).heap.map (·.id)).Nodup ∧
    (loadFromLocalStorage { App.new isOffline settings recentActivity with storage := s.storage }
      s.storedItem).timers = [] ∧
    (storedIds (loadFromLocalStorage
      { App.new isOffline settings recentActivity with storage := s.storage }
      s.storedItem)).Nodup := by
  unfold storedIds at hst ⊢
  unfold App.storedItem
  cases hd : s.storage with
  | none =>
    simp [loadFromLocalStorage, App.new]
  | some d =>
    rw [hd] at hst
    simp only [Option.map_some', loadFromLocalStorage, applySettings, App.new,
      Snapshot.throughJSON, List.nil_append, List.length_nil, List.length_map]
    refine ⟨?_, ?_, trivial, hst⟩
    · rw [List.range_eq_range']
    · rw [List.map_map]
      exact hst

/-- Invariant and distinct stored ids hold in every state the program reaches
over any number of page loads. -/
theorem inv_of_reachableOverLoads {s : App} (hs : ReachableOverLoads s) :
    Inv s ∧ (storedIds s).Nodup := by
  induction hs with
  | empty isOffline settings recentActivity =>
    exact ⟨inv_new _ _ _, List.nodup_nil⟩
  | seeded isOffline settings recentActivity id₁ id₂ now distinct =>
    refine ⟨inv_init _ _ _ _ _ _ distinct, ?_⟩
    exact storedIds_start (App.new isOffline settings recentActivity) id₁ id₂ now distinct
      (List.Perm.refl _) List.nodup_nil
  | step _ st ih => exact ⟨ih.1.step st, step_storedIds (ih.1.step st) st ih.2⟩
  | reload _ isOffline settings recentActivity id₁ id₂ now distinct ih =>
    obtain ⟨h1, h2, h3, h4⟩ := load_start _ isOffline settings recentActivity ih.2
    exact ⟨inv_start _ id₁ id₂ now distinct h1 h2 h3, storedIds_start _ id₁ id₂ now distinct h1 h4⟩

/-- Every state of one page load on empty storage is a state over page loads. -/
theorem reachableOverLoads_of_reachable {s : App} (hs : Reachable s) : ReachableOverLoads s := by
  induction hs with
  | empty isOffline settings recentActivity => exact .empty _ _ _
  | seeded isOffline settings recentActivity id₁ id₂ now distinct =>
    exact .seeded _ _ _ _ _ _ distinct
  | step _ st ih => exact .step ih st

/-- C8: in every state the program reaches over any number of page loads, an
event of the running program (a user action, the deferred status update of
`submitReport`, an advance step, `simulateResolution`) leaves every report
object whose status is `resolved` unchanged: same status, same timeline. -/
theorem resolved_absorbing (s s' : App) (hs : ReachableOverLoads s) (st : Step s s')
    (a : Nat) (r : Report) (hr : s.deref a = some r) (hres : r.status = "resolved") :
    s'.deref a = some r :=
  step_keeps_resolved (inv_of_reachableOverLoads hs).1 st a r hr hres

/-- Witness of C8. A report stored by `submitReport` is resolved on the third
page load; when the deferred status update of a second report fires, the
second report goes under review and the resolved one stays as it is. On the
seeded application, the advance step that resolves the first demo report
leaves the resolved second one as it is. -/
theorem resolved_absorbing_witness :
    thirdLoad.reportList.map (fun r => (r.id, r.status, r.timeline.map (·.status)))
      = [("a1", "resolved", ["submitted", "routed", "under-review", "in-progress", "resolved"]),
         ("b2", "submitted", ["submitted", "routed"])] ∧
    ((fire thirdLoad 0 222001).heap.map (fun r => (r.id, r.status)))
      = [("a1", "resolved"), ("b2", "under-review")] ∧
    (fire thirdLoad 0 222001).deref 0 = thirdLoad.deref 0 ∧
    ((fire seededApp 0 7).timers.map (·.task)) = [.advance 0] ∧
    ((fire (fire seededApp 0 7) 0 8).heap.map (fun r => (r.id, r.status)))
      = [("m1", "resolved"), ("m2", "resolved")] ∧
    (fire (fire seededApp 0 7) 0 8).deref 1 = seededApp.deref 1 :=
  ⟨by decide, by decide,
   resolved_absorbing thirdLoad (fire thirdLoad 0 222001)
     (.step
       (.step
         (.step
           (.reload
             (.step
               (.step
                 (.reload
                   (.step
                     (.step (.empty false defaultSettings true)
                       (Step.submit _ potholeForm "a1" 10 10 11 (by decide)))
                     (Step.timer _ 0 2011 (by decide)))
                   false defaultSettings true "m1" "m2" (fun _ => 100000) (by decide))
                 (Step.timer _ 0 105000 (by decide)))
               (Step.timer _ 0 115000 (by decide)))
             false defaultSettings true "m1" "m2" (fun _ => 200000) (by decide))
           (Step.timer _ 0 205000 (by decide)))
         (Step.timer _ 0 215000 (by decide)))
       (Step.submit _ potholeForm "b2" 220000 220000 220001 (by decide)))
     (Step.timer thirdLoad 0 222001 (by decide)) 0 _ rfl rfl,
   by decide, by decide,
   resolved_absorbing (fire seededApp 0 7) (fire (fire seededApp 0 7) 0 8)
     (.step (.seeded false defaultSettings true "m1" "m2" _ (by decide))
       (Step.timer seededApp 0 7 (by decide)))
     (Step.timer (fire seededApp 0 7) 0 8 (by decide)) 1 _ rfl rfl⟩

end CivicConnect
